import Mathlib

/-!
# SerialSend

A shallow embedding of `SerialSend.c` (one `main` function) and theorems about
its phases: argument parsing, escape decoding, the port scan, configuration,
the write loop and the close.

Conventions of the embedding.

* A C string is the list of its bytes (`Nat`, each in `1..255`), the
  terminator left out.  `argv[1..argc)` is a list of such strings.
* The stack arrays `buffer` and `text_to_send` are lists of `MAX_PATH` bytes.
  `text_to_send` is not initialised by the program, so its initial content is
  a parameter of the model.
* `int` variables are `Int`.
* The operating system is an oracle (`Env`): which device numbers open, and
  what each later call answers.  The run returns its exit status together
  with the trace of device operations it performed.
-/

namespace SerialSend

/-! ## C strings and the two stack arrays -/

/-- Size of the stack arrays: `MAX_PATH` of `<windows.h>`. -/
def MAX_PATH : Nat := 260

/-- The bytes of a string literal of the source. -/
def cstr (s : String) : List Nat := s.toList.map Char.toNat

/-- Well-formed C string content: every byte is a non-zero `char`. -/
def isCStr (s : List Nat) : Prop := ∀ b ∈ s, 0 < b ∧ b < 256

instance (s : List Nat) : Decidable (isCStr s) := by
  unfold isCStr; infer_instance

/-- The read `a[i]`.  An index past the end of the list reads as 0; the decode
loop makes such a read only for `digits[1]` when `digits[0]` is already the
terminator, where the value read is never looked at. -/
def rd (a : List Nat) (i : Nat) : Nat := a.getD i 0

/-- The C function `strlen` on an array: the number of bytes before the first
zero byte. -/
def strlen (a : List Nat) : Nat := (a.takeWhile (fun b => b != 0)).length

/-- The C function `strcpy(dst, src)`: the bytes of `src` and a terminator are
stored at the start of `dst`, the rest of `dst` keeps its content.  It is
`none` when `src` and its terminator do not fit in `dst`, where the C program
writes past the array. -/
def strcpy (dst src : List Nat) : Option (List Nat) :=
  if src.length + 1 ≤ dst.length then
    some (src ++ 0 :: dst.drop (src.length + 1))
  else none

/-! ## `strtol(digits, NULL, 16)` -/

/-- The C function `isspace` in the "C" locale. -/
def isspace (c : Nat) : Bool := c == 32 || (9 ≤ c && c ≤ 13)

/-- Value of a hexadecimal digit character, `none` for any other byte. -/
def hexval (c : Nat) : Option Nat :=
  if 48 ≤ c ∧ c ≤ 57 then some (c - 48)
  else if 97 ≤ c ∧ c ≤ 102 then some (c - 87)
  else if 65 ≤ c ∧ c ≤ 70 then some (c - 55)
  else none

/-- Accumulate the longest run of hexadecimal digits at the head of `s`. -/
def hexDigits : Nat → List Nat → Nat
  | acc, [] => acc
  | acc, c :: cs =>
    match hexval c with
    | some v => hexDigits (16 * acc + v) cs
    | none => acc

/-- The C function `strtol(s, NULL, 16)` on the bytes of `s` before its
terminator: leading white space, an optional sign, an optional `0x`/`0X`
prefix, then the longest run of hexadecimal digits; 0 when there is none. -/
def strtol16 (s : List Nat) : Int :=
  let s1 := s.dropWhile isspace
  let neg := s1.head? == some 45
  let s2 := if s1.head? == some 45 || s1.head? == some 43 then s1.tail else s1
  let s3 :=
    match s2 with
    | 48 :: x :: h :: r =>
      if (x == 120 || x == 88) && (hexval h).isSome then h :: r else s2
    | _ => s2
  let v : Int := hexDigits 0 s3
  if neg then -v else v

/-- Conversion of a `long` to `unsigned char`. -/
def toUChar (v : Int) : Nat := (v % 256).toNat

/-! ## The escape decoding loop (lines 168-193) -/

/-- The variables of the decode loop. -/
structure DecState where
  n : Nat
  m : Nat
  text_to_send : List Nat
  deriving DecidableEq, Repr

/-- One iteration of the body of `while (n < strlen(buffer))`.
Byte values: 92 backslash, 110 `n`, 114 `r`, 120 `x`, 10 newline, 13 carriage
return.  When the byte after a backslash is none of the four, no branch
stores anything and `text_to_send[m]` keeps what it held. -/
def decodeStep (parse_hex_bytes : Bool) (buffer : List Nat) (s : DecState) : DecState :=
  if parse_hex_bytes && rd buffer s.n == 92 then
    let n := s.n + 1
    if rd buffer n == 92 then
      { n := n + 1, m := s.m + 1, text_to_send := s.text_to_send.set s.m 92 }
    else if rd buffer n == 110 then
      { n := n + 1, m := s.m + 1, text_to_send := s.text_to_send.set s.m 10 }
    else if rd buffer n == 114 then
      { n := n + 1, m := s.m + 1, text_to_send := s.text_to_send.set s.m 13 }
    else if rd buffer n == 120 then
      let digits := [rd buffer (n + 1), rd buffer (n + 2), 0]
      { n := n + 3, m := s.m + 1,
        text_to_send :=
          s.text_to_send.set s.m
            (toUChar (strtol16 (digits.takeWhile (fun b => b != 0)))) }
    else
      { n := n + 1, m := s.m + 1, text_to_send := s.text_to_send }
  else
    { n := s.n + 1, m := s.m + 1, text_to_send := s.text_to_send.set s.m (rd buffer s.n) }

/-- The loop `while (n < strlen(buffer)) { ... }` with a bound on the number
of iterations; `none` when the bound is reached before the loop ends. -/
def decodeLoop (parse_hex_bytes : Bool) (buffer : List Nat) : Nat → DecState → Option DecState
  | 0, _ => none
  | fuel + 1, s =>
    if s.n < strlen buffer then
      decodeLoop parse_hex_bytes buffer fuel (decodeStep parse_hex_bytes buffer s)
    else some s

/-- Lines 169-193: `n = 0; m = 0;`, the loop, and the final
`text_to_send[m] = 0`.  `stack` is the content of `text_to_send` on entry. -/
def decode (parse_hex_bytes : Bool) (buffer stack : List Nat) : Option DecState :=
  (decodeLoop parse_hex_bytes buffer (MAX_PATH + 1) ⟨0, 0, stack⟩).map
    fun s => { s with text_to_send := s.text_to_send.set s.m 0 }

/-- The bytes handed to the transmitter: `text_to_send[0..m)`. -/
def DecState.bytes (s : DecState) : List Nat := s.text_to_send.take s.m


/-- The state after `k` iterations of the decode loop, or the final state when
the loop ends before that. -/
def decodeIter (parse_hex_bytes : Bool) (buffer : List Nat) : Nat → DecState → DecState
  | 0, s => s
  | k + 1, s =>
    if s.n < strlen buffer then
      decodeIter parse_hex_bytes buffer k (decodeStep parse_hex_bytes buffer s)
    else s

/-! ## Well-formed escaped text

The vocabulary in which the escape syntax is stated: a well-formed payload is
a sequence of items, each an ordinary character or one of the four escapes. -/

/-- One unit of escaped text. -/
inductive Item where
  | lit (c : Nat)
  | bslash
  | nl
  | cr
  | hex (h1 h2 : Nat)
  deriving DecidableEq, Repr

/-- The characters an item is written with. -/
def Item.text : Item → List Nat
  | .lit c => [c]
  | .bslash => [92, 92]
  | .nl => [92, 110]
  | .cr => [92, 114]
  | .hex h1 h2 => [92, 120, h1, h2]

/-- The byte an item stands for. -/
def Item.byte : Item → Nat
  | .lit c => c
  | .bslash => 92
  | .nl => 10
  | .cr => 13
  | .hex h1 h2 => 16 * (hexval h1).getD 0 + (hexval h2).getD 0

/-- An ordinary character is not the backslash; the two characters of a hex
escape are hexadecimal digits. -/
def Item.ok : Item → Prop
  | .lit c => c ≠ 92
  | .hex h1 h2 => (hexval h1).isSome ∧ (hexval h2).isSome
  | _ => True

instance (it : Item) : Decidable it.ok := by
  cases it <;> unfold Item.ok <;> infer_instance

/-- The text of a sequence of items. -/
def render : List Item → List Nat
  | [] => []
  | it :: items => it.text ++ render items

/-- An item has the shape of an escape or of an ordinary character whatever
follows `\x`: only the ordinary character is restricted, to not being the
backslash. -/
def Item.shaped : Item → Prop
  | .lit c => c ≠ 92
  | _ => True

instance (it : Item) : Decidable it.shaped := by
  cases it <;> unfold Item.shaped <;> infer_instance

/-- The byte the loop stores for an item: for `\x` and two characters, what
`strtol` in base 16 reads from the two characters. -/
def Item.value : Item → Nat
  | .lit c => c
  | .bslash => 92
  | .nl => 10
  | .cr => 13
  | .hex h1 h2 => toUChar (strtol16 [h1, h2])

/-- The number of two-character escapes among the items. -/
def twoCharEscapes : List Item → Nat
  | [] => 0
  | .bslash :: items => twoCharEscapes items + 1
  | .nl :: items => twoCharEscapes items + 1
  | .cr :: items => twoCharEscapes items + 1
  | _ :: items => twoCharEscapes items

/-- The number of backslash-`x` escapes among the items. -/
def hexEscapes : List Item → Nat
  | [] => 0
  | .hex _ _ :: items => hexEscapes items + 1
  | _ :: items => hexEscapes items

/-! ## The reads and writes of the decode loop -/

/-- The indices at which one iteration of the loop body reads `buffer`, one
entry for each evaluation of a `buffer[..]` expression, in order.  Line 172
reads `buffer[n]` only when `parse_hex_bytes` is set; the comparisons of lines
175-178 each read `buffer[n]` again after `n++`; lines 180-181 read the two
characters after `x`; line 188 reads `buffer[n]`. -/
def decodeStepReads (parse_hex_bytes : Bool) (buffer : List Nat) (s : DecState) : List Nat :=
  if parse_hex_bytes then
    if rd buffer s.n == 92 then
      let n := s.n + 1
      if rd buffer n == 92 then [s.n, n]
      else if rd buffer n == 110 then [s.n, n, n]
      else if rd buffer n == 114 then [s.n, n, n, n]
      else if rd buffer n == 120 then [s.n, n, n, n, n, n + 1, n + 2]
      else [s.n, n, n, n, n]
    else [s.n, s.n]
  else [s.n]

/-- The indices at which one iteration of the loop body stores into
`text_to_send`: `m` in every branch that has an assignment, nothing after a
backslash followed by none of the four characters. -/
def decodeStepWrites (parse_hex_bytes : Bool) (buffer : List Nat) (s : DecState) : List Nat :=
  if parse_hex_bytes && rd buffer s.n == 92 then
    let n := s.n + 1
    if rd buffer n == 92 then [s.m]
    else if rd buffer n == 110 then [s.m]
    else if rd buffer n == 114 then [s.m]
    else if rd buffer n == 120 then [s.m]
    else []
  else [s.m]

/-- The reads of `buffer` made by the bodies of the decode loop, in order. -/
def decodeReads (parse_hex_bytes : Bool) (buffer : List Nat) : Nat → DecState → List Nat
  | 0, _ => []
  | fuel + 1, s =>
    if s.n < strlen buffer then
      decodeStepReads parse_hex_bytes buffer s
        ++ decodeReads parse_hex_bytes buffer fuel (decodeStep parse_hex_bytes buffer s)
    else []

/-- The stores into `text_to_send` made by the bodies of the decode loop, in
order. -/
def decodeWrites (parse_hex_bytes : Bool) (buffer : List Nat) : Nat → DecState → List Nat
  | 0, _ => []
  | fuel + 1, s =>
    if s.n < strlen buffer then
      decodeStepWrites parse_hex_bytes buffer s
        ++ decodeWrites parse_hex_bytes buffer fuel (decodeStep parse_hex_bytes buffer s)
    else []

/-! ## `atoi` -/

/-- The C function `isdigit`. -/
def isdigit (c : Nat) : Bool := 48 ≤ c && c ≤ 57

/-- Accumulate the longest run of decimal digits at the head of `s`. -/
def decDigits : Nat → List Nat → Nat
  | acc, [] => acc
  | acc, c :: cs => if isdigit c then decDigits (10 * acc + (c - 48)) cs else acc

/-- Conversion to a 32-bit `int`. -/
def toInt32 (v : Int) : Int := (v + 2147483648) % 4294967296 - 2147483648

/-- The C function `atoi`: leading white space, an optional sign, then the
longest run of decimal digits; 0 when there is none.  A value outside the
range of `int` is undefined in C; here it wraps to 32 bits. -/
def atoi (s : List Nat) : Int :=
  let s1 := s.dropWhile isspace
  let neg := s1.head? == some 45
  let s2 := if s1.head? == some 45 || s1.head? == some 43 then s1.tail else s1
  let v : Int := decDigits 0 s2
  toInt32 (if neg then -v else v)

/-! ## Command-line parsing (lines 32-40 and 45-166) -/

/-- The variables of `main` that the command line sets, with the initial
values of lines 32-40, and the array `buffer`. -/
structure Settings where
  baudrate : Int := 9600
  dev_num : Int := 50
  dtr : Int := 1
  parse_hex_bytes : Int := 0
  close_delay : Int := 0
  quiet : Int := 0
  no_scan : Int := 0
  even_parity : Int := 0
  odd_parity : Int := 0
  buffer : List Nat
  deriving DecidableEq, Repr

/-- Why the parsing phase stops.  The first five are the `return 1`
statements of lines 71, 87, 104, 137 and 165, named after the message printed
before them; `overrun` is a `strcpy` past the end of `buffer`, where the C
program has no defined behaviour. -/
inductive ParseError where
  | baudRateError
  | deviceNumberError
  | closeDelayError
  | dtrError
  | usage
  | overrun
  deriving DecidableEq, Repr

instance : DecidableEq (Except ParseError Settings) := fun a b =>
  match a, b with
  | .ok x, .ok y =>
    if h : x = y then isTrue (by rw [h]) else isFalse (fun e => h (by cases e; rfl))
  | .error x, .error y =>
    if h : x = y then isTrue (by rw [h]) else isFalse (fun e => h (by cases e; rfl))
  | .ok _, .error _ => isFalse (fun e => by cases e)
  | .error _, .ok _ => isFalse (fun e => by cases e)

/-- Lines 47-50: the pass that looks for `/quiet` among all arguments. -/
def quietPass (args : List (List Nat)) : Int :=
  if args.any (fun a => a == cstr "/quiet") then 1 else 0

/-- Lines 59-158: the loop `while (argn < argc)` over `argv[argn..argc)`.
`++argn < argc` is the test that a further argument exists; the branch then
consumes it, and the `argn++` that ends the body moves past it. -/
def parseLoop : List (List Nat) → Settings → Except ParseError Settings
  | [], st => .ok st
  | arg :: rest, st =>
    if arg = cstr "/baudrate" then
      match rest with
      | v :: rest' =>
        if atoi v > 0 then parseLoop rest' { st with baudrate := atoi v }
        else .error .baudRateError
      | [] => .error .baudRateError
    else if arg = cstr "/devnum" then
      match rest with
      | v :: rest' => parseLoop rest' { st with dev_num := atoi v }
      | [] => .error .deviceNumberError
    else if arg = cstr "/closedelay" then
      match rest with
      | v :: rest' => parseLoop rest' { st with close_delay := atoi v }
      | [] => .error .closeDelayError
    else if arg = cstr "/noscan" then
      parseLoop rest { st with no_scan := 1 }
    else if arg = cstr "/evenparity" then
      parseLoop rest { st with even_parity := 1 }
    else if arg = cstr "/oddparity" then
      parseLoop rest { st with odd_parity := 1 }
    else if arg = cstr "/dtr" then
      match rest with
      | v :: rest' => parseLoop rest' { st with dtr := atoi v }
      | [] => .error .dtrError
    else if arg = cstr "/hex" then
      parseLoop rest { st with parse_hex_bytes := 1 }
    else
      match strcpy st.buffer arg with
      | some b => parseLoop rest { st with buffer := b }
      | none => .error .overrun

/-- Lines 45-166: the `/quiet` pass, `strcpy(buffer, "")`, the parsing loop,
and the check that `buffer` holds some text.  `buffer0` is the content of the
array `buffer` on entry. -/
def parseArgs (args : List (List Nat)) (buffer0 : List Nat) : Except ParseError Settings :=
  match strcpy buffer0 [] with
  | none => .error .overrun
  | some b =>
    match parseLoop args { quiet := quietPass args, buffer := b } with
    | .error e => .error e
    | .ok st => if strlen st.buffer = 0 then .error .usage else .ok st

/-- The payload text the later phases see: the string held in `buffer`. -/
def Settings.payload (st : Settings) : List Nat := st.buffer.take (strlen st.buffer)

/-! ## The serial device -/

/-- The fields of the `DCB` structure that the program assigns (lines
233-237); the others keep what `GetCommState` stored. -/
structure DCB where
  BaudRate : Int
  ByteSize : Int
  StopBits : Int
  Parity : Int
  fDtrControl : Int
  deriving DecidableEq, Repr

/-- The `COMMTIMEOUTS` structure (lines 246-250). -/
structure COMMTIMEOUTS where
  ReadIntervalTimeout : Int
  ReadTotalTimeoutConstant : Int
  ReadTotalTimeoutMultiplier : Int
  WriteTotalTimeoutConstant : Int
  WriteTotalTimeoutMultiplier : Int
  deriving DecidableEq, Repr

/-- Constants of `<windows.h>`. -/
def NOPARITY : Int := 0

/-- Constant of `<windows.h>`. -/
def ODDPARITY : Int := 1

/-- Constant of `<windows.h>`. -/
def EVENPARITY : Int := 2

/-- Constant of `<windows.h>`. -/
def ONESTOPBIT : Int := 0

/-- Constant of `<windows.h>`. -/
def DTR_CONTROL_DISABLE : Int := 0

/-- Constant of `<windows.h>`. -/
def DTR_CONTROL_ENABLE : Int := 1

/-- Range of a `DWORD`. -/
def DWORD_MOD : Nat := 4294967296

/-- One call on the device, with its arguments and its result. -/
inductive DevOp where
  | createFile (dev_num : Int) (ok : Bool)
  | getCommState (ok : Bool)
  | setCommState (dcb : DCB) (ok : Bool)
  | setCommTimeouts (t : COMMTIMEOUTS) (ok : Bool)
  | writeFile (offset : Nat) (bytes : List Nat) (written : Option Nat)
  | flushFileBuffers
  | sleep (ms : Int)
  | closeHandle (ok : Bool)
  deriving DecidableEq, Repr

/-- The answers of the operating system.  `createFile n` tells whether
`\\.\COMn` opens; `writeFile i bytes` is the answer to the `i`-th call of
`WriteFile` (from 0) asked to write `bytes`: `none` for failure, `some k` for
success with `bytes_written = k`. -/
structure Env where
  createFile : Int → Bool
  getCommState : Bool
  setCommState : DCB → Bool
  setCommTimeouts : Bool
  writeFile : Nat → List Nat → Option Nat
  closeHandle : Bool

/-! ## The port scan (lines 197-219) -/

/-- The loop `while (dev_num >= 0)` with a bound on the number of iterations.
The result is the value of `dev_num` after the loop and the open attempts made,
in order; the loop is left by `break` exactly when `dev_num >= 0` afterwards. -/
def scanLoop (createFile : Int → Bool) (no_scan : Int) :
    Nat → Int → List DevOp → Option (Int × List DevOp)
  | 0, _, _ => none
  | fuel + 1, dev_num, tr =>
    if dev_num ≥ 0 then
      if createFile dev_num then
        some (dev_num, tr ++ [DevOp.createFile dev_num true])
      else
        scanLoop createFile no_scan fuel (if no_scan ≠ 0 then -1 else dev_num - 1)
          (tr ++ [DevOp.createFile dev_num false])
    else some (dev_num, tr)

/-- The port scan from `dev_num`: a start `s >= 0` needs at most `s + 1`
iterations and one more test of the loop condition. -/
def locate (createFile : Int → Bool) (no_scan : Int) (dev_num : Int) :
    Option (Int × List DevOp) :=
  scanLoop createFile no_scan (dev_num.toNat + 2) dev_num []

/-! ## Configuration, transmission and close (lines 225-294) -/

/-- Lines 233-237: the device parameters requested. -/
def dcbSerialParams (st : Settings) : DCB :=
  { BaudRate := st.baudrate
    ByteSize := 8
    StopBits := ONESTOPBIT
    Parity := if st.even_parity ≠ 0 then EVENPARITY
              else if st.odd_parity ≠ 0 then ODDPARITY else NOPARITY
    fDtrControl := if st.dtr ≠ 0 then DTR_CONTROL_ENABLE else DTR_CONTROL_DISABLE }

/-- Lines 246-250: the timeouts requested. -/
def timeouts : COMMTIMEOUTS :=
  { ReadIntervalTimeout := 50
    ReadTotalTimeoutConstant := 50
    ReadTotalTimeoutMultiplier := 10
    WriteTotalTimeoutConstant := 50
    WriteTotalTimeoutMultiplier := 10 }

/-- Lines 261-272: the loop `while (total_bytes_written < m)` with a bound on
the number of iterations.  `i` counts the calls of `WriteFile`.  The result is
whether every write succeeded, `total_bytes_written`, and the calls made. -/
def writeLoop (writeFile : Nat → List Nat → Option Nat) (text_to_send : List Nat) (m : Nat) :
    Nat → Nat → Nat → List DevOp → Option (Bool × Nat × List DevOp)
  | 0, _, _, _ => none
  | fuel + 1, i, total_bytes_written, tr =>
    if total_bytes_written < m then
      let bytes := (text_to_send.drop total_bytes_written).take (m - total_bytes_written)
      match writeFile i bytes with
      | none => some (false, total_bytes_written,
                  tr ++ [DevOp.writeFile total_bytes_written bytes none])
      | some bytes_written =>
        writeLoop writeFile text_to_send m fuel (i + 1)
          ((total_bytes_written + bytes_written) % DWORD_MOD)
          (tr ++ [DevOp.writeFile total_bytes_written bytes (some bytes_written)])
    else some (true, total_bytes_written, tr)

/-- How a run ends: `exit status trace` is a `return status` of `main` after
the device calls `trace`; `undefined` is a run that wrote past `buffer`;
`running` is a run whose write loop has not ended within the bound. -/
inductive Outcome where
  | exit (status : Nat) (trace : List DevOp)
  | undefined
  | running (trace : List DevOp)
  deriving DecidableEq, Repr

/-- Lines 225-294, entered with the device open: configure, send
`text_to_send[0..m)`, flush, wait, close.  `tr` is the trace so far. -/
def sendAndClose (env : Env) (st : Settings) (text_to_send : List Nat) (m : Nat)
    (fuel : Nat) (tr : List DevOp) : Outcome :=
  if !env.getCommState then
    .exit 1 (tr ++ [.getCommState false, .closeHandle env.closeHandle])
  else
    let tr := tr ++ [.getCommState true]
    if !env.setCommState (dcbSerialParams st) then
      .exit 1 (tr ++ [.setCommState (dcbSerialParams st) false, .closeHandle env.closeHandle])
    else
      let tr := tr ++ [.setCommState (dcbSerialParams st) true]
      if !env.setCommTimeouts then
        .exit 1 (tr ++ [.setCommTimeouts timeouts false, .closeHandle env.closeHandle])
      else
        let tr := tr ++ [.setCommTimeouts timeouts true]
        match writeLoop env.writeFile text_to_send m fuel 0 0 tr with
        | none => .running tr
        | some (false, _, tr) => .exit 1 (tr ++ [.closeHandle env.closeHandle])
        | some (true, _, tr) =>
          let tr := tr ++ [.flushFileBuffers]
          let tr := if st.close_delay > 0 then tr ++ [.sleep st.close_delay] else tr
          if !env.closeHandle then .exit 1 (tr ++ [.closeHandle false])
          else .exit 0 (tr ++ [.closeHandle true])

/-- Lines 195-294: the port scan from the device number of the settings, the
`return 1` of line 218 when it ends with `dev_num < 0`, and otherwise the
configuration, transmission and close on the device opened. -/
def openAndSend (env : Env) (st : Settings) (text_to_send : List Nat) (m : Nat)
    (fuel : Nat) : Outcome :=
  match locate env.createFile st.no_scan st.dev_num with
  | none => .running []
  | some (dev_num, tr) =>
    if dev_num < 0 then .exit 1 tr
    else sendAndClose env st text_to_send m fuel tr

/-- The function `main` on the arguments `argv[1..argc)`.  `buffer0` and
`stack` are the contents of the arrays `buffer` and `text_to_send` on entry,
`fuel` bounds the iterations of the write loop. -/
def main (args : List (List Nat)) (buffer0 stack : List Nat) (env : Env) (fuel : Nat) :
    Outcome :=
  match parseArgs args buffer0 with
  | .error .overrun => .undefined
  | .error _ => .exit 1 []
  | .ok st =>
    match decode (st.parse_hex_bytes != 0) st.buffer stack with
    | none => .running []
    | some d => openAndSend env st d.text_to_send d.m fuel

/-! ## The tokens of the command line

Two readings of "the text to send among the tokens": the one the parsing loop
implements, and the one of the specification, where `/quiet` is a flag. -/

/-- The arguments after which the parsing loop takes a value. -/
def valueFlags : List (List Nat) :=
  [cstr "/baudrate", cstr "/devnum", cstr "/closedelay", cstr "/dtr"]

/-- The arguments without a value that the parsing loop has a branch for. -/
def loopFlags : List (List Nat) :=
  [cstr "/noscan", cstr "/evenparity", cstr "/oddparity", cstr "/hex"]

/-- The arguments that reach the last branch of the parsing loop (line 153),
in order, when the loop runs to the end of the list. -/
def textArgs : List (List Nat) → List (List Nat)
  | [] => []
  | arg :: rest =>
    if arg ∈ valueFlags then
      match rest with
      | _ :: rest' => textArgs rest'
      | [] => []
    else if arg ∈ loopFlags then textArgs rest
    else arg :: textArgs rest

/-- The non-flag tokens in the words of the specification: the tokens that
are neither a recognised flag (`/quiet` is one) nor the value of a
value-taking flag, in order. -/
def nonFlagTokens : List (List Nat) → List (List Nat)
  | [] => []
  | arg :: rest =>
    if arg ∈ valueFlags then
      match rest with
      | _ :: rest' => nonFlagTokens rest'
      | [] => []
    else if arg ∈ cstr "/quiet" :: loopFlags then nonFlagTokens rest
    else arg :: nonFlagTokens rest

/-- The arguments in flag position: those the parsing loop compares with the
flag names when it runs to the end of the list, which is every argument that
is not taken as the value of a value-taking flag. -/
def headArgs : List (List Nat) → List (List Nat)
  | [] => []
  | arg :: rest =>
    if arg ∈ valueFlags then
      match rest with
      | _ :: rest' => arg :: headArgs rest'
      | [] => [arg]
    else arg :: headArgs rest

/-- The state of the parsing loop on entry (line 58): the initial values of
lines 32-40, `quiet` as the pass of lines 47-50 left it, and `buffer` holding
the empty string. -/
def settingsOnEntry (args : List (List Nat)) (buffer0 : List Nat) : Settings :=
  { quiet := quietPass args, buffer := 0 :: buffer0.drop 1 }

/-- The decimal digits of `n` in front of `acc`, most significant first;
`fuel` bounds the number of digits produced. -/
def numeralAux : Nat → Nat → List Nat → List Nat
  | 0, _, acc => acc
  | fuel + 1, n, acc =>
    if n < 10 then (n + 48) :: acc
    else numeralAux fuel (n / 10) ((n % 10 + 48) :: acc)

/-- The token that writes the number `n` in decimal, as in `/baudrate 19200`. -/
def numeral (n : Nat) : List Nat := numeralAux (n + 1) n []

/-- Largest value of a 32-bit `int`. -/
def INT_MAX : Nat := 2147483647

/-! ## Reading a trace -/

/-- The bytes the device took: of every successful write, the first
`bytes_written` bytes of what it was given, in the order of the calls. -/
def accepted : List DevOp → List Nat
  | [] => []
  | .writeFile _ bytes (some k) :: ops => bytes.take k ++ accepted ops
  | _ :: ops => accepted ops

/-- A sequence of `WriteFile` calls as the write loop issues them from
`total_bytes_written = total`: each call is at offset `total_bytes_written`
with the `m - total_bytes_written` bytes from there, a successful call moves
`total_bytes_written` on by its count, and nothing follows a failed call. -/
def writesChained (text_to_send : List Nat) (m : Nat) : Nat → List DevOp → Prop
  | _, [] => True
  | total, .writeFile offset bytes res :: ops =>
    offset = total ∧ bytes = (text_to_send.drop total).take (m - total) ∧
    bytes.length = m - total ∧
    (match res with
     | some k => writesChained text_to_send m (total + k) ops
     | none => ops = [])
  | _, _ :: _ => False

/-- The calls of the write loop as the answers of the device force them, from
call number `i` and `total_bytes_written = total`.  While
`total_bytes_written < m` there is a next call: it is at offset
`total_bytes_written` with the `m - total_bytes_written` bytes from there, and
its recorded result is the answer `writeFile i` gives to exactly these bytes.
After a successful answer `k` the calls go on from call `i + 1` and
`total_bytes_written + k`; after a failed one nothing follows.  The list ends
without a failure only when `total_bytes_written` has reached `m`. -/
def writesFollow (writeFile : Nat → List Nat → Option Nat) (text_to_send : List Nat)
    (m : Nat) : Nat → Nat → List DevOp → Prop
  | _, total, [] => m ≤ total
  | i, total, .writeFile offset bytes res :: ops =>
    total < m ∧ offset = total ∧ bytes = (text_to_send.drop total).take (m - total) ∧
    res = writeFile i bytes ∧
    (match res with
     | some k => writesFollow writeFile text_to_send m (i + 1) (total + k) ops
     | none => ops = [])
  | _, _, _ :: _ => False

/-- Whether a device call succeeded; `FlushFileBuffers` and `Sleep` have no
result the program looks at. -/
def DevOp.ok : DevOp → Bool
  | .createFile _ ok => ok
  | .getCommState ok => ok
  | .setCommState _ ok => ok
  | .setCommTimeouts _ ok => ok
  | .writeFile _ _ written => written.isSome
  | .flushFileBuffers => true
  | .sleep _ => true
  | .closeHandle ok => ok

/-- Whether a device call is a `CreateFile`. -/
def DevOp.isOpen : DevOp → Bool
  | .createFile _ _ => true
  | _ => false

/-- Whether a device call is a `CloseHandle`. -/
def DevOp.isClose : DevOp → Bool
  | .closeHandle _ => true
  | _ => false

/-- The device calls of a run, whatever way it ends. -/
def Outcome.trace : Outcome → List DevOp
  | .exit _ tr => tr
  | .running tr => tr
  | .undefined => []

/-- An environment for examples: every device number opens, every call
succeeds, and every write takes all the bytes it is given. -/
def readyEnv : Env :=
  { createFile := fun _ => true
    getCommState := true
    setCommState := fun _ => true
    setCommTimeouts := true
    writeFile := fun _ bytes => some bytes.length
    closeHandle := true }

/-! ## Facts about the arrays -/

theorem strlen_append_zero (p r : List Nat) (h : isCStr p) :
    strlen (p ++ 0 :: r) = p.length := by
  induction p with
  | nil => simp [strlen]
  | cons a p ih =>
    have ha : a ≠ 0 := by
      have := (h a (by simp)).1
      omega
    have hp : isCStr p := fun b hb => h b (by simp [hb])
    have := ih hp
    simp only [strlen] at this ⊢
    simp [List.takeWhile_cons, ha, this]

theorem strcpy_fits (dst p : List Nat) (h : p.length < dst.length) :
    strcpy dst p = some (p ++ 0 :: dst.drop (p.length + 1)) := by
  unfold strcpy
  rw [if_pos (by omega)]

theorem rd_payload (p r : List Nat) (i : Nat) (h : i < p.length) :
    rd (p ++ r) i = p.getD i 0 := by
  unfold rd
  simp [List.getD_eq_getElem?_getD, List.getElem?_append_left h]

theorem rd_terminator (p r : List Nat) : rd (p ++ 0 :: r) p.length = 0 := by
  unfold rd
  rw [List.getD_append_right _ _ _ _ (le_refl _)]
  simp

theorem take_set_succ (t : List Nat) (m v : Nat) (h : m < t.length) :
    (t.set m v).take (m + 1) = t.take m ++ [v] := by
  rw [List.set_eq_take_append_cons_drop, if_pos h,
    List.take_append_eq_append_take]
  simp [List.take_take, Nat.min_eq_left (Nat.le_of_lt h)]

theorem take_succ_getD (p : List Nat) (k : Nat) (h : k < p.length) :
    p.take (k + 1) = p.take k ++ [p.getD k 0] := by
  rw [List.take_succ]
  simp [List.getD_eq_getElem?_getD, List.getElem?_eq_getElem h]

/-! ## Facts about the decode loop -/

theorem decodeStep_n_lt (hex : Bool) (b : List Nat) (s : DecState) :
    s.n < (decodeStep hex b s).n := by
  unfold decodeStep
  dsimp only
  split_ifs <;> dsimp only <;> omega

theorem decodeStep_m (hex : Bool) (b : List Nat) (s : DecState) :
    (decodeStep hex b s).m = s.m + 1 := by
  unfold decodeStep
  dsimp only
  split_ifs <;> rfl

theorem decodeStep_length (hex : Bool) (b : List Nat) (s : DecState) :
    (decodeStep hex b s).text_to_send.length = s.text_to_send.length := by
  unfold decodeStep
  dsimp only
  split_ifs <;> simp

theorem decodeStep_take (hex : Bool) (b : List Nat) (s : DecState) (j : Nat)
    (hj : j ≤ s.m) :
    (decodeStep hex b s).text_to_send.take j = s.text_to_send.take j := by
  have key : ∀ v, (s.text_to_send.set s.m v).take j = s.text_to_send.take j := by
    intro v
    rcases Nat.lt_or_ge s.m s.text_to_send.length with h | h
    · rw [List.set_eq_take_append_cons_drop, if_pos h,
        List.take_append_of_le_length (by simp; omega), List.take_take,
        Nat.min_eq_left hj]
    · rw [List.set_eq_take_append_cons_drop, if_neg (by omega)]
  unfold decodeStep
  dsimp only
  split_ifs <;> simp [key]

/-- The loop ends within `strlen buffer - n + 1` tests of its condition. -/
theorem decodeLoop_terminates (hex : Bool) (b : List Nat) :
    ∀ (fuel : Nat) (s : DecState), strlen b - s.n < fuel →
      ∃ r, decodeLoop hex b fuel s = some r := by
  intro fuel
  induction fuel with
  | zero => intro s h; omega
  | succ f ih =>
    intro s h
    unfold decodeLoop
    by_cases hg : s.n < strlen b
    · rw [if_pos hg]
      apply ih
      have := decodeStep_n_lt hex b s
      omega
    · rw [if_neg hg]
      exact ⟨s, rfl⟩

/-- Invariant rule for the loop: what holds on entry and is kept by every
iteration holds on exit, where the loop condition is false. -/
theorem decodeLoop_invariant (hex : Bool) (b : List Nat) (P : DecState → Prop)
    (hstep : ∀ s, P s → s.n < strlen b → P (decodeStep hex b s)) :
    ∀ (fuel : Nat) (s r : DecState), P s → decodeLoop hex b fuel s = some r →
      P r ∧ strlen b ≤ r.n := by
  intro fuel
  induction fuel with
  | zero => intro s r _ h; simp [decodeLoop] at h
  | succ f ih =>
    intro s r hP h
    unfold decodeLoop at h
    by_cases hg : s.n < strlen b
    · rw [if_pos hg] at h
      exact ih _ r (hstep s hP hg) h
    · rw [if_neg hg] at h
      cases h
      exact ⟨hP, by omega⟩

/-- With `parse_hex_bytes` clear the body is the plain copy
`text_to_send[m] = buffer[n]`. -/
theorem decodeStep_plain (b : List Nat) (s : DecState) :
    decodeStep false b s =
      { n := s.n + 1, m := s.m + 1, text_to_send := s.text_to_send.set s.m (rd b s.n) } := by
  simp [decodeStep]

/-- C1: with hex decoding disabled, a non-empty payload shorter than `MAX_PATH`
is copied into `buffer`, the decode loop ends, and the bytes `text_to_send[0..m)`
handed to the transmitter are the payload's bytes in order, with `m` the
payload length (byte 92, the backslash, is copied like any other byte). -/
theorem plain_payload_sent_unchanged (payload buffer0 stack : List Nat)
    (hwf : isCStr payload) (_hne : payload ≠ [])
    (hlen : payload.length < MAX_PATH)
    (hbuf : buffer0.length = MAX_PATH) (hstack : stack.length = MAX_PATH) :
    ∃ buffer s, strcpy buffer0 payload = some buffer ∧
      decode false buffer stack = some s ∧
      s.m = payload.length ∧ s.bytes = payload := by
  let b := payload ++ 0 :: buffer0.drop (payload.length + 1)
  have hcpy : strcpy buffer0 payload = some b := strcpy_fits _ _ (by omega)
  have hsl : strlen b = payload.length := strlen_append_zero _ _ hwf
  obtain ⟨r, hr⟩ := decodeLoop_terminates false b (MAX_PATH + 1) ⟨0, 0, stack⟩
    (by simp only [hsl]; omega)
  have hinv := decodeLoop_invariant false b
    (fun s => s.n = s.m ∧ s.n ≤ payload.length ∧ s.text_to_send.length = MAX_PATH ∧
      s.text_to_send.take s.m = payload.take s.m)
    (by
      intro s ⟨h1, h2, h3, h4⟩ hg
      rw [hsl] at hg
      rw [decodeStep_plain]
      refine ⟨by simp [h1], by simp; omega, by simp [h3], ?_⟩
      simp only
      rw [take_set_succ _ _ _ (by omega), h4, rd_payload _ _ _ hg, ← h1,
        take_succ_getD _ _ hg])
    (MAX_PATH + 1) ⟨0, 0, stack⟩ r ⟨rfl, Nat.zero_le _, hstack, by simp⟩ hr
  obtain ⟨⟨h1, h2, h3, h4⟩, h5⟩ := hinv
  rw [hsl] at h5
  have hm : r.m = payload.length := by omega
  refine ⟨b, { r with text_to_send := r.text_to_send.set r.m 0 }, hcpy,
    by simp [decode, hr], hm, ?_⟩
  simp only [DecState.bytes]
  rw [List.set_eq_take_append_cons_drop, if_pos (by omega),
    List.take_append_of_le_length (by simp; omega), List.take_take, Nat.min_self,
    h4, hm, List.take_length]


theorem decodeLoop_mono (hex : Bool) (b : List Nat) :
    ∀ (fuel : Nat) (s r : DecState), decodeLoop hex b fuel s = some r →
      decodeLoop hex b (fuel + 1) s = some r := by
  intro fuel
  induction fuel with
  | zero => intro s r h; simp [decodeLoop] at h
  | succ f ih =>
    intro s r h
    rw [decodeLoop] at h ⊢
    by_cases hg : s.n < strlen b
    · rw [if_pos hg] at h ⊢
      exact ih _ _ h
    · rw [if_neg hg] at h ⊢
      exact h

/-- The loop started from a state it passes through ends in the same state. -/
theorem decodeLoop_from_iter (hex : Bool) (b : List Nat) (k : Nat) :
    ∀ (fuel : Nat) (s r : DecState), decodeLoop hex b fuel s = some r →
      decodeLoop hex b fuel (decodeIter hex b k s) = some r := by
  induction k with
  | zero => intro fuel s r h; exact h
  | succ k ih =>
    intro fuel s r h
    cases fuel with
    | zero => simp [decodeLoop] at h
    | succ f =>
      rw [decodeIter]
      by_cases hg : s.n < strlen b
      · rw [if_pos hg]
        rw [decodeLoop, if_pos hg] at h
        exact decodeLoop_mono hex b f _ _ (ih f _ _ h)
      · rw [if_neg hg]
        exact h

theorem decodeIter_succ (hex : Bool) (b : List Nat) (k : Nat) :
    ∀ s : DecState, decodeIter hex b (k + 1) s =
      if (decodeIter hex b k s).n < strlen b then decodeStep hex b (decodeIter hex b k s)
      else decodeIter hex b k s := by
  induction k with
  | zero => intro s; simp [decodeIter]
  | succ k ih =>
    intro s
    rw [decodeIter]
    by_cases hg : s.n < strlen b
    · rw [if_pos hg, ih]
      conv_rhs => rw [decodeIter, if_pos hg]
    · rw [if_neg hg]
      conv_rhs => rw [decodeIter, if_neg hg]
      simp [hg]

/-- Invariant rule for the states the loop passes through. -/
theorem decodeIter_invariant (hex : Bool) (b : List Nat) (P : DecState → Prop)
    (hstep : ∀ s, P s → s.n < strlen b → P (decodeStep hex b s)) (k : Nat) :
    ∀ s : DecState, P s → P (decodeIter hex b k s) := by
  induction k with
  | zero => intro s h; exact h
  | succ k ih =>
    intro s h
    rw [decodeIter]
    by_cases hg : s.n < strlen b
    · rw [if_pos hg]; exact ih _ (hstep s h hg)
    · rw [if_neg hg]; exact h

/-- Bytes stored below `m` are never touched again, and `m` never decreases. -/
theorem decodeLoop_keeps (hex : Bool) (b : List Nat) (fuel : Nat) (s r : DecState)
    (h : decodeLoop hex b fuel s = some r) :
    s.m ≤ r.m ∧ r.text_to_send.take s.m = s.text_to_send.take s.m ∧
      r.text_to_send.length = s.text_to_send.length := by
  have := decodeLoop_invariant hex b
    (fun x => s.m ≤ x.m ∧ x.text_to_send.take s.m = s.text_to_send.take s.m ∧
      x.text_to_send.length = s.text_to_send.length)
    (by
      intro x ⟨h1, h2, h3⟩ _
      refine ⟨by rw [decodeStep_m]; omega, ?_, by rw [decodeStep_length, h3]⟩
      rw [decodeStep_take _ _ _ _ h1, h2])
    fuel s r ⟨le_refl _, rfl, rfl⟩ h
  exact this.1

/-- In every state the loop passes through from `n = m = 0`, `m ≤ n`, `m` is at
most the number of bytes read below the terminator, and the array keeps its
size. -/
theorem decodeIter_bounds (hex : Bool) (b stack : List Nat) (k : Nat) :
    (decodeIter hex b k ⟨0, 0, stack⟩).m ≤ (decodeIter hex b k ⟨0, 0, stack⟩).n ∧
    (decodeIter hex b k ⟨0, 0, stack⟩).m ≤ strlen b ∧
    (decodeIter hex b k ⟨0, 0, stack⟩).text_to_send.length = stack.length := by
  apply decodeIter_invariant hex b
    (fun x => x.m ≤ x.n ∧ x.m ≤ strlen b ∧ x.text_to_send.length = stack.length)
  · intro x ⟨h1, h2, h3⟩ hg
    have := decodeStep_n_lt hex b x
    refine ⟨by rw [decodeStep_m]; omega, by rw [decodeStep_m]; omega, ?_⟩
    rw [decodeStep_length, h3]
  · exact ⟨le_refl _, Nat.zero_le _, rfl⟩

/-- The decode phase always ends: the loop needs at most `strlen buffer`
iterations, and `strlen buffer < MAX_PATH` for an array of `MAX_PATH` bytes
that holds a terminator. -/
theorem decode_total (hex : Bool) (b stack : List Nat) (hb : strlen b ≤ MAX_PATH) :
    ∃ r, decodeLoop hex b (MAX_PATH + 1) ⟨0, 0, stack⟩ = some r ∧
      decode hex b stack = some { r with text_to_send := r.text_to_send.set r.m 0 } := by
  obtain ⟨r, hr⟩ := decodeLoop_terminates hex b (MAX_PATH + 1) ⟨0, 0, stack⟩
    (by simp only; omega)
  exact ⟨r, hr, by simp [decode, hr]⟩

/-- What an iteration stores at `text_to_send[m]` is the byte the transmitter
gets at position `m`: for a state `s` the loop passes through with the loop
condition true, the next state is `decodeStep s`, and the final output agrees
with `decodeStep s` at `m`. -/
theorem decode_reached (hex : Bool) (b stack : List Nat) (r : DecState) (k : Nat)
    (hb : strlen b < stack.length)
    (hdec : decode hex b stack = some r)
    (hg : (decodeIter hex b k ⟨0, 0, stack⟩).n < strlen b) :
    decodeIter hex b (k + 1) ⟨0, 0, stack⟩ = decodeStep hex b (decodeIter hex b k ⟨0, 0, stack⟩) ∧
    (decodeIter hex b k ⟨0, 0, stack⟩).m < r.m ∧
    (decodeIter hex b k ⟨0, 0, stack⟩).m < (decodeIter hex b k ⟨0, 0, stack⟩).text_to_send.length ∧
    r.bytes[(decodeIter hex b k ⟨0, 0, stack⟩).m]? =
      (decodeStep hex b (decodeIter hex b k ⟨0, 0, stack⟩)).text_to_send[(decodeIter hex b k ⟨0, 0, stack⟩).m]? := by
  generalize hs : decodeIter hex b k ⟨0, 0, stack⟩ = s at *
  obtain ⟨hb1, hb2, hb3⟩ := decodeIter_bounds hex b stack k
  rw [hs] at hb1 hb2 hb3
  simp only [decode, Option.map_eq_some'] at hdec
  obtain ⟨r0, hr0, hr⟩ := hdec
  have h1 := decodeLoop_from_iter hex b k _ _ _ hr0
  rw [hs, decodeLoop, if_pos hg] at h1
  obtain ⟨k1, k2, k3⟩ := decodeLoop_keeps hex b _ _ _ h1
  rw [decodeStep_m] at k1 k2
  have hrm : r.m = r0.m := by rw [← hr]
  refine ⟨by rw [decodeIter_succ, hs, if_pos hg], by omega, by omega, ?_⟩
  have hbytes : r.bytes = r0.text_to_send.take r0.m := by
    rw [← hr]
    simp only [DecState.bytes]
    rcases Nat.lt_or_ge r0.m r0.text_to_send.length with h | h
    · rw [List.set_eq_take_append_cons_drop, if_pos h,
        List.take_append_of_le_length (by simp; omega), List.take_take, Nat.min_self]
    · rw [List.set_eq_take_append_cons_drop, if_neg (by omega)]
  rw [hbytes, List.getElem?_take_of_lt (by omega)]
  have := congrArg (fun l => l[s.m]?) k2
  simp only [List.getElem?_take_of_lt (Nat.lt_succ_self s.m)] at this
  exact this

/-! ## Facts about `strtol` on two digits -/

theorem hexval_bounds (c v : Nat) (h : hexval c = some v) :
    48 ≤ c ∧ c ≤ 102 ∧ v < 16 := by
  unfold hexval at h
  split_ifs at h <;> simp at h <;> omega

theorem hexDigits_two (h1 h2 v1 v2 : Nat) (e1 : hexval h1 = some v1)
    (e2 : hexval h2 = some v2) : hexDigits 0 [h1, h2] = 16 * v1 + v2 := by
  simp [hexDigits, e1, e2]

/-- On two hexadecimal digit characters `strtol` returns `16 * v1 + v2`,
which fits an `unsigned char`. -/
theorem strtol16_two_digits (h1 h2 v1 v2 : Nat) (e1 : hexval h1 = some v1)
    (e2 : hexval h2 = some v2) :
    toUChar (strtol16 ([h1, h2, 0].takeWhile (fun b => b != 0))) = 16 * v1 + v2 := by
  obtain ⟨a1, a2, a3⟩ := hexval_bounds _ _ e1
  obtain ⟨b1, b2, b3⟩ := hexval_bounds _ _ e2
  have n1 : h1 ≠ 0 := by omega
  have n2 : h2 ≠ 0 := by omega
  have hsp : isspace h1 = false := by
    simp [isspace]; omega
  have hd : hexDigits 0 [h1, h2] = 16 * v1 + v2 := hexDigits_two _ _ _ _ e1 e2
  have m45 : h1 ≠ 45 := by omega
  have m43 : h1 ≠ 43 := by omega
  simp [List.takeWhile_cons, n1, n2, strtol16, List.dropWhile_cons, hsp, m45, m43, hd, toUChar]
  omega

theorem drop_cons_rd (p r : List Nat) (n c : Nat) (rest : List Nat)
    (h : p.drop n = c :: rest) :
    n < p.length ∧ rd (p ++ r) n = c ∧ p.drop (n + 1) = rest := by
  have hlt : n < p.length := by
    by_contra hc
    rw [List.drop_of_length_le (by omega)] at h
    cases h
  refine ⟨hlt, ?_, ?_⟩
  · rw [rd_payload _ _ _ hlt, List.getD_eq_getElem?_getD, ← List.head?_drop, h]
    rfl
  · rw [← List.drop_drop 1 n, h]; rfl

/-! ## The loop on well-formed escaped text -/

theorem rd_at (pre suf : List Nat) (i : Nat) :
    rd (pre ++ suf) (pre.length + i) = rd suf i := by
  unfold rd
  rw [List.getD_append_right _ _ _ _ (by omega)]
  simp

theorem Item.text_ne_nil (it : Item) : 0 < it.text.length := by
  cases it <;> simp [Item.text]

/-- Over well-formed items the loop takes one iteration per item: it moves `n`
past the item's text and stores the item's byte at `text_to_send[m]`. -/
theorem decodeIter_items (r : List Nat) :
    ∀ (items : List Item) (pre : List Nat) (s : DecState),
      (∀ it ∈ items, it.ok) → isCStr (pre ++ render items) → s.n = pre.length →
      s.m + items.length ≤ s.text_to_send.length →
      (decodeIter true (pre ++ (render items ++ 0 :: r)) items.length s).n
          = pre.length + (render items).length ∧
      (decodeIter true (pre ++ (render items ++ 0 :: r)) items.length s).m
          = s.m + items.length ∧
      (decodeIter true (pre ++ (render items ++ 0 :: r)) items.length s).text_to_send.length
          = s.text_to_send.length ∧
      (decodeIter true (pre ++ (render items ++ 0 :: r)) items.length s).text_to_send.take
          (s.m + items.length) = s.text_to_send.take s.m ++ items.map Item.byte := by
  intro items
  induction items with
  | nil =>
    intro pre s _ _ hn _
    simp [decodeIter, render, hn]
  | cons it items ih =>
    intro pre s hok hwf hn hm
    have hsl : strlen (pre ++ (render (it :: items) ++ 0 :: r))
        = (pre ++ render (it :: items)).length := by
      rw [← List.append_assoc]; exact strlen_append_zero _ _ hwf
    have hg : s.n < strlen (pre ++ (render (it :: items) ++ 0 :: r)) := by
      rw [hsl, hn]
      have := Item.text_ne_nil it
      simp [render]; omega
    have hb : pre ++ (render (it :: items) ++ 0 :: r)
        = (pre ++ it.text) ++ (render items ++ 0 :: r) := by
      simp [render]
    have hrd : ∀ i, rd (pre ++ (render (it :: items) ++ 0 :: r)) (s.n + i)
        = rd (it.text ++ (render items ++ 0 :: r)) i := by
      intro i
      rw [hn, rd_at]; simp [render]
    have hrd0 := hrd 0
    rw [Nat.add_zero] at hrd0
    have hwf' : isCStr ((pre ++ it.text) ++ render items) := by
      simpa [render] using hwf
    have hok' : ∀ x ∈ items, x.ok := fun x hx => hok x (by simp [hx])
    have hitok : it.ok := hok it (by simp)
    have hlen : (it :: items).length = items.length + 1 := rfl
    -- the state after this iteration
    have hstep : ∃ t, decodeStep true (pre ++ (render (it :: items) ++ 0 :: r)) s
          = ⟨s.n + it.text.length, s.m + 1, t⟩ ∧ t.length = s.text_to_send.length ∧
          t.take (s.m + 1) = s.text_to_send.take s.m ++ [it.byte] := by
      have hset : ∀ v, (s.text_to_send.set s.m v).take (s.m + 1)
          = s.text_to_send.take s.m ++ [v] := fun v => take_set_succ _ _ _ (by omega)
      cases it with
      | lit c =>
        have hc : c ≠ 92 := hitok
        have r0 : rd (pre ++ (render (Item.lit c :: items) ++ 0 :: r)) s.n = c := by
          rw [hrd0]; simp [rd, Item.text]
        refine ⟨s.text_to_send.set s.m c, ?_, by simp, hset c⟩
        simp [decodeStep, r0, hc, Item.text]
      | bslash =>
        have r0 : rd (pre ++ (render (Item.bslash :: items) ++ 0 :: r)) s.n = 92 := by
          rw [hrd0]; simp [rd, Item.text]
        have r1 : rd (pre ++ (render (Item.bslash :: items) ++ 0 :: r)) (s.n + 1) = 92 := by
          rw [hrd 1]; simp [rd, Item.text]
        refine ⟨s.text_to_send.set s.m 92, ?_, by simp, hset 92⟩
        simp [decodeStep, r0, r1, Item.text, Nat.add_assoc]
      | nl =>
        have r0 : rd (pre ++ (render (Item.nl :: items) ++ 0 :: r)) s.n = 92 := by
          rw [hrd0]; simp [rd, Item.text]
        have r1 : rd (pre ++ (render (Item.nl :: items) ++ 0 :: r)) (s.n + 1) = 110 := by
          rw [hrd 1]; simp [rd, Item.text]
        refine ⟨s.text_to_send.set s.m 10, ?_, by simp, hset 10⟩
        simp [decodeStep, r0, r1, Item.text, Nat.add_assoc]
      | cr =>
        have r0 : rd (pre ++ (render (Item.cr :: items) ++ 0 :: r)) s.n = 92 := by
          rw [hrd0]; simp [rd, Item.text]
        have r1 : rd (pre ++ (render (Item.cr :: items) ++ 0 :: r)) (s.n + 1) = 114 := by
          rw [hrd 1]; simp [rd, Item.text]
        refine ⟨s.text_to_send.set s.m 13, ?_, by simp, hset 13⟩
        simp [decodeStep, r0, r1, Item.text, Nat.add_assoc]
      | hex h1 h2 =>
        obtain ⟨o1, o2⟩ : (hexval h1).isSome ∧ (hexval h2).isSome := hitok
        obtain ⟨v1, e1⟩ := Option.isSome_iff_exists.mp o1
        obtain ⟨v2, e2⟩ := Option.isSome_iff_exists.mp o2
        have r0 : rd (pre ++ (render (Item.hex h1 h2 :: items) ++ 0 :: r)) s.n = 92 := by
          rw [hrd0]; simp [rd, Item.text]
        have r1 : rd (pre ++ (render (Item.hex h1 h2 :: items) ++ 0 :: r)) (s.n + 1) = 120 := by
          rw [hrd 1]; simp [rd, Item.text]
        have r2 : rd (pre ++ (render (Item.hex h1 h2 :: items) ++ 0 :: r)) (s.n + 1 + 1) = h1 := by
          rw [Nat.add_assoc, hrd 2]; simp [rd, Item.text]
        have r3 : rd (pre ++ (render (Item.hex h1 h2 :: items) ++ 0 :: r)) (s.n + 1 + 2) = h2 := by
          rw [Nat.add_assoc, hrd 3]; simp [rd, Item.text]
        have e := strtol16_two_digits h1 h2 v1 v2 e1 e2
        refine ⟨s.text_to_send.set s.m (16 * v1 + v2), ?_, by simp, ?_⟩
        · simp only [decodeStep, r0, r1, r2, r3, e]
          simp [Item.text, Nat.add_assoc]
        · rw [hset]; simp [Item.byte, e1, e2]
    obtain ⟨t, hst, htl, htt⟩ := hstep
    rw [hlen, decodeIter, if_pos hg, hst, hb]
    have := ih (pre ++ it.text) ⟨s.n + it.text.length, s.m + 1, t⟩ hok' hwf'
      (by simp [hn]) (by simp only [htl]; simp at hm; omega)
    obtain ⟨i1, i2, i3, i4⟩ := this
    refine ⟨?_, ?_, ?_, ?_⟩
    · rw [i1]; simp [render]; omega
    · rw [i2]; simp; omega
    · rw [i3, htl]
    · have e : s.m + (items.length + 1) = s.m + 1 + items.length := by omega
      rw [e, i4]
      simp only [htt, List.map_cons, List.append_assoc, List.singleton_append]

theorem length_le_render (items : List Item) : items.length ≤ (render items).length := by
  induction items with
  | nil => simp [render]
  | cons it items ih =>
    have := Item.text_ne_nil it
    simp [render]; omega

/-- The bytes handed on are `text_to_send[0..m)` as the loop left them: the
final store of the terminator at `text_to_send[m]` is outside that range. -/
theorem bytes_after_terminator (r : DecState) :
    DecState.bytes { r with text_to_send := r.text_to_send.set r.m 0 }
      = r.text_to_send.take r.m := by
  simp only [DecState.bytes]
  rcases Nat.lt_or_ge r.m r.text_to_send.length with h | h
  · rw [List.set_eq_take_append_cons_drop, if_pos h,
      List.take_append_of_le_length (by simp; omega), List.take_take, Nat.min_self]
  · rw [List.set_eq_take_append_cons_drop, if_neg (by omega)]

/-- Whole-run form: a payload that is the text of well-formed items decodes
to the items' bytes, one byte per item, and the loop ends with `n` on the
terminator. -/
theorem decode_items (items : List Item) (buffer0 stack : List Nat)
    (hok : ∀ it ∈ items, it.ok) (hwf : isCStr (render items))
    (hlen : (render items).length < MAX_PATH)
    (hbuf : buffer0.length = MAX_PATH) (hstack : stack.length = MAX_PATH) :
    ∃ b r, strcpy buffer0 (render items) = some b ∧ decode true b stack = some r ∧
      r.n = (render items).length ∧ r.m = items.length ∧
      r.bytes = items.map Item.byte := by
  have hcpy := strcpy_fits buffer0 (render items) (by omega)
  have hsl := strlen_append_zero (render items) (buffer0.drop ((render items).length + 1)) hwf
  obtain ⟨r0, hr0, hdec⟩ := decode_total true
    (render items ++ 0 :: buffer0.drop ((render items).length + 1)) stack (by omega)
  have hil := length_le_render items
  obtain ⟨i1, i2, i3, i4⟩ := decodeIter_items (buffer0.drop ((render items).length + 1))
    items [] ⟨0, 0, stack⟩ hok (by simpa using hwf) rfl (by simp only [hstack]; omega)
  simp only [List.nil_append, List.length_nil, Nat.zero_add, List.take_zero] at i1 i2 i3 i4
  have h1 := decodeLoop_from_iter true _ items.length _ _ _ hr0
  rw [decodeLoop, if_neg (by rw [hsl, i1]; omega)] at h1
  have h1 : decodeIter true (render items ++ 0 :: List.drop ((render items).length + 1) buffer0)
      items.length ⟨0, 0, stack⟩ = r0 := by simpa using h1
  rw [h1] at i1 i2 i3 i4
  refine ⟨_, _, hcpy, hdec, i1, i2, ?_⟩
  rw [bytes_after_terminator, i2, i4]

/-- The setting shared by the statements about one iteration: the payload was
copied into `buffer`, and `s` is a state the loop passes through with a
payload character still to read.  Then the decode phase ends in some `r`, the
next state is `decodeStep s`, and the output byte at position `s.m` is the
one `decodeStep s` holds there. -/
theorem decode_at (hex : Bool) (payload buffer0 buffer stack : List Nat) (k : Nat)
    (s : DecState) (hwf : isCStr payload)
    (hbuf : buffer0.length = MAX_PATH) (hstack : stack.length = MAX_PATH)
    (hcpy : strcpy buffer0 payload = some buffer)
    (hs : decodeIter hex buffer k ⟨0, 0, stack⟩ = s) (hn : s.n < payload.length) :
    buffer = payload ++ 0 :: buffer0.drop (payload.length + 1) ∧
    s.m < s.text_to_send.length ∧
    ∃ r, decode hex buffer stack = some r ∧
      decodeIter hex buffer (k + 1) ⟨0, 0, stack⟩ = decodeStep hex buffer s ∧
      s.m < r.m ∧
      r.bytes[s.m]? = (decodeStep hex buffer s).text_to_send[s.m]? := by
  have hfit : payload.length < buffer0.length := by
    unfold strcpy at hcpy
    split_ifs at hcpy with h
    omega
  rw [strcpy_fits _ _ hfit] at hcpy
  cases hcpy
  have hsl := strlen_append_zero payload (buffer0.drop (payload.length + 1)) hwf
  obtain ⟨r0, _, hdec⟩ := decode_total hex
    (payload ++ 0 :: buffer0.drop (payload.length + 1)) stack (by omega)
  have := decode_reached hex _ stack _ k (by omega) hdec (by rw [hs, hsl]; exact hn)
  rw [hs] at this
  exact ⟨rfl, this.2.2.1, _, hdec, this.1, this.2.1, this.2.2.2⟩

/-! ## The claims about the escape decoder -/

/-- C2: with hex decoding enabled, whenever the decoder stands on a backslash
followed by `x` and two hexadecimal digit characters `H1 H2` (either case),
that iteration stores exactly one byte, `16 * val H1 + val H2`, which is the
byte the transmitter gets at that position, and the next iteration reads the
character right after `H2`.  The six characters `A \ x 4 1 B` decode to the
three bytes `0x41 0x41 0x42`. -/
theorem hex_escape_decodes :
    (∀ (payload buffer0 buffer stack rest : List Nat) (H1 H2 v1 v2 k : Nat) (s : DecState),
      isCStr payload → buffer0.length = MAX_PATH → stack.length = MAX_PATH →
      strcpy buffer0 payload = some buffer →
      hexval H1 = some v1 → hexval H2 = some v2 →
      decodeIter true buffer k ⟨0, 0, stack⟩ = s →
      payload.drop s.n = 92 :: 120 :: H1 :: H2 :: rest →
      ∃ r, decode true buffer stack = some r ∧
        decodeIter true buffer (k + 1) ⟨0, 0, stack⟩
          = ⟨s.n + 4, s.m + 1, s.text_to_send.set s.m (16 * v1 + v2)⟩ ∧
        payload.drop (s.n + 4) = rest ∧
        r.bytes[s.m]? = some (16 * v1 + v2)) ∧
    (∀ buffer0 stack : List Nat, buffer0.length = MAX_PATH → stack.length = MAX_PATH →
      ∃ b r, strcpy buffer0 [65, 92, 120, 52, 49, 66] = some b ∧
        decode true b stack = some r ∧ r.bytes = [0x41, 0x41, 0x42]) := by
  constructor
  · intro payload buffer0 buffer stack rest H1 H2 v1 v2 k s hwf hbuf hstack hcpy e1 e2 hs hpat
    obtain ⟨hn, r0, d1⟩ := drop_cons_rd payload (0 :: buffer0.drop (payload.length + 1)) _ _ _ hpat
    obtain ⟨_, r1, d2⟩ := drop_cons_rd payload (0 :: buffer0.drop (payload.length + 1)) _ _ _ d1
    obtain ⟨_, r2, d3⟩ := drop_cons_rd payload (0 :: buffer0.drop (payload.length + 1)) _ _ _ d2
    obtain ⟨_, r3, d4⟩ := drop_cons_rd payload (0 :: buffer0.drop (payload.length + 1)) _ _ _ d3
    obtain ⟨hb, hm, r, hdec, hnext, _, hbyte⟩ :=
      decode_at true payload buffer0 buffer stack k s hwf hbuf hstack hcpy hs hn
    have e := strtol16_two_digits H1 H2 v1 v2 e1 e2
    have hstep : decodeStep true buffer s
        = ⟨s.n + 4, s.m + 1, s.text_to_send.set s.m (16 * v1 + v2)⟩ := by
      rw [hb]
      simp only [decodeStep, r0, r1, r2, r3, e]
      simp
    refine ⟨r, hdec, by rw [hnext, hstep], d4, ?_⟩
    rw [hbyte, hstep]
    simp [List.getElem?_set, hm]
  · intro buffer0 stack hbuf hstack
    obtain ⟨b, r, h1, h2, _, _, h3⟩ := decode_items
      [Item.lit 65, Item.hex 52 49, Item.lit 66] buffer0 stack (by decide) (by decide)
      (by decide) hbuf hstack
    exact ⟨b, r, h1, h2, h3⟩

set_option maxRecDepth 100000 in
theorem hex_escape_decodes_witness :
    ∃ r, decode true ([65, 92, 120, 52, 49, 66] ++ 0 :: List.replicate 253 7)
        (List.replicate 260 9) = some r ∧
      decodeIter true ([65, 92, 120, 52, 49, 66] ++ 0 :: List.replicate 253 7) 2
          ⟨0, 0, List.replicate 260 9⟩
        = ⟨1 + 4, 1 + 1, (65 :: List.replicate 259 9).set 1 (16 * 4 + 1)⟩ ∧
      List.drop (1 + 4) [65, 92, 120, 52, 49, 66] = [66] ∧
      r.bytes[1]? = some (16 * 4 + 1) :=
  hex_escape_decodes.1 [65, 92, 120, 52, 49, 66] (List.replicate 260 7)
    ([65, 92, 120, 52, 49, 66] ++ 0 :: List.replicate 253 7) (List.replicate 260 9) [66]
    52 49 4 1 1 ⟨1, 1, 65 :: List.replicate 259 9⟩
    (by decide) (by decide) (by decide) (by decide) (by decide) (by decide)
    (by decide) (by decide)

/-- C3: with hex decoding enabled, whenever the decoder stands on a backslash
followed by a backslash, `n` or `r`, that iteration stores exactly one byte
(0x5C, 0x0A, 0x0D) and moves two characters on; whenever it stands on a
character other than the backslash it stores that character and moves one
character on; in both cases the byte stored is the byte the transmitter gets
at that position.  The four characters `\ r \ n` decode to the two bytes
`0x0D 0x0A`. -/
theorem two_char_escapes_and_literals_decode :
    (∀ (payload buffer0 buffer stack rest : List Nat) (c k : Nat) (s : DecState),
      isCStr payload → buffer0.length = MAX_PATH → stack.length = MAX_PATH →
      strcpy buffer0 payload = some buffer →
      decodeIter true buffer k ⟨0, 0, stack⟩ = s →
      payload.drop s.n = 92 :: c :: rest →
      c = 92 ∨ c = 110 ∨ c = 114 →
      ∃ r, decode true buffer stack = some r ∧
        decodeIter true buffer (k + 1) ⟨0, 0, stack⟩
          = ⟨s.n + 2, s.m + 1,
              s.text_to_send.set s.m (if c = 92 then 0x5C else if c = 110 then 0x0A else 0x0D)⟩ ∧
        payload.drop (s.n + 2) = rest ∧
        r.bytes[s.m]? = some (if c = 92 then 0x5C else if c = 110 then 0x0A else 0x0D)) ∧
    (∀ (payload buffer0 buffer stack rest : List Nat) (c k : Nat) (s : DecState),
      isCStr payload → buffer0.length = MAX_PATH → stack.length = MAX_PATH →
      strcpy buffer0 payload = some buffer →
      decodeIter true buffer k ⟨0, 0, stack⟩ = s →
      payload.drop s.n = c :: rest →
      c ≠ 92 →
      ∃ r, decode true buffer stack = some r ∧
        decodeIter true buffer (k + 1) ⟨0, 0, stack⟩
          = ⟨s.n + 1, s.m + 1, s.text_to_send.set s.m c⟩ ∧
        payload.drop (s.n + 1) = rest ∧
        r.bytes[s.m]? = some c) ∧
    (∀ buffer0 stack : List Nat, buffer0.length = MAX_PATH → stack.length = MAX_PATH →
      ∃ b r, strcpy buffer0 [92, 114, 92, 110] = some b ∧
        decode true b stack = some r ∧ r.bytes = [0x0D, 0x0A]) := by
  refine ⟨?_, ?_, ?_⟩
  · intro payload buffer0 buffer stack rest c k s hwf hbuf hstack hcpy hs hpat hc
    obtain ⟨hn, r0, d1⟩ := drop_cons_rd payload (0 :: buffer0.drop (payload.length + 1)) _ _ _ hpat
    obtain ⟨_, r1, d2⟩ := drop_cons_rd payload (0 :: buffer0.drop (payload.length + 1)) _ _ _ d1
    obtain ⟨hb, hm, r, hdec, hnext, _, hbyte⟩ :=
      decode_at true payload buffer0 buffer stack k s hwf hbuf hstack hcpy hs hn
    have hstep : decodeStep true buffer s
        = ⟨s.n + 2, s.m + 1,
            s.text_to_send.set s.m (if c = 92 then 0x5C else if c = 110 then 0x0A else 0x0D)⟩ := by
      rw [hb]
      simp only [decodeStep, r0, r1]
      rcases hc with h | h | h <;> subst h <;> simp
    refine ⟨r, hdec, by rw [hnext, hstep], d2, ?_⟩
    rw [hbyte, hstep]
    simp [List.getElem?_set, hm]
  · intro payload buffer0 buffer stack rest c k s hwf hbuf hstack hcpy hs hpat hc
    obtain ⟨hn, r0, d1⟩ := drop_cons_rd payload (0 :: buffer0.drop (payload.length + 1)) _ _ _ hpat
    obtain ⟨hb, hm, r, hdec, hnext, _, hbyte⟩ :=
      decode_at true payload buffer0 buffer stack k s hwf hbuf hstack hcpy hs hn
    have hstep : decodeStep true buffer s
        = ⟨s.n + 1, s.m + 1, s.text_to_send.set s.m c⟩ := by
      rw [hb]
      simp [decodeStep, r0, hc]
    refine ⟨r, hdec, by rw [hnext, hstep], d1, ?_⟩
    rw [hbyte, hstep]
    simp [List.getElem?_set, hm]
  · intro buffer0 stack hbuf hstack
    obtain ⟨b, r, h1, h2, _, _, h3⟩ := decode_items
      [Item.cr, Item.nl] buffer0 stack (by decide) (by decide) (by decide) hbuf hstack
    exact ⟨b, r, h1, h2, h3⟩

set_option maxRecDepth 100000 in
theorem two_char_escapes_and_literals_decode_witness :
    (∃ r, decode true ([92, 114, 92, 110, 65] ++ 0 :: List.replicate 254 7)
        (List.replicate 260 9) = some r ∧
      decodeIter true ([92, 114, 92, 110, 65] ++ 0 :: List.replicate 254 7) 2
          ⟨0, 0, List.replicate 260 9⟩
        = ⟨2 + 2, 1 + 1, (13 :: List.replicate 259 9).set 1
            (if 110 = 92 then 0x5C else if 110 = 110 then 0x0A else 0x0D)⟩ ∧
      List.drop (2 + 2) [92, 114, 92, 110, 65] = [65] ∧
      r.bytes[1]? = some (if 110 = 92 then 0x5C else if 110 = 110 then 0x0A else 0x0D)) ∧
    (∃ r, decode true ([92, 114, 92, 110, 65] ++ 0 :: List.replicate 254 7)
        (List.replicate 260 9) = some r ∧
      decodeIter true ([92, 114, 92, 110, 65] ++ 0 :: List.replicate 254 7) 3
          ⟨0, 0, List.replicate 260 9⟩
        = ⟨4 + 1, 2 + 1, (13 :: 10 :: List.replicate 258 9).set 2 65⟩ ∧
      List.drop (4 + 1) [92, 114, 92, 110, 65] = [] ∧
      r.bytes[2]? = some 65) :=
  ⟨two_char_escapes_and_literals_decode.1 [92, 114, 92, 110, 65] (List.replicate 260 7)
      ([92, 114, 92, 110, 65] ++ 0 :: List.replicate 254 7) (List.replicate 260 9) [65]
      110 1 ⟨2, 1, 13 :: List.replicate 259 9⟩
      (by decide) (by decide) (by decide) (by decide) (by decide) (by decide) (by decide),
   two_char_escapes_and_literals_decode.2.1 [92, 114, 92, 110, 65] (List.replicate 260 7)
      ([92, 114, 92, 110, 65] ++ 0 :: List.replicate 254 7) (List.replicate 260 9) []
      65 2 ⟨4, 2, 13 :: 10 :: List.replicate 258 9⟩
      (by decide) (by decide) (by decide) (by decide) (by decide) (by decide) (by decide)⟩

/-- C4 (as the code has it): with hex decoding enabled, a backslash-`x` escape
that is not followed by two hexadecimal digits does not make the decoder fail.
The decode phase ends with a result, and the escape yields one byte: what
`strtol` in base 16 reads from the up to two characters that follow it in the
text, converted to `unsigned char`; the loop then moves four positions on.
The three characters `\ x 4` decode to the single byte `0x04`. -/
theorem malformed_hex_escape_yields_strtol_byte :
    (∀ (payload buffer0 buffer stack rest : List Nat) (k : Nat) (s : DecState),
      isCStr payload → buffer0.length = MAX_PATH → stack.length = MAX_PATH →
      strcpy buffer0 payload = some buffer →
      decodeIter true buffer k ⟨0, 0, stack⟩ = s →
      payload.drop s.n = 92 :: 120 :: rest →
      ∃ r, decode true buffer stack = some r ∧
        (decodeIter true buffer (k + 1) ⟨0, 0, stack⟩).n = s.n + 4 ∧
        (decodeIter true buffer (k + 1) ⟨0, 0, stack⟩).m = s.m + 1 ∧
        r.bytes[s.m]? = some (toUChar (strtol16 (rest.take 2)))) ∧
    (∀ buffer0 stack : List Nat, buffer0.length = MAX_PATH → stack.length = MAX_PATH →
      ∃ b r, strcpy buffer0 [92, 120, 52] = some b ∧
        decode true b stack = some r ∧ r.bytes[0]? = some 0x04 ∧ r.m = 1) := by
  have general : ∀ (payload buffer0 buffer stack rest : List Nat) (k : Nat) (s : DecState),
      isCStr payload → buffer0.length = MAX_PATH → stack.length = MAX_PATH →
      strcpy buffer0 payload = some buffer →
      decodeIter true buffer k ⟨0, 0, stack⟩ = s →
      payload.drop s.n = 92 :: 120 :: rest →
      ∃ r, decode true buffer stack = some r ∧
        decodeIter true buffer (k + 1) ⟨0, 0, stack⟩
          = ⟨s.n + 4, s.m + 1,
              s.text_to_send.set s.m (toUChar (strtol16 (rest.take 2)))⟩ ∧
        r.bytes[s.m]? = some (toUChar (strtol16 (rest.take 2))) ∧
        (payload.length ≤ s.n + 4 → r.m = s.m + 1) := by
    intro payload buffer0 buffer stack rest k s hwf hbuf hstack hcpy hs hpat
    obtain ⟨hn, r0, d1⟩ := drop_cons_rd payload (0 :: buffer0.drop (payload.length + 1)) _ _ _ hpat
    obtain ⟨hn1, r1, d2⟩ := drop_cons_rd payload (0 :: buffer0.drop (payload.length + 1)) _ _ _ d1
    obtain ⟨hb, hm, r, hdec, hnext, _, hbyte⟩ :=
      decode_at true payload buffer0 buffer stack k s hwf hbuf hstack hcpy hs hn
    have hdig : ([rd buffer (s.n + 1 + 1), rd buffer (s.n + 1 + 2), 0].takeWhile
        (fun b => b != 0)) = rest.take 2 := by
      rw [hb]
      match rest, d2 with
      | [], d2 =>
        have hl : payload.length = s.n + 1 + 1 := by
          have := congrArg List.length d2
          simp at this; omega
        rw [← hl, rd_terminator]
        simp
      | [d], d2 =>
        obtain ⟨_, r2, d3⟩ := drop_cons_rd payload (0 :: buffer0.drop (payload.length + 1)) _ _ _ d2
        have hl : payload.length = s.n + 1 + 1 + 1 := by
          have := congrArg List.length d3
          simp at this; omega
        have hd : d ≠ 0 := by
          have hmem : d ∈ payload := List.mem_of_mem_drop (by rw [d2]; simp)
          have := (hwf d hmem).1
          omega
        have e3 : s.n + 1 + 2 = payload.length := by omega
        rw [r2, e3, rd_terminator]
        simp [List.takeWhile_cons, hd]
      | d0 :: d1 :: rest', d2 =>
        obtain ⟨_, r2, d3⟩ := drop_cons_rd payload (0 :: buffer0.drop (payload.length + 1)) _ _ _ d2
        obtain ⟨_, r3, _⟩ := drop_cons_rd payload (0 :: buffer0.drop (payload.length + 1)) _ _ _ d3
        have hd0 : d0 ≠ 0 := by
          have hmem : d0 ∈ payload := List.mem_of_mem_drop (by rw [d2]; simp)
          have := (hwf d0 hmem).1
          omega
        have hd1 : d1 ≠ 0 := by
          have hmem : d1 ∈ payload := List.mem_of_mem_drop (by rw [d2]; simp)
          have := (hwf d1 hmem).1
          omega
        rw [r2, r3]
        simp [List.takeWhile_cons, hd0, hd1]
    have hstep : decodeStep true buffer s
        = ⟨s.n + 4, s.m + 1,
            s.text_to_send.set s.m (toUChar (strtol16 (rest.take 2)))⟩ := by
      have r0' : rd buffer s.n = 92 := by rw [hb]; exact r0
      have r1' : rd buffer (s.n + 1) = 120 := by rw [hb]; exact r1
      simp only [decodeStep, r0', r1', hdig]
      simp
    refine ⟨r, hdec, by rw [hnext, hstep], ?_, ?_⟩
    · rw [hbyte, hstep]
      simp [List.getElem?_set, hm]
    · intro hend
      -- the loop ends right after this iteration
      have hsl := strlen_append_zero payload (buffer0.drop (payload.length + 1)) hwf
      simp only [decode, Option.map_eq_some'] at hdec
      obtain ⟨r', hr', hrr⟩ := hdec
      have h1 := decodeLoop_from_iter true buffer (k + 1) _ _ _ hr'
      rw [hnext, hstep, decodeLoop, if_neg (by rw [hb, hsl]; simp; omega)] at h1
      cases h1
      rw [← hrr]
  constructor
  · intro payload buffer0 buffer stack rest k s hwf hbuf hstack hcpy hs hpat
    obtain ⟨r, h1, h2, h3, _⟩ :=
      general payload buffer0 buffer stack rest k s hwf hbuf hstack hcpy hs hpat
    exact ⟨r, h1, by rw [h2], by rw [h2], h3⟩
  · intro buffer0 stack hbuf hstack
    have hcpy := strcpy_fits buffer0 [92, 120, 52] (by rw [hbuf]; decide)
    obtain ⟨r, h1, _, h3, h4⟩ := general [92, 120, 52] buffer0 _ stack [52] 0 ⟨0, 0, stack⟩
      (by decide) hbuf hstack hcpy rfl rfl
    refine ⟨_, r, hcpy, h1, ?_, ?_⟩
    · rw [h3]; decide
    · exact h4 (by simp)

set_option maxRecDepth 100000 in
/-- C4, the claim as stated fails: with `/hex` and the payload `\ x 4` the run
does not end in a usage error.  It opens the port, writes the single byte
`0x04` and exits with status 0. -/
theorem truncated_hex_escape_is_sent :
    main [cstr "/hex", [92, 120, 52]] (List.replicate 260 0) (List.replicate 260 0)
        readyEnv 2
      = Outcome.exit 0
          [DevOp.createFile 50 true, DevOp.getCommState true,
           DevOp.setCommState ⟨9600, 8, 0, 0, 1⟩ true,
           DevOp.setCommTimeouts ⟨50, 50, 10, 50, 10⟩ true,
           DevOp.writeFile 0 [0x04] (some 1), DevOp.flushFileBuffers,
           DevOp.closeHandle true] := by
  decide

set_option maxRecDepth 100000 in
theorem malformed_hex_escape_yields_strtol_byte_witness :
    ∃ r, decode true ([65, 92, 120, 103, 49] ++ 0 :: List.replicate 254 7)
        (List.replicate 260 9) = some r ∧
      (decodeIter true ([65, 92, 120, 103, 49] ++ 0 :: List.replicate 254 7) 2
          ⟨0, 0, List.replicate 260 9⟩).n = 1 + 4 ∧
      (decodeIter true ([65, 92, 120, 103, 49] ++ 0 :: List.replicate 254 7) 2
          ⟨0, 0, List.replicate 260 9⟩).m = 1 + 1 ∧
      r.bytes[1]? = some (toUChar (strtol16 (List.take 2 [103, 49]))) :=
  malformed_hex_escape_yields_strtol_byte.1 [65, 92, 120, 103, 49] (List.replicate 260 7)
    ([65, 92, 120, 103, 49] ++ 0 :: List.replicate 254 7) (List.replicate 260 9) [103, 49]
    1 ⟨1, 1, 65 :: List.replicate 259 9⟩
    (by decide) (by decide) (by decide) (by decide) (by decide) (by decide)

set_option maxRecDepth 100000 in
theorem plain_payload_sent_unchanged_witness :
    ∃ buffer s, strcpy (List.replicate 260 7) [72, 92, 110, 105] = some buffer ∧
      decode false buffer (List.replicate 260 9) = some s ∧
      s.m = [72, 92, 110, 105].length ∧ s.bytes = [72, 92, 110, 105] :=
  plain_payload_sent_unchanged [72, 92, 110, 105] (List.replicate 260 7)
    (List.replicate 260 9) (by decide) (by decide) (by decide) (by decide) (by decide)

/-! ## Facts about the port scan -/

/-- The attempts of a scan that fails `d` times from `top` downwards. -/
theorem range_succ_map_down (f : Int → DevOp) (top : Int) (d : Nat) :
    (List.range (d + 1)).map (fun i : Nat => f (top - i))
      = f top :: (List.range d).map (fun i : Nat => f (top - 1 - i)) := by
  rw [List.range_succ_eq_map, List.map_cons, List.map_map]
  congr 1
  · simp
  · apply List.map_congr_left
    intro i _
    simp only [Function.comp]
    congr 1
    push_cast
    omega

/-- Scanning down to the first device that opens: `d` failed attempts at
`k + d, ..., k + 1`, then the successful one at `k`. -/
theorem scanLoop_down (createFile : Int → Bool) (k : Int) (hk : 0 ≤ k)
    (hopen : createFile k = true) :
    ∀ (d fuel : Nat) (tr : List DevOp),
      (∀ j : Int, k < j → j ≤ k + d → createFile j = false) → d + 1 ≤ fuel →
      scanLoop createFile 0 fuel (k + d) tr
        = some (k, tr ++ ((List.range d).map (fun i : Nat => DevOp.createFile (k + d - i) false)
            ++ [DevOp.createFile k true])) := by
  intro d
  induction d with
  | zero =>
    intro fuel tr _ hf
    obtain ⟨f, rfl⟩ : ∃ f, fuel = f + 1 := ⟨fuel - 1, by omega⟩
    simp [scanLoop, hk, hopen]
  | succ d ih =>
    intro fuel tr hclosed hf
    obtain ⟨f, rfl⟩ : ∃ f, fuel = f + 1 := ⟨fuel - 1, by omega⟩
    have hge : k + ((d + 1 : Nat) : Int) ≥ 0 := by omega
    have hfail : createFile (k + ((d + 1 : Nat) : Int)) = false :=
      hclosed _ (by omega) (le_refl _)
    have hnext : k + ((d + 1 : Nat) : Int) - 1 = k + (d : Int) := by push_cast; omega
    rw [scanLoop, if_pos hge, hfail]
    simp only [Bool.false_eq_true, if_false, ne_eq, not_true_eq_false]
    rw [hnext, ih f _ (fun j h1 h2 => hclosed j h1 (by push_cast; omega)) (by omega),
      range_succ_map_down (fun x => DevOp.createFile x false), hnext]
    simp

/-- Scanning with no device that opens: `n + 1` failed attempts at
`n, ..., 0`, and `dev_num` ends at -1. -/
theorem scanLoop_all_fail (createFile : Int → Bool) :
    ∀ (n fuel : Nat) (tr : List DevOp),
      (∀ j : Int, 0 ≤ j → j ≤ n → createFile j = false) → n + 2 ≤ fuel →
      scanLoop createFile 0 fuel n tr
        = some (-1, tr ++ (List.range (n + 1)).map
            (fun i : Nat => DevOp.createFile ((n : Int) - i) false)) := by
  intro n
  induction n with
  | zero =>
    intro fuel tr hclosed hf
    obtain ⟨f, rfl⟩ : ∃ f, fuel = f + 2 := ⟨fuel - 2, by omega⟩
    have h0 : createFile 0 = false := hclosed 0 (le_refl _) (by simp)
    simp [scanLoop, h0, List.range_succ]
  | succ n ih =>
    intro fuel tr hclosed hf
    obtain ⟨f, rfl⟩ : ∃ f, fuel = f + 1 := ⟨fuel - 1, by omega⟩
    have hge : ((n + 1 : Nat) : Int) ≥ 0 := by omega
    have hfail : createFile ((n + 1 : Nat) : Int) = false :=
      hclosed _ (by omega) (le_refl _)
    have hnext : ((n + 1 : Nat) : Int) - 1 = (n : Int) := by push_cast; omega
    rw [range_succ_map_down (fun x => DevOp.createFile x false), hnext, scanLoop,
      if_pos hge, hfail]
    simp only [Bool.false_eq_true, if_false, ne_eq, not_true_eq_false]
    rw [hnext, ih f _ (fun j h1 h2 => hclosed j h1 (by push_cast; omega)) (by omega)]
    simp

/-- The scan always ends, and it ends with `dev_num < 0` exactly when no
device number in `0..n` opens. -/
theorem scanLoop_fails_iff (createFile : Int → Bool) :
    ∀ (n fuel : Nat) (tr : List DevOp), n + 2 ≤ fuel →
      ∃ d tr', scanLoop createFile 0 fuel n tr = some (d, tr') ∧
        (d < 0 ↔ ∀ j : Int, 0 ≤ j → j ≤ n → createFile j = false) := by
  intro n
  induction n with
  | zero =>
    intro fuel tr hf
    obtain ⟨f, rfl⟩ : ∃ f, fuel = f + 2 := ⟨fuel - 2, by omega⟩
    cases h0 : createFile 0 with
    | true =>
      refine ⟨0, tr ++ [DevOp.createFile 0 true], by simp [scanLoop, h0], ?_⟩
      constructor
      · intro h; omega
      · intro h; have := h 0 (le_refl _) (by simp); rw [h0] at this; cases this
    | false =>
      refine ⟨-1, tr ++ [DevOp.createFile 0 false], by simp [scanLoop, h0], ?_⟩
      constructor
      · intro _ j h1 h2
        have : j = 0 := by simp at h2; omega
        rw [this]; exact h0
      · intro _; omega
  | succ n ih =>
    intro fuel tr hf
    obtain ⟨f, rfl⟩ : ∃ f, fuel = f + 1 := ⟨fuel - 1, by omega⟩
    have hge : ((n + 1 : Nat) : Int) ≥ 0 := by omega
    have hnext : ((n + 1 : Nat) : Int) - 1 = (n : Int) := by push_cast; omega
    cases htop : createFile ((n + 1 : Nat) : Int) with
    | true =>
      refine ⟨((n + 1 : Nat) : Int), tr ++ [DevOp.createFile ((n + 1 : Nat) : Int) true],
        by rw [scanLoop, if_pos hge, htop]; simp, ?_⟩
      constructor
      · intro h; omega
      · intro h; have := h _ hge (le_refl _); rw [htop] at this; cases this
    | false =>
      obtain ⟨d, tr', h1, h2⟩ := ih f (tr ++ [DevOp.createFile ((n + 1 : Nat) : Int) false])
        (by omega)
      refine ⟨d, tr', ?_, ?_⟩
      · rw [scanLoop, if_pos hge, htop]
        simp only [Bool.false_eq_true, if_false, ne_eq, not_true_eq_false]
        rw [hnext]; exact h1
      · rw [h2]
        constructor
        · intro h j j0 j1
          rcases lt_or_ge j ((n + 1 : Nat) : Int) with hlt | hge'
          · exact h j j0 (by push_cast at hlt; omega)
          · have : j = ((n + 1 : Nat) : Int) := by omega
            rw [this]; exact htop
        · intro h j j0 j1
          exact h j j0 (by push_cast; omega)

/-! ## The claims about the port scan -/

/-- C5: with scanning enabled (`no_scan` is 0), from a start number `s >= 0`
where `k` is the greatest device number in `0..s` that opens, the port scan
ends with `dev_num = k`, having attempted exactly `s, s-1, ..., k` once each,
in that order: `s - k` failed attempts and then the successful one at `k`. -/
theorem scan_resolves_to_greatest_opening (createFile : Int → Bool) (s k : Int)
    (hk : 0 ≤ k) (hks : k ≤ s) (hopen : createFile k = true)
    (hclosed : ∀ j : Int, k < j → j ≤ s → createFile j = false) :
    locate createFile 0 s
      = some (k, (List.range (s - k).toNat).map (fun i : Nat => DevOp.createFile (s - i) false)
          ++ [DevOp.createFile k true]) := by
  obtain ⟨d, hd⟩ : ∃ d : Nat, s = k + d := ⟨(s - k).toNat, by omega⟩
  subst hd
  have hd : (k + (d : Int) - k).toNat = d := by omega
  unfold locate
  rw [scanLoop_down createFile k hk hopen d _ [] hclosed (by omega), hd]
  simp

theorem scan_resolves_to_greatest_opening_witness :
    locate (fun n => n == 3 || n == 1) 0 7
      = some (3, (List.range ((7 : Int) - 3).toNat).map
            (fun i : Nat => DevOp.createFile (7 - i) false)
          ++ [DevOp.createFile 3 true]) :=
  scan_resolves_to_greatest_opening (fun n => n == 3 || n == 1) 7 3
    (by decide) (by decide) (by decide)
    (by
      intro j h1 h2
      have : j = 4 ∨ j = 5 ∨ j = 6 ∨ j = 7 := by omega
      rcases this with h | h | h | h <;> subst h <;> decide)

/-- C6: with `/noscan` set (`no_scan` is not 0) and a start number `s >= 0`:
when the attempt at `s` fails, the scan makes that one attempt only, ends
with `dev_num = -1`, and the run returns status 1 with no other device call;
when the attempt at `s` succeeds, the scan ends with `dev_num = s` after that
one attempt. -/
theorem noscan_tries_only_the_start (env : Env) (st : Settings)
    (text_to_send : List Nat) (m fuel : Nat)
    (hns : st.no_scan ≠ 0) (hs : 0 ≤ st.dev_num) :
    (env.createFile st.dev_num = false →
      locate env.createFile st.no_scan st.dev_num
        = some (-1, [DevOp.createFile st.dev_num false]) ∧
      openAndSend env st text_to_send m fuel
        = Outcome.exit 1 [DevOp.createFile st.dev_num false]) ∧
    (env.createFile st.dev_num = true →
      locate env.createFile st.no_scan st.dev_num
        = some (st.dev_num, [DevOp.createFile st.dev_num true])) := by
  have hfuel : st.dev_num.toNat + 2 = (st.dev_num.toNat + 1) + 1 := rfl
  constructor
  · intro hfail
    have h1 : locate env.createFile st.no_scan st.dev_num
        = some (-1, [DevOp.createFile st.dev_num false]) := by
      unfold locate
      rw [hfuel, scanLoop, if_pos hs, hfail]
      simp [hns, scanLoop]
    refine ⟨h1, ?_⟩
    unfold openAndSend
    rw [h1]
    simp
  · intro hok
    unfold locate
    rw [hfuel, scanLoop, if_pos hs, hok]
    simp

theorem noscan_tries_only_the_start_witness :
    locate (fun n => n == 6) 1 7 = some (-1, [DevOp.createFile 7 false]) ∧
    openAndSend { readyEnv with createFile := fun n => n == 6 }
        { dev_num := 7, no_scan := 1, buffer := [104, 105, 0] } [104, 105, 0] 2 3
      = Outcome.exit 1 [DevOp.createFile 7 false] :=
  (noscan_tries_only_the_start { readyEnv with createFile := fun n => n == 6 }
    { dev_num := 7, no_scan := 1, buffer := [104, 105, 0] } [104, 105, 0] 2 3
    (by decide) (by decide)).1 (by decide)

/-- C7: with scanning enabled (`no_scan` is 0) the port scan always ends, and
it ends in failure (`dev_num < 0`, the run returns status 1) exactly when no
device number in `0..start` opens.  When every attempt fails from a start
`s >= 0`, the attempts are `s, s-1, ..., 0`, once each and 0 included, which
is `s + 1` attempts; from a negative start the run returns status 1 without
any attempt. -/
theorem scan_fails_iff_nothing_opens (env : Env) (st : Settings)
    (text_to_send : List Nat) (m fuel : Nat) (hns : st.no_scan = 0) :
    (∃ d tr, locate env.createFile st.no_scan st.dev_num = some (d, tr) ∧
      (d < 0 ↔ ∀ j : Int, 0 ≤ j → j ≤ st.dev_num → env.createFile j = false) ∧
      (d < 0 → openAndSend env st text_to_send m fuel = Outcome.exit 1 tr)) ∧
    (0 ≤ st.dev_num →
      (∀ j : Int, 0 ≤ j → j ≤ st.dev_num → env.createFile j = false) →
      locate env.createFile st.no_scan st.dev_num
        = some (-1, (List.range (st.dev_num.toNat + 1)).map
            (fun i : Nat => DevOp.createFile (st.dev_num - i) false)) ∧
      openAndSend env st text_to_send m fuel
        = Outcome.exit 1 ((List.range (st.dev_num.toNat + 1)).map
            (fun i : Nat => DevOp.createFile (st.dev_num - i) false))) ∧
    (st.dev_num < 0 →
      locate env.createFile st.no_scan st.dev_num = some (st.dev_num, []) ∧
      openAndSend env st text_to_send m fuel = Outcome.exit 1 []) := by
  have hexit : ∀ d tr, locate env.createFile st.no_scan st.dev_num = some (d, tr) → d < 0 →
      openAndSend env st text_to_send m fuel = Outcome.exit 1 tr := by
    intro d tr h hd
    unfold openAndSend
    rw [h]
    simp [hd]
  have hneg : st.dev_num < 0 →
      locate env.createFile st.no_scan st.dev_num = some (st.dev_num, []) := by
    intro h
    unfold locate
    have : st.dev_num.toNat + 2 = (st.dev_num.toNat + 1) + 1 := rfl
    rw [this, scanLoop, if_neg (by omega)]
  refine ⟨?_, ?_, ?_⟩
  · rcases lt_or_ge st.dev_num 0 with h | h
    · refine ⟨st.dev_num, [], hneg h, ?_, hexit _ _ (hneg h)⟩
      constructor
      · intro _ j h1 h2; omega
      · intro _; exact h
    · obtain ⟨n, hn⟩ : ∃ n : Nat, st.dev_num = n := ⟨st.dev_num.toNat, by omega⟩
      obtain ⟨d, tr, h1, h2⟩ := scanLoop_fails_iff env.createFile n (n + 2) [] (le_refl _)
      have hl : locate env.createFile st.no_scan st.dev_num = some (d, tr) := by
        unfold locate
        rw [hns, hn]
        exact h1
      refine ⟨d, tr, hl, ?_, hexit _ _ hl⟩
      rw [hn]; exact h2
  · intro h hall
    obtain ⟨n, hn⟩ : ∃ n : Nat, st.dev_num = n := ⟨st.dev_num.toNat, by omega⟩
    have hl : locate env.createFile st.no_scan st.dev_num
        = some (-1, (List.range (st.dev_num.toNat + 1)).map
            (fun i : Nat => DevOp.createFile (st.dev_num - i) false)) := by
      unfold locate
      rw [hns, hn]
      rw [hn] at hall
      have := scanLoop_all_fail env.createFile n (n + 2) [] hall (le_refl _)
      simpa using this
    exact ⟨hl, hexit _ _ hl (by omega)⟩
  · intro h
    exact ⟨hneg h, hexit _ _ (hneg h) h⟩

theorem scan_fails_iff_nothing_opens_witness :
    locate (fun _ => false) 0 2
      = some (-1, [DevOp.createFile 2 false, DevOp.createFile 1 false,
          DevOp.createFile 0 false]) ∧
    openAndSend { readyEnv with createFile := fun _ => false }
        { dev_num := 2, buffer := [104, 105, 0] } [104, 105, 0] 2 3
      = Outcome.exit 1 [DevOp.createFile 2 false, DevOp.createFile 1 false,
          DevOp.createFile 0 false] :=
  (scan_fails_iff_nothing_opens { readyEnv with createFile := fun _ => false }
    { dev_num := 2, buffer := [104, 105, 0] } [104, 105, 0] 2 3 rfl).2.1
    (by decide) (fun _ _ _ => rfl)

/-! ## Facts about the parsing loop -/

/-- After a value-taking flag the loop either stops with one of the `return 1`
errors or goes on behind the value with `buffer` untouched. -/
theorem parseLoop_value_flag (arg v : List Nat) (rest : List (List Nat)) (st : Settings)
    (h : arg ∈ valueFlags) :
    (∃ e, e ≠ ParseError.overrun ∧ parseLoop (arg :: v :: rest) st = .error e) ∨
    (∃ st1, st1.buffer = st.buffer ∧ st1.quiet = st.quiet ∧
      parseLoop (arg :: v :: rest) st = parseLoop rest st1) := by
  simp only [valueFlags, List.mem_cons, List.mem_singleton, List.not_mem_nil, or_false] at h
  rcases h with h | h | h | h <;> subst h
  · rw [parseLoop, if_pos rfl]
    by_cases hv : atoi v > 0
    · right; exact ⟨{ st with baudrate := atoi v }, rfl, rfl, by simp [hv]⟩
    · left; exact ⟨.baudRateError, by decide, by simp [hv]⟩
  · right
    refine ⟨{ st with dev_num := atoi v }, rfl, rfl, ?_⟩
    rw [parseLoop, if_neg (by decide), if_pos rfl]
  · right
    refine ⟨{ st with close_delay := atoi v }, rfl, rfl, ?_⟩
    rw [parseLoop, if_neg (by decide), if_neg (by decide), if_pos rfl]
  · right
    refine ⟨{ st with dtr := atoi v }, rfl, rfl, ?_⟩
    rw [parseLoop, if_neg (by decide), if_neg (by decide), if_neg (by decide),
      if_neg (by decide), if_neg (by decide), if_neg (by decide), if_pos rfl]

/-- A value-taking flag that is the last argument stops the loop with one of
the `return 1` errors. -/
theorem parseLoop_value_flag_last (arg : List Nat) (st : Settings)
    (h : arg ∈ valueFlags) :
    ∃ e, e ≠ ParseError.overrun ∧ parseLoop [arg] st = .error e := by
  simp only [valueFlags, List.mem_cons, List.mem_singleton, List.not_mem_nil, or_false] at h
  rcases h with h | h | h | h <;> subst h
  · exact ⟨.baudRateError, by decide, by rw [parseLoop, if_pos rfl]⟩
  · exact ⟨.deviceNumberError, by decide, by rw [parseLoop, if_neg (by decide), if_pos rfl]⟩
  · exact ⟨.closeDelayError, by decide,
      by rw [parseLoop, if_neg (by decide), if_neg (by decide), if_pos rfl]⟩
  · exact ⟨.dtrError, by decide,
      by rw [parseLoop, if_neg (by decide), if_neg (by decide), if_neg (by decide),
        if_neg (by decide), if_neg (by decide), if_neg (by decide), if_pos rfl]⟩

/-- After a flag without a value the loop goes on with `buffer` untouched. -/
theorem parseLoop_loop_flag (arg : List Nat) (rest : List (List Nat)) (st : Settings)
    (h : arg ∈ loopFlags) :
    ∃ st1, st1.buffer = st.buffer ∧ st1.quiet = st.quiet ∧
      parseLoop (arg :: rest) st = parseLoop rest st1 := by
  simp only [loopFlags, List.mem_cons, List.mem_singleton, List.not_mem_nil, or_false] at h
  rcases h with h | h | h | h <;> subst h
  · refine ⟨{ st with no_scan := 1 }, rfl, rfl, ?_⟩
    rw [parseLoop.eq_def]; dsimp only; rw [if_neg (by decide), if_neg (by decide), if_neg (by decide), if_pos rfl]
  · refine ⟨{ st with even_parity := 1 }, rfl, rfl, ?_⟩
    rw [parseLoop.eq_def]; dsimp only; rw [if_neg (by decide), if_neg (by decide), if_neg (by decide),
      if_neg (by decide), if_pos rfl]
  · refine ⟨{ st with odd_parity := 1 }, rfl, rfl, ?_⟩
    rw [parseLoop.eq_def]; dsimp only; rw [if_neg (by decide), if_neg (by decide), if_neg (by decide),
      if_neg (by decide), if_neg (by decide), if_pos rfl]
  · refine ⟨{ st with parse_hex_bytes := 1 }, rfl, rfl, ?_⟩
    rw [parseLoop.eq_def]; dsimp only; rw [if_neg (by decide), if_neg (by decide), if_neg (by decide),
      if_neg (by decide), if_neg (by decide), if_neg (by decide), if_neg (by decide),
      if_pos rfl]

/-- Any other argument is copied into `buffer`. -/
theorem parseLoop_text (arg : List Nat) (rest : List (List Nat)) (st : Settings)
    (h1 : arg ∉ valueFlags) (h2 : arg ∉ loopFlags) :
    parseLoop (arg :: rest) st =
      match strcpy st.buffer arg with
      | some b => parseLoop rest { st with buffer := b }
      | none => .error .overrun := by
  simp only [valueFlags, loopFlags, List.mem_cons, List.mem_singleton, List.not_mem_nil,
    or_false, not_or] at h1 h2
  obtain ⟨a1, a2, a3, a4⟩ := h1
  obtain ⟨b1, b2, b3, b4⟩ := h2
  rw [parseLoop.eq_def]; dsimp only; rw [if_neg a1, if_neg a2, if_neg a3, if_neg b1, if_neg b2, if_neg b3,
    if_neg a4, if_neg b4]

theorem textArgs_value_flag (arg v : List Nat) (rest : List (List Nat))
    (h : arg ∈ valueFlags) : textArgs (arg :: v :: rest) = textArgs rest := by
  rw [textArgs, if_pos h]

theorem textArgs_loop_flag (arg : List Nat) (rest : List (List Nat))
    (h1 : arg ∉ valueFlags) (h2 : arg ∈ loopFlags) :
    textArgs (arg :: rest) = textArgs rest := by
  rw [textArgs.eq_def]; dsimp only; rw [if_neg h1, if_pos h2]

theorem textArgs_text (arg : List Nat) (rest : List (List Nat))
    (h1 : arg ∉ valueFlags) (h2 : arg ∉ loopFlags) :
    textArgs (arg :: rest) = arg :: textArgs rest := by
  rw [textArgs.eq_def]; dsimp only; rw [if_neg h1, if_neg h2]

/-- What the parsing loop leaves in `buffer`: the last argument that reached
the `strcpy` branch, followed by a terminator, or the content on entry when no
argument reached it.  A `strcpy` past the array needs such an argument, and
the loop never changes `quiet`. -/
theorem parseLoop_buffer_spec :
    ∀ (n : Nat) (args : List (List Nat)) (st : Settings), args.length ≤ n →
      (parseLoop args st = .error .overrun → textArgs args ≠ []) ∧
      (∀ st', parseLoop args st = .ok st' →
        st'.quiet = st.quiet ∧
        match (textArgs args).getLast? with
        | none => st'.buffer = st.buffer
        | some l => ∃ res, st'.buffer = l ++ 0 :: res) := by
  intro n
  induction n with
  | zero =>
    intro args st hlen
    have : args = [] := List.length_eq_zero.mp (by omega)
    subst this
    simp [parseLoop, textArgs]
  | succ n ih =>
    intro args st hlen
    match args, hlen with
    | [], _ => simp [parseLoop, textArgs]
    | arg :: rest, hlen =>
      have hrest : rest.length ≤ n := by simpa using hlen
      by_cases h1 : arg ∈ valueFlags
      · match rest, hrest with
        | [], _ =>
          obtain ⟨e, he, hp⟩ := parseLoop_value_flag_last arg st h1
          rw [hp]
          constructor
          · intro h; cases h; exact absurd rfl he
          · intro st' h; cases h
        | v :: rest', hrest' =>
          rw [textArgs_value_flag _ _ _ h1]
          rcases parseLoop_value_flag arg v rest' st h1 with ⟨e, he, hp⟩ | ⟨st1, hb, hq, hp⟩
          · rw [hp]
            constructor
            · intro h; cases h; exact absurd rfl he
            · intro st' h; cases h
          · rw [hp, ← hb, ← hq]
            exact ih rest' st1 (by simp at hrest'; omega)
      · by_cases h2 : arg ∈ loopFlags
        · obtain ⟨st1, hb, hq, hp⟩ := parseLoop_loop_flag arg rest st h2
          rw [textArgs_loop_flag _ _ h1 h2, hp, ← hb, ← hq]
          exact ih rest st1 hrest
        · rw [textArgs_text _ _ h1 h2, parseLoop_text _ _ _ h1 h2]
          cases hc : strcpy st.buffer arg with
          | none =>
            simp
          | some b =>
            have hb : b = arg ++ 0 :: st.buffer.drop (arg.length + 1) := by
              unfold strcpy at hc
              split_ifs at hc
              cases hc; rfl
            obtain ⟨i1, i2⟩ := ih rest { st with buffer := b } hrest
            dsimp only
            refine ⟨fun _ => by simp, ?_⟩
            intro st' hp
            obtain ⟨hq, hm⟩ := i2 st' hp
            refine ⟨hq, ?_⟩
            cases ht : textArgs rest with
            | nil =>
              rw [ht] at hm
              simp only [List.getLast?_nil] at hm
              simp only [List.getLast?_singleton]
              exact ⟨_, by rw [hm, hb]⟩
            | cons x xs =>
              rw [ht] at hm
              rw [List.getLast?_cons_cons]
              exact hm

/-- The string held in an array that starts with the bytes of a C string and
a terminator is that C string. -/
theorem payload_of_buffer (st : Settings) (l res : List Nat) (hl : isCStr l)
    (hb : st.buffer = l ++ 0 :: res) : st.payload = l := by
  unfold Settings.payload
  rw [hb, strlen_append_zero _ _ hl]
  simp

theorem textArgs_subset : ∀ (n : Nat) (args : List (List Nat)), args.length ≤ n →
    ∀ a ∈ textArgs args, a ∈ args := by
  intro n
  induction n with
  | zero =>
    intro args hlen a ha
    have : args = [] := List.length_eq_zero.mp (by omega)
    subst this
    simp [textArgs] at ha
  | succ n ih =>
    intro args hlen a ha
    match args, hlen, ha with
    | [], _, ha => simp [textArgs] at ha
    | arg :: rest, hlen, ha =>
      have hrest : rest.length ≤ n := by simpa using hlen
      by_cases h1 : arg ∈ valueFlags
      · match rest, hrest, ha with
        | [], _, ha => simp [textArgs, h1] at ha
        | v :: rest', hrest', ha =>
          rw [textArgs_value_flag _ _ _ h1] at ha
          have := ih rest' (by simp at hrest'; omega) a ha
          simp [this]
      · by_cases h2 : arg ∈ loopFlags
        · rw [textArgs_loop_flag _ _ h1 h2] at ha
          have := ih rest hrest a ha
          simp [this]
        · rw [textArgs_text _ _ h1 h2] at ha
          rcases List.mem_cons.mp ha with h | h
          · simp [h]
          · have := ih rest hrest a h
            simp [this]

/-- Where no `/quiet` reaches the `strcpy` branch, the arguments that reach it
are the non-flag tokens of the specification. -/
theorem textArgs_eq_nonFlagTokens : ∀ (n : Nat) (args : List (List Nat)), args.length ≤ n →
    cstr "/quiet" ∉ textArgs args → textArgs args = nonFlagTokens args := by
  intro n
  induction n with
  | zero =>
    intro args hlen _
    have : args = [] := List.length_eq_zero.mp (by omega)
    subst this
    simp [textArgs, nonFlagTokens]
  | succ n ih =>
    intro args hlen hq
    match args, hlen, hq with
    | [], _, _ => simp [textArgs, nonFlagTokens]
    | arg :: rest, hlen, hq =>
      have hrest : rest.length ≤ n := by simpa using hlen
      by_cases h1 : arg ∈ valueFlags
      · match rest, hrest, hq with
        | [], _, _ => simp [textArgs, nonFlagTokens, h1]
        | v :: rest', hrest', hq =>
          rw [textArgs_value_flag _ _ _ h1] at hq ⊢
          rw [nonFlagTokens, if_pos h1]
          exact ih rest' (by simp at hrest'; omega) hq
      · by_cases h2 : arg ∈ loopFlags
        · rw [textArgs_loop_flag _ _ h1 h2] at hq ⊢
          rw [nonFlagTokens.eq_def]; dsimp only
          rw [if_neg h1, if_pos (List.mem_cons_of_mem _ h2)]
          exact ih rest hrest hq
        · rw [textArgs_text _ _ h1 h2] at hq ⊢
          have hne : arg ≠ cstr "/quiet" := fun h => hq (by simp [h])
          have hq' : cstr "/quiet" ∉ textArgs rest := fun h => hq (by simp [h])
          rw [nonFlagTokens.eq_def]; dsimp only
          rw [if_neg h1, if_neg (by simp [hne, h2]), ih rest hrest hq']

/-- A command line on which no argument reaches the `strcpy` branch ends in
`return 1` before any device call. -/
theorem no_text_argument_exits_1 (args : List (List Nat)) (buffer0 stack : List Nat)
    (env : Env) (fuel : Nat) (hbuf : 0 < buffer0.length) (ht : textArgs args = []) :
    main args buffer0 stack env fuel = Outcome.exit 1 [] := by
  have hcpy : strcpy buffer0 [] = some ([] ++ 0 :: buffer0.drop 1) :=
    strcpy_fits buffer0 [] (by simpa using hbuf)
  obtain ⟨h1, h2⟩ := parseLoop_buffer_spec args.length args
    { quiet := quietPass args, buffer := [] ++ 0 :: buffer0.drop 1 } (le_refl _)
  have hparse : ∃ e, e ≠ ParseError.overrun ∧ parseArgs args buffer0 = .error e := by
    unfold parseArgs
    rw [hcpy]
    dsimp only
    cases hp : parseLoop args { quiet := quietPass args, buffer := [] ++ 0 :: buffer0.drop 1 } with
    | error e =>
      refine ⟨e, ?_, rfl⟩
      intro he
      subst he
      exact h1 hp ht
    | ok st =>
      obtain ⟨_, hm⟩ := h2 st hp
      rw [ht] at hm
      simp only [List.getLast?_nil] at hm
      have hs : strlen st.buffer = 0 := by
        rw [hm]; exact strlen_append_zero [] _ (by intro b hb; cases hb)
      refine ⟨.usage, by decide, ?_⟩
      simp [hs]
  obtain ⟨e, he, hp⟩ := hparse
  unfold main
  rw [hp]
  cases e <;> first | rfl | exact absurd rfl he

/-- The payload of a successful parse is the last argument that reached the
`strcpy` branch. -/
theorem payload_is_last_text_argument (args : List (List Nat)) (buffer0 : List Nat)
    (st : Settings) (hwf : ∀ a ∈ args, isCStr a) (hp : parseArgs args buffer0 = .ok st) :
    (textArgs args).getLast? = some st.payload ∧ st.quiet = quietPass args := by
  unfold parseArgs at hp
  cases hcpy : strcpy buffer0 [] with
  | none => rw [hcpy] at hp; cases hp
  | some b =>
    rw [hcpy] at hp
    dsimp only at hp
    have hb : b = [] ++ 0 :: buffer0.drop 1 := by
      unfold strcpy at hcpy
      split_ifs at hcpy
      cases hcpy; rfl
    cases hl : parseLoop args { quiet := quietPass args, buffer := b } with
    | error e => rw [hl] at hp; cases hp
    | ok st1 =>
      rw [hl] at hp
      dsimp only at hp
      split_ifs at hp with hz
      cases hp
      obtain ⟨hq, hm⟩ := (parseLoop_buffer_spec args.length args _ (le_refl _)).2 st hl
      refine ⟨?_, hq⟩
      cases hg : (textArgs args).getLast? with
      | none =>
        rw [hg] at hm
        dsimp only at hm
        exfalso
        apply hz
        rw [hm, hb]
        exact strlen_append_zero [] _ (by intro b hb; cases hb)
      | some l =>
        rw [hg] at hm
        obtain ⟨res, hres⟩ := hm
        have hmem : l ∈ args :=
          textArgs_subset args.length args (le_refl _) l (List.mem_of_getLast?_eq_some hg)
        rw [payload_of_buffer st l res (hwf l hmem) hres]

/-! ## The `/quiet` token in the parsing loop

The pass of lines 47-50 recognises `/quiet`, but the parsing loop of lines
59-158 has no branch for it, so the token reaches the last branch and is
copied into `buffer` as the text to send. -/

set_option maxRecDepth 100000 in
/-- C8 at the input `/quiet`: the token list holds one recognised flag and no
payload token, yet the run does not end in a usage error.  The parsing loop
copies `/quiet` into `buffer`, the check of line 161 passes, the port is
opened and the six bytes of `/quiet` are written. -/
theorem quiet_alone_is_sent_as_text :
    nonFlagTokens [cstr "/quiet"] = [] ∧
    main [cstr "/quiet"] (List.replicate 260 0) (List.replicate 260 0) readyEnv 2
      = Outcome.exit 0
          [DevOp.createFile 50 true, DevOp.getCommState true,
           DevOp.setCommState ⟨9600, 8, 0, 0, 1⟩ true,
           DevOp.setCommTimeouts ⟨50, 50, 10, 50, 10⟩ true,
           DevOp.writeFile 0 [47, 113, 117, 105, 101, 116] (some 6),
           DevOp.flushFileBuffers, DevOp.closeHandle true] := by
  decide

set_option maxRecDepth 100000 in
/-- C9 at the input `hello /quiet`: without the `/quiet` token the payload is
`hello`; with `/quiet` added after it the payload is `/quiet`. -/
theorem quiet_after_payload_replaces_it :
    (parseArgs [cstr "hello"] (List.replicate 260 0)).toOption.map Settings.payload
      = some (cstr "hello") ∧
    (parseArgs [cstr "hello", cstr "/quiet"] (List.replicate 260 0)).toOption.map
        Settings.payload
      = some (cstr "/quiet") := by
  decide

set_option maxRecDepth 100000 in
/-- C10 at the input `/baudrate 19200 hello /quiet`: the parse succeeds, the
only non-flag token is `hello`, and the payload retained is `/quiet`. -/
theorem last_non_flag_token_not_retained :
    nonFlagTokens [cstr "/baudrate", cstr "19200", cstr "hello", cstr "/quiet"]
      = [cstr "hello"] ∧
    (parseArgs [cstr "/baudrate", cstr "19200", cstr "hello", cstr "/quiet"]
        (List.replicate 260 0)).toOption.map Settings.payload
      = some (cstr "/quiet") := by
  decide

/-- Apart from `/quiet`, a command line without a non-flag token ends in
`return 1` before any device call. -/
theorem no_payload_token_exits_1_without_quiet (args : List (List Nat))
    (buffer0 stack : List Nat) (env : Env) (fuel : Nat) (hbuf : 0 < buffer0.length)
    (hq : cstr "/quiet" ∉ textArgs args) (ht : nonFlagTokens args = []) :
    main args buffer0 stack env fuel = Outcome.exit 1 [] :=
  no_text_argument_exits_1 args buffer0 stack env fuel hbuf
    (by rw [textArgs_eq_nonFlagTokens args.length args (le_refl _) hq, ht])

/-- Apart from `/quiet`, the payload of a successful parse is the last
non-flag token. -/
theorem payload_is_last_non_flag_token_without_quiet (args : List (List Nat))
    (buffer0 : List Nat) (st : Settings) (hwf : ∀ a ∈ args, isCStr a)
    (hp : parseArgs args buffer0 = .ok st) (hq : cstr "/quiet" ∉ textArgs args) :
    (nonFlagTokens args).getLast? = some st.payload := by
  rw [← textArgs_eq_nonFlagTokens args.length args (le_refl _) hq]
  exact (payload_is_last_text_argument args buffer0 st hwf hp).1

/-! ## Facts about the write loop -/

/-- The calls already in the trace are kept in front of the new ones. -/
theorem writeLoop_trace (writeFile : Nat → List Nat → Option Nat) (text : List Nat) (m : Nat) :
    ∀ (fuel i total : Nat) (tr : List DevOp),
      writeLoop writeFile text m fuel i total tr
        = (writeLoop writeFile text m fuel i total []).map
            (fun r => (r.1, r.2.1, tr ++ r.2.2)) := by
  intro fuel
  induction fuel with
  | zero => intro i total tr; simp [writeLoop]
  | succ f ih =>
    intro i total tr
    rw [writeLoop, writeLoop]
    by_cases hg : total < m
    · rw [if_pos hg, if_pos hg]
      dsimp only
      cases hw : writeFile i ((text.drop total).take (m - total)) with
      | none => simp
      | some k =>
        dsimp only
        rw [ih (i + 1) _ (tr ++ _), ih (i + 1) _ ([] ++ _)]
        cases writeLoop writeFile text m f (i + 1) ((total + k) % DWORD_MOD) [] with
        | none => simp
        | some r => simp
    · rw [if_neg hg, if_neg hg]
      simp

/-- The write loop from `total_bytes_written = total <= m`, when every
successful write takes between 1 and the number of bytes it is given. -/
theorem writeLoop_spec (writeFile : Nat → List Nat → Option Nat) (text : List Nat) (m : Nat)
    (hm : m ≤ text.length) (hm32 : m < DWORD_MOD)
    (hk : ∀ i bytes k, bytes ≠ [] → writeFile i bytes = some k → 1 ≤ k ∧ k ≤ bytes.length) :
    ∀ (fuel i total : Nat), total ≤ m → m - total + 1 ≤ fuel →
      ∃ ok total' ops, writeLoop writeFile text m fuel i total [] = some (ok, total', ops) ∧
        writesChained text m total ops ∧
        (ok = true → total' = m ∧ accepted ops = (text.drop total).take (m - total)) ∧
        (ok = false → ∃ ops' offset bytes, ops = ops' ++ [DevOp.writeFile offset bytes none]) := by
  intro fuel
  induction fuel with
  | zero => intro i total _ h; omega
  | succ f ih =>
    intro i total htot hf
    rw [writeLoop]
    by_cases hg : total < m
    · rw [if_pos hg]
      dsimp only
      have hlen : ((text.drop total).take (m - total)).length = m - total := by
        simp [List.length_take, List.length_drop]; omega
      have hne : (text.drop total).take (m - total) ≠ [] := by
        intro h; rw [h] at hlen; simp at hlen; omega
      cases hw : writeFile i ((text.drop total).take (m - total)) with
      | none =>
        refine ⟨false, total, _, rfl, ?_, by simp, fun _ => ⟨[], total, _, rfl⟩⟩
        simp [writesChained, hlen]
      | some k =>
        obtain ⟨k1, k2⟩ := hk i _ k hne hw
        rw [hlen] at k2
        have hmod : (total + k) % DWORD_MOD = total + k := Nat.mod_eq_of_lt (by omega)
        dsimp only
        rw [hmod, writeLoop_trace]
        obtain ⟨ok, total', ops, h1, h2, h3, h4⟩ := ih (i + 1) (total + k) (by omega) (by omega)
        rw [h1]
        refine ⟨ok, total',
          DevOp.writeFile total ((text.drop total).take (m - total)) (some k) :: ops,
          by simp, ?_, ?_, ?_⟩
        · simp [writesChained, hlen, h2]
        · intro hok
          obtain ⟨e1, e2⟩ := h3 hok
          refine ⟨e1, ?_⟩
          simp only [accepted, e2]
          rw [List.take_take, Nat.min_eq_left k2]
          show _ = List.take (m - total) (List.drop total text)
          have h5 : m - total = k + (m - (total + k)) := by omega
          have h6 : List.drop (total + k) text = List.drop k (List.drop total text) := by
            rw [List.drop_drop]
          rw [h5, List.take_add, h6]
        · intro hok
          obtain ⟨ops', o, b, e⟩ := h4 hok
          exact ⟨DevOp.writeFile total ((text.drop total).take (m - total)) (some k) :: ops',
            o, b, by simp [e]⟩
    · rw [if_neg hg]
      have : total = m := by omega
      refine ⟨true, total, [], rfl, by simp [writesChained], ?_, by simp⟩
      intro _
      simp [this, accepted]

/-- The run after a configured port, in terms of the write loop started with an
empty trace. -/
theorem sendAndClose_configured (env : Env) (st : Settings) (text : List Nat) (m fuel : Nat)
    (tr : List DevOp) (h1 : env.getCommState = true)
    (h2 : env.setCommState (dcbSerialParams st) = true) (h3 : env.setCommTimeouts = true) :
    sendAndClose env st text m fuel tr =
      match writeLoop env.writeFile text m fuel 0 0 [] with
      | none => Outcome.running (tr ++ [DevOp.getCommState true,
          DevOp.setCommState (dcbSerialParams st) true, DevOp.setCommTimeouts timeouts true])
      | some (false, _, ops) =>
        Outcome.exit 1 (tr ++ [DevOp.getCommState true,
          DevOp.setCommState (dcbSerialParams st) true, DevOp.setCommTimeouts timeouts true]
          ++ ops ++ [DevOp.closeHandle env.closeHandle])
      | some (true, _, ops) =>
        Outcome.exit (if env.closeHandle then 0 else 1)
          (tr ++ [DevOp.getCommState true,
            DevOp.setCommState (dcbSerialParams st) true, DevOp.setCommTimeouts timeouts true]
            ++ ops ++ DevOp.flushFileBuffers ::
              ((if st.close_delay > 0 then [DevOp.sleep st.close_delay] else [])
                ++ [DevOp.closeHandle env.closeHandle])) := by
  unfold sendAndClose
  simp only [h1, h2, h3, Bool.not_true, Bool.false_eq_true, if_false]
  rw [writeLoop_trace]
  cases writeLoop env.writeFile text m fuel 0 0 [] with
  | none => simp
  | some r =>
    obtain ⟨ok, total, ops⟩ := r
    cases ok
    · simp
    · cases hc : env.closeHandle <;> by_cases hd : st.close_delay > 0 <;> simp [hd]

/-! ## The shape of a run's trace -/

/-- The attempts of the port scan: failed ones, followed by the successful one
exactly when the scan ends with `dev_num >= 0`. -/
theorem scanLoop_trace (createFile : Int → Bool) (no_scan : Int) :
    ∀ (fuel : Nat) (dev_num : Int) (tr0 : List DevOp) (d : Int) (tr : List DevOp),
      scanLoop createFile no_scan fuel dev_num tr0 = some (d, tr) →
      ∃ attempts, (∀ op ∈ attempts, ∃ n, op = DevOp.createFile n false) ∧
        (d < 0 → tr = tr0 ++ attempts) ∧
        (0 ≤ d → tr = tr0 ++ attempts ++ [DevOp.createFile d true]) := by
  intro fuel
  induction fuel with
  | zero => intro dev_num tr0 d tr h; simp [scanLoop] at h
  | succ f ih =>
    intro dev_num tr0 d tr h
    rw [scanLoop] at h
    by_cases hg : dev_num ≥ 0
    · rw [if_pos hg] at h
      cases hc : createFile dev_num with
      | true =>
        rw [hc] at h
        simp only [if_true, Option.some.injEq, Prod.mk.injEq] at h
        obtain ⟨rfl, rfl⟩ := h
        exact ⟨[], by simp, fun h => by omega, fun _ => by simp⟩
      | false =>
        rw [hc] at h
        simp only [Bool.false_eq_true, if_false] at h
        obtain ⟨att, a1, a2, a3⟩ := ih _ _ d tr h
        refine ⟨DevOp.createFile dev_num false :: att, ?_, ?_, ?_⟩
        · intro op hop
          rcases List.mem_cons.mp hop with h | h
          · exact ⟨dev_num, h⟩
          · exact a1 op h
        · intro hd; rw [a2 hd]; simp
        · intro hd; rw [a3 hd]; simp
    · rw [if_neg hg] at h
      simp only [Option.some.injEq, Prod.mk.injEq] at h
      obtain ⟨rfl, rfl⟩ := h
      exact ⟨[], by simp, fun _ => by simp, fun h => by omega⟩

/-- The calls of the write loop are `WriteFile` calls; they all succeeded when
the loop reports success, and one of them failed when it reports failure. -/
theorem writeLoop_ops (writeFile : Nat → List Nat → Option Nat) (text : List Nat) (m : Nat) :
    ∀ (fuel i total : Nat) (ok : Bool) (total' : Nat) (ops : List DevOp),
      writeLoop writeFile text m fuel i total [] = some (ok, total', ops) →
      (∀ op ∈ ops, op.isOpen = false ∧ op.isClose = false) ∧
      (ok = true ↔ ∀ op ∈ ops, op.ok = true) := by
  intro fuel
  induction fuel with
  | zero => intro i total ok total' ops h; simp [writeLoop] at h
  | succ f ih =>
    intro i total ok total' ops h
    rw [writeLoop] at h
    by_cases hg : total < m
    · rw [if_pos hg] at h
      dsimp only at h
      cases hw : writeFile i ((text.drop total).take (m - total)) with
      | none =>
        rw [hw] at h
        simp only [List.nil_append, Option.some.injEq, Prod.mk.injEq] at h
        obtain ⟨rfl, _, rfl⟩ := h
        simp [DevOp.isOpen, DevOp.isClose, DevOp.ok]
      | some k =>
        rw [hw] at h
        dsimp only at h
        rw [writeLoop_trace] at h
        cases hr : writeLoop writeFile text m f (i + 1) ((total + k) % DWORD_MOD) [] with
        | none => rw [hr] at h; simp at h
        | some r =>
          obtain ⟨ok1, t1, ops1⟩ := r
          rw [hr] at h
          simp only [Option.map_some', List.nil_append, Option.some.injEq, Prod.mk.injEq] at h
          obtain ⟨rfl, _, rfl⟩ := h
          obtain ⟨i1, i2⟩ := ih _ _ _ _ _ hr
          constructor
          · intro op hop
            simp only [List.singleton_append, List.mem_cons] at hop
            rcases hop with h | h
            · subst h; simp [DevOp.isOpen, DevOp.isClose]
            · exact i1 op h
          · rw [i2]
            simp [DevOp.ok]
    · rw [if_neg hg] at h
      simp only [Option.some.injEq, Prod.mk.injEq] at h
      obtain ⟨rfl, _, rfl⟩ := h
      simp

/-- Every way out of the part of the run that holds the handle ends with
`CloseHandle`, and the status is 0 exactly when every call before it succeeded
and the close succeeded too. -/
theorem sendAndClose_trace (env : Env) (st : Settings) (text : List Nat) (m fuel : Nat)
    (tr0 : List DevOp) (status : Nat) (tr : List DevOp)
    (h : sendAndClose env st text m fuel tr0 = Outcome.exit status tr) :
    ∃ body c, tr = tr0 ++ body ++ [DevOp.closeHandle c] ∧
      (∀ op ∈ body, op.isOpen = false ∧ op.isClose = false) ∧
      (status = 0 ↔ (∀ op ∈ body, op.ok = true) ∧ c = true) ∧
      (status = 0 ∨ status = 1) := by
  cases h1 : env.getCommState with
  | false =>
    simp only [sendAndClose, h1, Bool.not_false, if_true, Outcome.exit.injEq] at h
    obtain ⟨rfl, rfl⟩ := h
    exact ⟨[DevOp.getCommState false], env.closeHandle, by simp,
      by simp [DevOp.isOpen, DevOp.isClose], by simp [DevOp.ok], Or.inr rfl⟩
  | true =>
    cases h2 : env.setCommState (dcbSerialParams st) with
    | false =>
      simp only [sendAndClose, h1, h2, Bool.not_false, Bool.not_true, Bool.false_eq_true,
        if_true, if_false, Outcome.exit.injEq] at h
      obtain ⟨rfl, rfl⟩ := h
      exact ⟨[DevOp.getCommState true, DevOp.setCommState (dcbSerialParams st) false],
        env.closeHandle, by simp, by simp [DevOp.isOpen, DevOp.isClose], by simp [DevOp.ok],
        Or.inr rfl⟩
    | true =>
      cases h3 : env.setCommTimeouts with
      | false =>
        simp only [sendAndClose, h1, h2, h3, Bool.not_false, Bool.not_true,
          Bool.false_eq_true, if_true, if_false, Outcome.exit.injEq] at h
        obtain ⟨rfl, rfl⟩ := h
        exact ⟨[DevOp.getCommState true, DevOp.setCommState (dcbSerialParams st) true,
          DevOp.setCommTimeouts timeouts false],
          env.closeHandle, by simp, by simp [DevOp.isOpen, DevOp.isClose], by simp [DevOp.ok],
          Or.inr rfl⟩
      | true =>
        rw [sendAndClose_configured env st text m fuel tr0 h1 h2 h3] at h
        cases hw : writeLoop env.writeFile text m fuel 0 0 [] with
        | none => rw [hw] at h; cases h
        | some r =>
          obtain ⟨ok, total, ops⟩ := r
          obtain ⟨w1, w2⟩ := writeLoop_ops env.writeFile text m fuel 0 0 ok total ops hw
          rw [hw] at h
          cases ok with
          | false =>
            simp only [Outcome.exit.injEq] at h
            obtain ⟨rfl, rfl⟩ := h
            refine ⟨[DevOp.getCommState true, DevOp.setCommState (dcbSerialParams st) true,
              DevOp.setCommTimeouts timeouts true] ++ ops, env.closeHandle, by simp, ?_, ?_,
              Or.inr rfl⟩
            · intro op hop
              simp only [List.cons_append, List.nil_append, List.mem_cons] at hop
              rcases hop with h | h | h | h
              · subst h; simp [DevOp.isOpen, DevOp.isClose]
              · subst h; simp [DevOp.isOpen, DevOp.isClose]
              · subst h; simp [DevOp.isOpen, DevOp.isClose]
              · exact w1 op h
            · constructor
              · intro h; cases h
              · intro ⟨hall, _⟩
                exfalso
                have : (false = true) := w2.mpr (fun op hop => hall op (by simp [hop]))
                cases this
          | true =>
            simp only [Outcome.exit.injEq] at h
            obtain ⟨rfl, rfl⟩ := h
            have hops := w2.mp rfl
            refine ⟨[DevOp.getCommState true, DevOp.setCommState (dcbSerialParams st) true,
              DevOp.setCommTimeouts timeouts true] ++ ops ++ DevOp.flushFileBuffers ::
                (if st.close_delay > 0 then [DevOp.sleep st.close_delay] else []),
              env.closeHandle, by simp, ?_, ?_, ?_⟩
            · intro op hop
              simp only [List.cons_append, List.nil_append, List.mem_cons, List.mem_append] at hop
              rcases hop with h | h | h | h | h | h
              · subst h; simp [DevOp.isOpen, DevOp.isClose]
              · subst h; simp [DevOp.isOpen, DevOp.isClose]
              · subst h; simp [DevOp.isOpen, DevOp.isClose]
              · exact w1 op h
              · subst h; simp [DevOp.isOpen, DevOp.isClose]
              · split_ifs at h
                · simp only [List.mem_singleton] at h
                  subst h; simp [DevOp.isOpen, DevOp.isClose]
                · cases h
            · constructor
              · intro h0
                refine ⟨?_, ?_⟩
                · intro op hop
                  simp only [List.cons_append, List.nil_append, List.mem_cons,
                    List.mem_append] at hop
                  rcases hop with h | h | h | h | h | h
                  · subst h; simp [DevOp.ok]
                  · subst h; simp [DevOp.ok]
                  · subst h; simp [DevOp.ok]
                  · exact hops op h
                  · subst h; simp [DevOp.ok]
                  · split_ifs at h
                    · simp only [List.mem_singleton] at h
                      subst h; simp [DevOp.ok]
                    · cases h
                · by_contra hc
                  simp [hc] at h0
              · intro ⟨_, hc⟩
                simp [hc]
            · cases env.closeHandle <;> simp

/-! ## The claim about the write loop -/

/-- The calls the write loop records are the ones the answers of the device
force: every recorded result is the answer of `writeFile` to the bytes of that
call, and the loop goes on until `total_bytes_written` reaches `m` or a call
fails. -/
theorem writeLoop_follows (writeFile : Nat → List Nat → Option Nat) (text : List Nat) (m : Nat)
    (hm : m ≤ text.length) (hm32 : m < DWORD_MOD)
    (hk : ∀ i bytes k, bytes ≠ [] → writeFile i bytes = some k → 1 ≤ k ∧ k ≤ bytes.length) :
    ∀ (fuel i total : Nat) (ok : Bool) (total' : Nat) (ops : List DevOp), total ≤ m →
      writeLoop writeFile text m fuel i total [] = some (ok, total', ops) →
      writesFollow writeFile text m i total ops := by
  intro fuel
  induction fuel with
  | zero => intro i total ok total' ops _ h; simp [writeLoop] at h
  | succ f ih =>
    intro i total ok total' ops htot h
    rw [writeLoop] at h
    by_cases hg : total < m
    · rw [if_pos hg] at h
      dsimp only at h
      have hlen : ((text.drop total).take (m - total)).length = m - total := by
        simp [List.length_take, List.length_drop]; omega
      have hne : (text.drop total).take (m - total) ≠ [] := by
        intro h0; rw [h0] at hlen; simp at hlen; omega
      cases hw : writeFile i ((text.drop total).take (m - total)) with
      | none =>
        rw [hw] at h
        simp only [List.nil_append, Option.some.injEq, Prod.mk.injEq] at h
        obtain ⟨_, _, rfl⟩ := h
        simp [writesFollow, hg, hw]
      | some k =>
        obtain ⟨k1, k2⟩ := hk i _ k hne hw
        rw [hlen] at k2
        have hmod : (total + k) % DWORD_MOD = total + k := Nat.mod_eq_of_lt (by omega)
        rw [hw] at h
        dsimp only at h
        rw [hmod, writeLoop_trace] at h
        cases hr : writeLoop writeFile text m f (i + 1) (total + k) [] with
        | none => rw [hr] at h; simp at h
        | some r =>
          obtain ⟨ok1, t1, ops1⟩ := r
          rw [hr] at h
          simp only [Option.map_some', List.nil_append, Option.some.injEq, Prod.mk.injEq] at h
          obtain ⟨_, _, rfl⟩ := h
          have := ih (i + 1) (total + k) ok1 t1 ops1 (by omega) hr
          simp [writesFollow, hg, hw, this]
    · rw [if_neg hg] at h
      simp only [Option.some.injEq, Prod.mk.injEq] at h
      obtain ⟨_, _, rfl⟩ := h
      simp only [writesFollow]
      omega

/-- When the device never refuses a write of at least one byte, every call
that the answers force has succeeded. -/
theorem writesFollow_all_ok (writeFile : Nat → List Nat → Option Nat) (text : List Nat)
    (m : Nat) (hm : m ≤ text.length)
    (hnf : ∀ i bytes, bytes ≠ [] → writeFile i bytes ≠ none) :
    ∀ (ops : List DevOp) (i total : Nat), writesFollow writeFile text m i total ops →
      ∀ op ∈ ops, op.ok = true := by
  intro ops
  induction ops with
  | nil => intro i total _ op hop; cases hop
  | cons o ops ih =>
    intro i total h op hop
    cases o with
    | writeFile offset bytes res =>
      simp only [writesFollow] at h
      obtain ⟨hg, _, hb, hres, hrest⟩ := h
      have hne : bytes ≠ [] := by
        intro h0
        have hl : bytes.length = m - total := by
          rw [hb]; simp [List.length_take, List.length_drop]; omega
        rw [h0] at hl; simp at hl; omega
      cases res with
      | none => exact absurd hres.symm (hnf i bytes hne)
      | some k =>
        rcases List.mem_cons.mp hop with e | e
        · subst e; simp [DevOp.ok]
        · exact ih (i + 1) (total + k) hrest op e
    | createFile _ _ => simp [writesFollow] at h
    | getCommState _ => simp [writesFollow] at h
    | setCommState _ _ => simp [writesFollow] at h
    | setCommTimeouts _ _ => simp [writesFollow] at h
    | flushFileBuffers => simp [writesFollow] at h
    | sleep _ => simp [writesFollow] at h
    | closeHandle _ => simp [writesFollow] at h

/-- C11: when every successful write reports a count between 1 and the number
of bytes it was given, the write loop ends within `m` calls, and its calls are
the ones the answers of the device force: each call is issued at offset
`total_bytes_written` with the `m - total_bytes_written` bytes from there, its
recorded result is the device's answer to that call, a partial write is
followed by a call for the rest, and the loop stops only at `m` bytes or at a
failed call.  The loop reports success exactly when no call failed; then
`total_bytes_written` is `m`, the chunks the device took are, in order,
`text_to_send[0..m)`, and the run goes on to flush and close.  In particular
this is so whenever the device refuses no write.  When a call fails it is the
last call, and the run closes the handle and returns 1. -/
theorem write_loop_delivers_payload (env : Env) (st : Settings) (text_to_send : List Nat)
    (m fuel : Nat) (tr : List DevOp)
    (hm : m ≤ text_to_send.length) (hm32 : m < DWORD_MOD)
    (hk : ∀ i bytes k, bytes ≠ [] → env.writeFile i bytes = some k →
      1 ≤ k ∧ k ≤ bytes.length)
    (hfuel : m + 1 ≤ fuel) :
    ∃ ok total ops,
      writeLoop env.writeFile text_to_send m fuel 0 0 [] = some (ok, total, ops) ∧
      writesFollow env.writeFile text_to_send m 0 0 ops ∧
      writesChained text_to_send m 0 ops ∧
      (ok = true ↔ ∀ op ∈ ops, op.ok = true) ∧
      ((∀ i bytes, bytes ≠ [] → env.writeFile i bytes ≠ none) → ok = true) ∧
      (ok = true →
        total = m ∧ accepted ops = text_to_send.take m ∧
        (env.getCommState = true → env.setCommState (dcbSerialParams st) = true →
          env.setCommTimeouts = true →
          sendAndClose env st text_to_send m fuel tr
            = Outcome.exit (if env.closeHandle then 0 else 1)
                (tr ++ [DevOp.getCommState true,
                  DevOp.setCommState (dcbSerialParams st) true,
                  DevOp.setCommTimeouts timeouts true]
                  ++ ops ++ DevOp.flushFileBuffers ::
                    ((if st.close_delay > 0 then [DevOp.sleep st.close_delay] else [])
                      ++ [DevOp.closeHandle env.closeHandle])))) ∧
      (ok = false →
        (∃ ops' offset bytes, ops = ops' ++ [DevOp.writeFile offset bytes none]) ∧
        (env.getCommState = true → env.setCommState (dcbSerialParams st) = true →
          env.setCommTimeouts = true →
          sendAndClose env st text_to_send m fuel tr
            = Outcome.exit 1 (tr ++ [DevOp.getCommState true,
                DevOp.setCommState (dcbSerialParams st) true,
                DevOp.setCommTimeouts timeouts true]
                ++ ops ++ [DevOp.closeHandle env.closeHandle]))) := by
  obtain ⟨ok, total, ops, h1, h2, h3, h4⟩ :=
    writeLoop_spec env.writeFile text_to_send m hm hm32 hk fuel 0 0 (Nat.zero_le _) (by omega)
  have hfol := writeLoop_follows env.writeFile text_to_send m hm hm32 hk fuel 0 0 ok total ops
    (Nat.zero_le _) h1
  have hiff := (writeLoop_ops env.writeFile text_to_send m fuel 0 0 ok total ops h1).2
  refine ⟨ok, total, ops, h1, hfol, h2, hiff, ?_, ?_, ?_⟩
  · intro hnf
    exact hiff.mpr (writesFollow_all_ok env.writeFile text_to_send m hm hnf ops 0 0 hfol)
  · intro hok
    obtain ⟨e1, e2⟩ := h3 hok
    subst hok
    refine ⟨e1, by simpa using e2, ?_⟩
    intro g1 g2 g3
    rw [sendAndClose_configured env st text_to_send m fuel tr g1 g2 g3, h1]
  · intro hok
    subst hok
    refine ⟨h4 rfl, ?_⟩
    intro g1 g2 g3
    rw [sendAndClose_configured env st text_to_send m fuel tr g1 g2 g3, h1]

set_option maxRecDepth 100000 in
theorem write_loop_delivers_payload_witness :
    ∃ ok total ops,
      writeLoop (fun _ bytes => some (min 2 bytes.length))
          [104, 101, 108, 108, 111, 0] 5 6 0 0 [] = some (ok, total, ops) ∧
      writesFollow (fun _ bytes => some (min 2 bytes.length))
          [104, 101, 108, 108, 111, 0] 5 0 0 ops ∧
      ok = true ∧ total = 5 ∧
      accepted ops = List.take 5 [104, 101, 108, 108, 111, 0] ∧
      sendAndClose { readyEnv with writeFile := fun _ bytes => some (min 2 bytes.length) }
          { buffer := [104, 101, 108, 108, 111, 0] } [104, 101, 108, 108, 111, 0] 5 6
          [DevOp.createFile 50 true]
        = Outcome.exit 0 ([DevOp.createFile 50 true] ++ [DevOp.getCommState true,
            DevOp.setCommState (dcbSerialParams { buffer := [104, 101, 108, 108, 111, 0] }) true,
            DevOp.setCommTimeouts timeouts true]
            ++ ops ++ [DevOp.flushFileBuffers, DevOp.closeHandle true]) :=
  let ⟨ok, total, ops, h1, h2, _, _, h5, h6, _⟩ :=
    write_loop_delivers_payload
      { readyEnv with writeFile := fun _ bytes => some (min 2 bytes.length) }
      { buffer := [104, 101, 108, 108, 111, 0] } [104, 101, 108, 108, 111, 0] 5 6
      [DevOp.createFile 50 true] (by decide) (by decide)
      (by
        intro i bytes k hne hw
        simp only [Option.some.injEq] at hw
        have : 0 < bytes.length := List.length_pos.mpr hne
        omega)
      (by decide)
  have hok : ok = true := h5 (by intro i bytes _ h; cases h)
  ⟨ok, total, ops, h1, h2, hok, (h6 hok).1, (h6 hok).2.1, (h6 hok).2.2 rfl rfl rfl⟩

/-! ## The claim about the handle -/

/-- C12: the trace of every run that returns is a sequence of failed open
attempts, followed either by nothing (no handle was ever held, status 1) or by
one successful `CreateFile`, calls on that handle that are neither an open nor
a close, and one `CloseHandle` as the last call.  This covers the success path
and the failure of `GetCommState`, `SetCommState`, `SetCommTimeouts`,
`WriteFile` and `CloseHandle`.  The status is 0 exactly when a port was opened
and every call after that, the close included, succeeded; it is 1 otherwise. -/
theorem handle_closed_on_every_exit (args : List (List Nat)) (buffer0 stack : List Nat)
    (env : Env) (fuel status : Nat) (tr : List DevOp)
    (h : main args buffer0 stack env fuel = Outcome.exit status tr) :
    ∃ attempts, (∀ op ∈ attempts, ∃ n, op = DevOp.createFile n false) ∧
      ((tr = attempts ∧ status = 1) ∨
       (∃ k body c, tr = attempts ++ DevOp.createFile k true :: body ++ [DevOp.closeHandle c] ∧
          (∀ op ∈ body, op.isOpen = false ∧ op.isClose = false) ∧
          (status = 0 ↔ (∀ op ∈ body, op.ok = true) ∧ c = true) ∧
          (status = 0 ∨ status = 1))) := by
  unfold main at h
  cases hp : parseArgs args buffer0 with
  | error e =>
    rw [hp] at h
    have : status = 1 ∧ tr = [] := by
      cases e <;> simp at h <;> exact ⟨h.1.symm, h.2⟩
    exact ⟨[], by simp, Or.inl ⟨this.2, this.1⟩⟩
  | ok st =>
    rw [hp] at h
    dsimp only at h
    cases hd : decode (st.parse_hex_bytes != 0) st.buffer stack with
    | none => rw [hd] at h; cases h
    | some d =>
      rw [hd] at h
      dsimp only at h
      unfold openAndSend at h
      cases hl : locate env.createFile st.no_scan st.dev_num with
      | none => rw [hl] at h; cases h
      | some r =>
        obtain ⟨dev, tr1⟩ := r
        rw [hl] at h
        dsimp only at h
        obtain ⟨att, a1, a2, a3⟩ := scanLoop_trace env.createFile st.no_scan _ _ [] dev tr1 hl
        by_cases hneg : dev < 0
        · rw [if_pos hneg] at h
          simp only [Outcome.exit.injEq] at h
          obtain ⟨rfl, rfl⟩ := h
          exact ⟨att, a1, Or.inl ⟨by simpa using a2 hneg, rfl⟩⟩
        · rw [if_neg hneg] at h
          obtain ⟨body, c, b1, b2, b3, b4⟩ :=
            sendAndClose_trace env st d.text_to_send d.m fuel tr1 status tr h
          refine ⟨att, a1, Or.inr ⟨dev, body, c, ?_, b2, b3, b4⟩⟩
          rw [b1, a3 (by omega)]
          simp

set_option maxRecDepth 100000 in
theorem handle_closed_on_every_exit_witness :
    ∃ attempts, (∀ op ∈ attempts, ∃ n, op = DevOp.createFile n false) ∧
      (([DevOp.createFile 1 false, DevOp.createFile 0 true, DevOp.getCommState true,
          DevOp.setCommState ⟨9600, 8, 0, 0, 1⟩ true,
          DevOp.setCommTimeouts ⟨50, 50, 10, 50, 10⟩ true,
          DevOp.writeFile 0 [104, 105] (some 1), DevOp.writeFile 1 [105] none,
          DevOp.closeHandle true] = attempts ∧ 1 = 1) ∨
       (∃ k body c,
          [DevOp.createFile 1 false, DevOp.createFile 0 true, DevOp.getCommState true,
            DevOp.setCommState ⟨9600, 8, 0, 0, 1⟩ true,
            DevOp.setCommTimeouts ⟨50, 50, 10, 50, 10⟩ true,
            DevOp.writeFile 0 [104, 105] (some 1), DevOp.writeFile 1 [105] none,
            DevOp.closeHandle true]
            = attempts ++ DevOp.createFile k true :: body ++ [DevOp.closeHandle c] ∧
          (∀ op ∈ body, op.isOpen = false ∧ op.isClose = false) ∧
          (1 = 0 ↔ (∀ op ∈ body, op.ok = true) ∧ c = true) ∧
          (1 = 0 ∨ 1 = 1))) :=
  handle_closed_on_every_exit [cstr "/devnum", cstr "1", cstr "hi"] (List.replicate 260 0)
    (List.replicate 260 0)
    { readyEnv with
      createFile := fun n => n == 0
      writeFile := fun i _ => if i = 0 then some 1 else none }
    3 1
    [DevOp.createFile 1 false, DevOp.createFile 0 true, DevOp.getCommState true,
      DevOp.setCommState ⟨9600, 8, 0, 0, 1⟩ true,
      DevOp.setCommTimeouts ⟨50, 50, 10, 50, 10⟩ true,
      DevOp.writeFile 0 [104, 105] (some 1), DevOp.writeFile 1 [105] none,
      DevOp.closeHandle true]
    (by decide)

/-! ## The branches of the parsing loop -/

theorem parseLoop_baudrate (v : List Nat) (rest : List (List Nat)) (st : Settings) :
    parseLoop (cstr "/baudrate" :: v :: rest) st =
      if atoi v > 0 then parseLoop rest { st with baudrate := atoi v }
      else .error .baudRateError := by
  rw [parseLoop, if_pos rfl]

theorem parseLoop_baudrate_last (st : Settings) :
    parseLoop [cstr "/baudrate"] st = .error .baudRateError := by
  rw [parseLoop, if_pos rfl]

theorem parseLoop_devnum (v : List Nat) (rest : List (List Nat)) (st : Settings) :
    parseLoop (cstr "/devnum" :: v :: rest) st
      = parseLoop rest { st with dev_num := atoi v } := by
  rw [parseLoop, if_neg (by decide), if_pos rfl]

theorem parseLoop_closedelay (v : List Nat) (rest : List (List Nat)) (st : Settings) :
    parseLoop (cstr "/closedelay" :: v :: rest) st
      = parseLoop rest { st with close_delay := atoi v } := by
  rw [parseLoop, if_neg (by decide), if_neg (by decide), if_pos rfl]

theorem parseLoop_dtr (v : List Nat) (rest : List (List Nat)) (st : Settings) :
    parseLoop (cstr "/dtr" :: v :: rest) st = parseLoop rest { st with dtr := atoi v } := by
  rw [parseLoop, if_neg (by decide), if_neg (by decide), if_neg (by decide),
    if_neg (by decide), if_neg (by decide), if_neg (by decide), if_pos rfl]

theorem parseLoop_noscan (rest : List (List Nat)) (st : Settings) :
    parseLoop (cstr "/noscan" :: rest) st = parseLoop rest { st with no_scan := 1 } := by
  rw [parseLoop.eq_def]; dsimp only
  rw [if_neg (by decide), if_neg (by decide), if_neg (by decide), if_pos rfl]

theorem parseLoop_evenparity (rest : List (List Nat)) (st : Settings) :
    parseLoop (cstr "/evenparity" :: rest) st
      = parseLoop rest { st with even_parity := 1 } := by
  rw [parseLoop.eq_def]; dsimp only
  rw [if_neg (by decide), if_neg (by decide), if_neg (by decide), if_neg (by decide),
    if_pos rfl]

theorem parseLoop_oddparity (rest : List (List Nat)) (st : Settings) :
    parseLoop (cstr "/oddparity" :: rest) st
      = parseLoop rest { st with odd_parity := 1 } := by
  rw [parseLoop.eq_def]; dsimp only
  rw [if_neg (by decide), if_neg (by decide), if_neg (by decide), if_neg (by decide),
    if_neg (by decide), if_pos rfl]

theorem parseLoop_hex (rest : List (List Nat)) (st : Settings) :
    parseLoop (cstr "/hex" :: rest) st
      = parseLoop rest { st with parse_hex_bytes := 1 } := by
  rw [parseLoop.eq_def]; dsimp only
  rw [if_neg (by decide), if_neg (by decide), if_neg (by decide), if_neg (by decide),
    if_neg (by decide), if_neg (by decide), if_neg (by decide), if_pos rfl]

/-- Induction over a parsing loop that runs to the end of the arguments: one
case for the end of the list and one for each branch that goes on. -/
theorem parseLoop_ok_induction (P : List (List Nat) → Settings → Settings → Prop)
    (h_nil : ∀ st, P [] st st)
    (h_baud : ∀ v rest st st', atoi v > 0 → P rest { st with baudrate := atoi v } st' →
      P (cstr "/baudrate" :: v :: rest) st st')
    (h_dev : ∀ v rest st st', P rest { st with dev_num := atoi v } st' →
      P (cstr "/devnum" :: v :: rest) st st')
    (h_delay : ∀ v rest st st', P rest { st with close_delay := atoi v } st' →
      P (cstr "/closedelay" :: v :: rest) st st')
    (h_dtr : ∀ v rest st st', P rest { st with dtr := atoi v } st' →
      P (cstr "/dtr" :: v :: rest) st st')
    (h_noscan : ∀ rest st st', P rest { st with no_scan := 1 } st' →
      P (cstr "/noscan" :: rest) st st')
    (h_even : ∀ rest st st', P rest { st with even_parity := 1 } st' →
      P (cstr "/evenparity" :: rest) st st')
    (h_odd : ∀ rest st st', P rest { st with odd_parity := 1 } st' →
      P (cstr "/oddparity" :: rest) st st')
    (h_hex : ∀ rest st st', P rest { st with parse_hex_bytes := 1 } st' →
      P (cstr "/hex" :: rest) st st')
    (h_text : ∀ arg rest st b st', arg ∉ valueFlags → arg ∉ loopFlags →
      strcpy st.buffer arg = some b → P rest { st with buffer := b } st' →
      P (arg :: rest) st st') :
    ∀ (args : List (List Nat)) (st st' : Settings), parseLoop args st = .ok st' →
      P args st st' := by
  have main : ∀ (n : Nat) (args : List (List Nat)) (st st' : Settings), args.length ≤ n →
      parseLoop args st = .ok st' → P args st st' := by
    intro n
    induction n with
    | zero =>
      intro args st st' hlen h
      have : args = [] := List.length_eq_zero.mp (by omega)
      subst this
      simp only [parseLoop, Except.ok.injEq] at h
      subst h
      exact h_nil st
    | succ n ih =>
      intro args st st' hlen h
      match args, hlen, h with
      | [], _, h =>
        simp only [parseLoop, Except.ok.injEq] at h
        subst h
        exact h_nil st
      | arg :: rest, hlen, h =>
        have hrest : rest.length ≤ n := by simpa using hlen
        by_cases h1 : arg ∈ valueFlags
        · match rest, hrest, h with
          | [], _, h =>
            obtain ⟨e, _, hp⟩ := parseLoop_value_flag_last arg st h1
            rw [hp] at h; cases h
          | v :: rest', hrest', h =>
            have hr : rest'.length ≤ n := by simp at hrest'; omega
            simp only [valueFlags, List.mem_cons, List.mem_singleton, List.not_mem_nil,
              or_false] at h1
            rcases h1 with e | e | e | e <;> subst e
            · rw [parseLoop_baudrate] at h
              by_cases hv : atoi v > 0
              · rw [if_pos hv] at h
                exact h_baud v rest' st st' hv (ih _ _ _ hr h)
              · rw [if_neg hv] at h; cases h
            · rw [parseLoop_devnum] at h
              exact h_dev v rest' st st' (ih _ _ _ hr h)
            · rw [parseLoop_closedelay] at h
              exact h_delay v rest' st st' (ih _ _ _ hr h)
            · rw [parseLoop_dtr] at h
              exact h_dtr v rest' st st' (ih _ _ _ hr h)
        · by_cases h2 : arg ∈ loopFlags
          · simp only [loopFlags, List.mem_cons, List.mem_singleton, List.not_mem_nil,
              or_false] at h2
            rcases h2 with e | e | e | e <;> subst e
            · rw [parseLoop_noscan] at h
              exact h_noscan rest st st' (ih _ _ _ hrest h)
            · rw [parseLoop_evenparity] at h
              exact h_even rest st st' (ih _ _ _ hrest h)
            · rw [parseLoop_oddparity] at h
              exact h_odd rest st st' (ih _ _ _ hrest h)
            · rw [parseLoop_hex] at h
              exact h_hex rest st st' (ih _ _ _ hrest h)
          · rw [parseLoop_text _ _ _ h1 h2] at h
            cases hc : strcpy st.buffer arg with
            | none => rw [hc] at h; cases h
            | some b =>
              rw [hc] at h
              exact h_text arg rest st b st' h1 h2 hc (ih _ _ _ hrest h)
  intro args st st' h
  exact main args.length args st st' (le_refl _) h

/-- A prefix that the loop parses to its end hands its settings on to the
arguments after it. -/
theorem parseLoop_append (suf : List (List Nat)) :
    ∀ (pre : List (List Nat)) (st st1 : Settings), parseLoop pre st = .ok st1 →
      parseLoop (pre ++ suf) st = parseLoop suf st1 := by
  apply parseLoop_ok_induction
    (fun pre st st1 => parseLoop (pre ++ suf) st = parseLoop suf st1)
  · intro st; rfl
  · intro v rest st st' hv ih
    rw [List.cons_append, List.cons_append, parseLoop_baudrate, if_pos hv, ih]
  · intro v rest st st' ih
    rw [List.cons_append, List.cons_append, parseLoop_devnum, ih]
  · intro v rest st st' ih
    rw [List.cons_append, List.cons_append, parseLoop_closedelay, ih]
  · intro v rest st st' ih
    rw [List.cons_append, List.cons_append, parseLoop_dtr, ih]
  · intro rest st st' ih
    rw [List.cons_append, parseLoop_noscan, ih]
  · intro rest st st' ih
    rw [List.cons_append, parseLoop_evenparity, ih]
  · intro rest st st' ih
    rw [List.cons_append, parseLoop_oddparity, ih]
  · intro rest st st' ih
    rw [List.cons_append, parseLoop_hex, ih]
  · intro arg rest st b st' h1 h2 hc ih
    rw [List.cons_append, parseLoop_text _ _ _ h1 h2, hc]
    exact ih

/-! ## From the parsing loop to the run -/

theorem parseArgs_eq (args : List (List Nat)) (buffer0 : List Nat) (hbuf : 0 < buffer0.length) :
    parseArgs args buffer0 =
      match parseLoop args (settingsOnEntry args buffer0) with
      | .error e => .error e
      | .ok st => if strlen st.buffer = 0 then .error .usage else .ok st := by
  unfold parseArgs settingsOnEntry
  rw [strcpy_fits buffer0 [] (by simpa using hbuf)]
  rfl

/-- An error of the parsing loop that is one of the `return 1` statements ends
the run with status 1 before any device call. -/
theorem main_of_parseLoop_error (args : List (List Nat)) (buffer0 stack : List Nat)
    (env : Env) (fuel : Nat) (e : ParseError) (hbuf : 0 < buffer0.length)
    (he : e ≠ ParseError.overrun)
    (h : parseLoop args (settingsOnEntry args buffer0) = .error e) :
    parseArgs args buffer0 = .error e ∧
    main args buffer0 stack env fuel = Outcome.exit 1 [] := by
  have hp : parseArgs args buffer0 = .error e := by
    rw [parseArgs_eq args buffer0 hbuf, h]
  refine ⟨hp, ?_⟩
  unfold main
  rw [hp]
  cases e <;> first | rfl | exact absurd rfl he

theorem headArgs_value (arg v : List Nat) (rest : List (List Nat)) (h : arg ∈ valueFlags) :
    headArgs (arg :: v :: rest) = arg :: headArgs rest := by
  rw [headArgs, if_pos h]

theorem headArgs_other (arg : List Nat) (rest : List (List Nat)) (h : arg ∉ valueFlags) :
    headArgs (arg :: rest) = arg :: headArgs rest := by
  rw [headArgs.eq_def]; dsimp only; rw [if_neg h]

/-- Arguments with no `/baudrate` in flag position leave `baudrate` as it is. -/
theorem parseLoop_baudrate_frame :
    ∀ (args : List (List Nat)) (st st' : Settings), parseLoop args st = .ok st' →
      cstr "/baudrate" ∉ headArgs args → st'.baudrate = st.baudrate := by
  apply parseLoop_ok_induction
    (fun args st st' => cstr "/baudrate" ∉ headArgs args → st'.baudrate = st.baudrate)
  · intro st _; rfl
  · intro v rest st st' _ _ h
    rw [headArgs_value _ _ _ (by decide)] at h
    simp at h
  · intro v rest st st' ih h
    rw [headArgs_value _ _ _ (by decide)] at h
    exact ih (fun hm => h (List.mem_cons_of_mem _ hm))
  · intro v rest st st' ih h
    rw [headArgs_value _ _ _ (by decide)] at h
    exact ih (fun hm => h (List.mem_cons_of_mem _ hm))
  · intro v rest st st' ih h
    rw [headArgs_value _ _ _ (by decide)] at h
    exact ih (fun hm => h (List.mem_cons_of_mem _ hm))
  · intro rest st st' ih h
    rw [headArgs_other _ _ (by decide)] at h
    exact ih (fun hm => h (List.mem_cons_of_mem _ hm))
  · intro rest st st' ih h
    rw [headArgs_other _ _ (by decide)] at h
    exact ih (fun hm => h (List.mem_cons_of_mem _ hm))
  · intro rest st st' ih h
    rw [headArgs_other _ _ (by decide)] at h
    exact ih (fun hm => h (List.mem_cons_of_mem _ hm))
  · intro rest st st' ih h
    rw [headArgs_other _ _ (by decide)] at h
    exact ih (fun hm => h (List.mem_cons_of_mem _ hm))
  · intro arg rest st b st' h1 _ _ ih h
    rw [headArgs_other _ _ h1] at h
    exact ih (fun hm => h (List.mem_cons_of_mem _ hm))

/-! ## The claims about the numeric flags -/

/-- The two parity variables after a parsing loop that runs to the end: each
is 1 when its flag stands in flag position, and keeps its value otherwise. -/
theorem parseLoop_parity :
    ∀ (args : List (List Nat)) (st st' : Settings), parseLoop args st = .ok st' →
      st'.even_parity = (if cstr "/evenparity" ∈ headArgs args then 1 else st.even_parity) ∧
      st'.odd_parity = (if cstr "/oddparity" ∈ headArgs args then 1 else st.odd_parity) := by
  apply parseLoop_ok_induction
    (fun args st st' =>
      st'.even_parity = (if cstr "/evenparity" ∈ headArgs args then 1 else st.even_parity) ∧
      st'.odd_parity = (if cstr "/oddparity" ∈ headArgs args then 1 else st.odd_parity))
  · intro st; simp [headArgs]
  · intro v rest st st' _ ih
    have e1 : cstr "/evenparity" ≠ cstr "/baudrate" := by decide
    have e2 : cstr "/oddparity" ≠ cstr "/baudrate" := by decide
    simp only [headArgs_value _ _ _ (by decide : cstr "/baudrate" ∈ valueFlags), List.mem_cons,
      e1, e2, false_or]
    exact ih
  · intro v rest st st' ih
    have e1 : cstr "/evenparity" ≠ cstr "/devnum" := by decide
    have e2 : cstr "/oddparity" ≠ cstr "/devnum" := by decide
    simp only [headArgs_value _ _ _ (by decide : cstr "/devnum" ∈ valueFlags), List.mem_cons,
      e1, e2, false_or]
    exact ih
  · intro v rest st st' ih
    have e1 : cstr "/evenparity" ≠ cstr "/closedelay" := by decide
    have e2 : cstr "/oddparity" ≠ cstr "/closedelay" := by decide
    simp only [headArgs_value _ _ _ (by decide : cstr "/closedelay" ∈ valueFlags), List.mem_cons,
      e1, e2, false_or]
    exact ih
  · intro v rest st st' ih
    have e1 : cstr "/evenparity" ≠ cstr "/dtr" := by decide
    have e2 : cstr "/oddparity" ≠ cstr "/dtr" := by decide
    simp only [headArgs_value _ _ _ (by decide : cstr "/dtr" ∈ valueFlags), List.mem_cons,
      e1, e2, false_or]
    exact ih
  · intro rest st st' ih
    have e1 : cstr "/evenparity" ≠ cstr "/noscan" := by decide
    have e2 : cstr "/oddparity" ≠ cstr "/noscan" := by decide
    simp only [headArgs_other _ _ (by decide : cstr "/noscan" ∉ valueFlags), List.mem_cons,
      e1, e2, false_or]
    exact ih
  · intro rest st st' ih
    have e2 : cstr "/oddparity" ≠ cstr "/evenparity" := by decide
    simp only [headArgs_other _ _ (by decide : cstr "/evenparity" ∉ valueFlags), List.mem_cons,
      e2, false_or, true_or, if_true]
    refine ⟨?_, ih.2⟩
    rw [ih.1]
    simp
  · intro rest st st' ih
    have e1 : cstr "/evenparity" ≠ cstr "/oddparity" := by decide
    simp only [headArgs_other _ _ (by decide : cstr "/oddparity" ∉ valueFlags), List.mem_cons,
      e1, false_or, true_or, if_true]
    refine ⟨ih.1, ?_⟩
    rw [ih.2]
    simp
  · intro rest st st' ih
    have e1 : cstr "/evenparity" ≠ cstr "/hex" := by decide
    have e2 : cstr "/oddparity" ≠ cstr "/hex" := by decide
    simp only [headArgs_other _ _ (by decide : cstr "/hex" ∉ valueFlags), List.mem_cons,
      e1, e2, false_or]
    exact ih
  · intro arg rest st b st' h1 h2 _ ih
    have e1 : cstr "/evenparity" ≠ arg := fun h => h2 (by rw [← h]; decide)
    have e2 : cstr "/oddparity" ≠ arg := fun h => h2 (by rw [← h]; decide)
    simp only [headArgs_other _ _ h1, List.mem_cons, e1, e2, false_or]
    exact ih

/-- A successful parse comes from a parsing loop that ran to the end from the
state on entry. -/
theorem parseArgs_ok (args : List (List Nat)) (buffer0 : List Nat) (st : Settings)
    (h : parseArgs args buffer0 = .ok st) :
    parseLoop args (settingsOnEntry args buffer0) = .ok st := by
  have hbuf : 0 < buffer0.length := by
    rcases Nat.eq_zero_or_pos buffer0.length with h0 | h0
    · exfalso
      have : buffer0 = [] := List.length_eq_zero.mp h0
      subst this
      simp [parseArgs, strcpy] at h
    · exact h0
  rw [parseArgs_eq args buffer0 hbuf] at h
  cases hl : parseLoop args (settingsOnEntry args buffer0) with
  | error e => rw [hl] at h; cases h
  | ok st1 =>
    rw [hl] at h
    dsimp only at h
    split_ifs at h
    cases h
    rfl

/-- C16: the parity requested from the device depends only on which of the two
flags stand in flag position, not on their order: it is even whenever
`/evenparity` is given (with or without `/oddparity`, before or after it), odd
when only `/oddparity` is given, and none when neither is. -/
theorem parity_from_flags (args : List (List Nat)) (buffer0 : List Nat) (st : Settings)
    (h : parseArgs args buffer0 = .ok st) :
    (dcbSerialParams st).Parity =
      if cstr "/evenparity" ∈ headArgs args then EVENPARITY
      else if cstr "/oddparity" ∈ headArgs args then ODDPARITY
      else NOPARITY := by
  obtain ⟨h1, h2⟩ := parseLoop_parity args _ st (parseArgs_ok args buffer0 st h)
  simp only [dcbSerialParams, h1, h2, settingsOnEntry]
  by_cases he : cstr "/evenparity" ∈ headArgs args
  · simp [he]
  · by_cases ho : cstr "/oddparity" ∈ headArgs args
    · simp [he, ho]
    · simp [he, ho]

set_option maxRecDepth 100000 in
theorem parity_from_flags_witness :
    (dcbSerialParams
        { settingsOnEntry [] (List.replicate 260 0) with
          even_parity := 1, odd_parity := 1,
          buffer := [104, 105] ++ 0 :: List.replicate 257 0 }).Parity
      = (if cstr "/evenparity" ∈ headArgs [cstr "/oddparity", cstr "/evenparity", cstr "hi"]
          then EVENPARITY
         else if cstr "/oddparity" ∈ headArgs [cstr "/oddparity", cstr "/evenparity", cstr "hi"]
          then ODDPARITY
         else NOPARITY) :=
  parity_from_flags [cstr "/oddparity", cstr "/evenparity", cstr "hi"] (List.replicate 260 0)
    { settingsOnEntry [] (List.replicate 260 0) with
      even_parity := 1, odd_parity := 1,
      buffer := [104, 105] ++ 0 :: List.replicate 257 0 }
    (by decide)

/-- The parsing loop keeps `baudrate` positive: only the `/baudrate` branch
assigns it, and it goes on only with a positive value. -/
theorem parseLoop_baudrate_pos :
    ∀ (args : List (List Nat)) (st st' : Settings), parseLoop args st = .ok st' →
      st.baudrate > 0 → st'.baudrate > 0 := by
  apply parseLoop_ok_induction (fun _ st st' => st.baudrate > 0 → st'.baudrate > 0)
  · intro st h; exact h
  · intro v rest st st' hv ih _; exact ih hv
  · intro v rest st st' ih h; exact ih h
  · intro v rest st st' ih h; exact ih h
  · intro v rest st st' ih h; exact ih h
  · intro rest st st' ih h; exact ih h
  · intro rest st st' ih h; exact ih h
  · intro rest st st' ih h; exact ih h
  · intro rest st st' ih h; exact ih h
  · intro arg rest st b st' _ _ _ ih h; exact ih h

set_option maxRecDepth 100000 in
/-- C19, the claim as stated fails: `/closedelay -5 hi` parses successfully
with `close_delay = -5`. -/
theorem negative_close_delay_is_accepted :
    (parseArgs [cstr "/closedelay", cstr "-5", cstr "hi"] (List.replicate 260 0)).toOption.map
        (fun st => st.close_delay) = some (-5) := by
  decide

/-- C19 (as the code has it): every successful parse has `baudrate > 0`.  The
close delay is not checked; a value that is not positive has the effect of the
value 0, since the run waits only when `close_delay > 0` (line 277). -/
theorem baudrate_positive_and_delay_unchecked :
    (∀ (args : List (List Nat)) (buffer0 : List Nat) (st : Settings),
      parseArgs args buffer0 = .ok st → st.baudrate > 0) ∧
    (∀ (env : Env) (st : Settings) (text_to_send : List Nat) (m fuel : Nat) (tr : List DevOp),
      st.close_delay ≤ 0 →
      sendAndClose env st text_to_send m fuel tr
        = sendAndClose env { st with close_delay := 0 } text_to_send m fuel tr) := by
  constructor
  · intro args buffer0 st h
    exact parseLoop_baudrate_pos args _ st (parseArgs_ok args buffer0 st h)
      (by simp [settingsOnEntry])
  · intro env st text m fuel tr hd
    have h1 : ¬ st.close_delay > 0 := by omega
    have h2 : dcbSerialParams { st with close_delay := 0 } = dcbSerialParams st := rfl
    unfold sendAndClose
    simp only [h2, h1, if_false, gt_iff_lt, lt_self_iff_false]

set_option maxRecDepth 100000 in
theorem baudrate_positive_and_delay_unchecked_witness :
    ({ settingsOnEntry [] (List.replicate 260 0) with
        baudrate := 300, buffer := [104, 105] ++ 0 :: List.replicate 257 0 } : Settings).baudrate
        > 0 ∧
    sendAndClose readyEnv { close_delay := -5, buffer := [104, 105, 0] } [104, 105, 0] 2 2 []
      = sendAndClose readyEnv
          { ({ close_delay := -5, buffer := [104, 105, 0] } : Settings) with close_delay := 0 }
          [104, 105, 0] 2 2 [] :=
  ⟨baudrate_positive_and_delay_unchecked.1 [cstr "/baudrate", cstr "300", cstr "hi"]
      (List.replicate 260 0)
      { settingsOnEntry [] (List.replicate 260 0) with
        baudrate := 300, buffer := [104, 105] ++ 0 :: List.replicate 257 0 }
      (by decide),
   baudrate_positive_and_delay_unchecked.2 readyEnv
      { close_delay := -5, buffer := [104, 105, 0] } [104, 105, 0] 2 2 [] (by decide)⟩

/-! ## Decimal numerals and `atoi` -/

theorem decDigits_numeralAux :
    ∀ (fuel n : Nat) (acc : List Nat), n < fuel →
      decDigits 0 (numeralAux fuel n acc) = decDigits n acc := by
  intro fuel
  induction fuel with
  | zero => intro n acc h; omega
  | succ f ih =>
    intro n acc h
    rw [numeralAux]
    by_cases h10 : n < 10
    · rw [if_pos h10, decDigits]
      have : isdigit (n + 48) = true := by simp [isdigit]; omega
      rw [if_pos this]
      congr 1
      omega
    · rw [if_neg h10, ih (n / 10) _ (by omega), decDigits]
      have : isdigit (n % 10 + 48) = true := by simp [isdigit]; omega
      rw [if_pos this]
      congr 1
      omega

theorem numeralAux_head :
    ∀ (fuel n : Nat) (acc : List Nat), (∀ c, acc.head? = some c → isdigit c = true) →
      (0 < fuel ∨ acc ≠ []) →
      ∃ c cs, numeralAux fuel n acc = c :: cs ∧ isdigit c = true := by
  intro fuel
  induction fuel with
  | zero =>
    intro n acc hacc hne
    rcases hne with h | h
    · omega
    · match acc, hacc, h with
      | c :: cs, hacc, _ => exact ⟨c, cs, rfl, hacc c rfl⟩
  | succ f ih =>
    intro n acc _ _
    rw [numeralAux]
    by_cases h10 : n < 10
    · rw [if_pos h10]
      exact ⟨n + 48, acc, rfl, by simp [isdigit]; omega⟩
    · rw [if_neg h10]
      apply ih
      · intro c hc
        simp only [List.head?_cons, Option.some.injEq] at hc
        subst hc
        simp [isdigit]; omega
      · right; simp

/-- The program reads the numeral of a number that fits an `int` as that
number. -/
theorem atoi_numeral (n : Nat) (h : n ≤ INT_MAX) : atoi (numeral n) = n := by
  obtain ⟨c, cs, hc, hd⟩ := numeralAux_head (n + 1) n [] (by simp) (Or.inl (by omega))
  have hv : decDigits 0 (numeral n) = n := by
    unfold numeral
    rw [decDigits_numeralAux (n + 1) n [] (by omega)]
    rfl
  unfold numeral at hv
  have hb : 48 ≤ c ∧ c ≤ 57 := by simpa [isdigit] using hd
  have hsp : isspace c = false := by simp [isspace]; omega
  have h45 : c ≠ 45 := by omega
  have h43 : c ≠ 43 := by omega
  unfold atoi numeral
  rw [hc] at hv ⊢
  have e45 : (some c == some 45) = false := by simp [h45]
  have e43 : (some c == some 43) = false := by simp [h43]
  simp only [List.dropWhile_cons, hsp, Bool.false_eq_true, if_false, List.head?_cons,
    e45, e43, Bool.or_self, hv]
  unfold INT_MAX at h
  unfold toInt32
  omega

/-- The bytes of a numeral are digits. -/
theorem numeralAux_isCStr :
    ∀ (fuel n : Nat) (acc : List Nat), isCStr acc → isCStr (numeralAux fuel n acc) := by
  intro fuel
  induction fuel with
  | zero => intro n acc h; exact h
  | succ f ih =>
    intro n acc h
    rw [numeralAux]
    by_cases h10 : n < 10
    · rw [if_pos h10]
      intro b hb
      rcases List.mem_cons.mp hb with e | e
      · subst e; omega
      · exact h b e
    · rw [if_neg h10]
      apply ih
      intro b hb
      rcases List.mem_cons.mp hb with e | e
      · subst e; omega
      · exact h b e

/-! ## The claim about `/baudrate` -/

set_option maxRecDepth 100000 in
/-- C13, the claim as stated fails.  In `hi /dtr /baudrate` the token
`/baudrate` is the last token, yet parsing succeeds: it is taken as the value
of `/dtr`, and the baud rate stays 9600.  In `/baudrate 12abc hi` the token
after `/baudrate` is not an integer, yet parsing succeeds with the baud rate
12 that `atoi` reads at its start. -/
theorem baudrate_token_not_always_checked :
    (parseArgs [cstr "hi", cstr "/dtr", cstr "/baudrate"] (List.replicate 260 0)).toOption.map
        (fun st => (st.baudrate, st.dtr)) = some (9600, 0) ∧
    (parseArgs [cstr "/baudrate", cstr "12abc", cstr "hi"] (List.replicate 260 0)).toOption.map
        (fun st => st.baudrate) = some 12 := by
  decide

/-- C13 (as the code has it): where the parsing loop reaches `/baudrate` as a
flag (the arguments before it were parsed to their end), parsing stops with
"Baud rate error" and the run returns 1 when `/baudrate` is the last argument
or when the `atoi` value of the next argument is not positive.  Otherwise
`baudrate` becomes the `atoi` value of that argument, and a parse that
succeeds ends with that value when no later `/baudrate` flag follows: the last
one wins.  The `atoi` value of the decimal numeral of `N` is `N` for every
`0 < N <= 2147483647`.  A `/baudrate` that follows `/devnum`, `/closedelay` or
`/dtr` is taken as that flag's value (read as 0) and is not a flag. -/
theorem baudrate_flag_checked :
    (∀ (pre : List (List Nat)) (st st1 : Settings), parseLoop pre st = .ok st1 →
      parseLoop (pre ++ [cstr "/baudrate"]) st = .error .baudRateError) ∧
    (∀ (pre rest : List (List Nat)) (v : List Nat) (st st1 : Settings),
      parseLoop pre st = .ok st1 → ¬ atoi v > 0 →
      parseLoop (pre ++ cstr "/baudrate" :: v :: rest) st = .error .baudRateError) ∧
    (∀ (pre rest : List (List Nat)) (v : List Nat) (st st1 st' : Settings),
      parseLoop pre st = .ok st1 → atoi v > 0 →
      parseLoop (pre ++ cstr "/baudrate" :: v :: rest) st = .ok st' →
      cstr "/baudrate" ∉ headArgs rest → st'.baudrate = atoi v) ∧
    (∀ (args : List (List Nat)) (buffer0 stack : List Nat) (env : Env) (fuel : Nat),
      0 < buffer0.length →
      parseLoop args (settingsOnEntry args buffer0) = .error .baudRateError →
      parseArgs args buffer0 = .error .baudRateError ∧
      main args buffer0 stack env fuel = Outcome.exit 1 []) ∧
    (∀ N : Nat, 0 < N → N ≤ INT_MAX → atoi (numeral N) = N ∧ atoi (numeral N) > 0) ∧
    (∀ (pre rest : List (List Nat)) (st st1 : Settings), parseLoop pre st = .ok st1 →
      parseLoop (pre ++ cstr "/devnum" :: cstr "/baudrate" :: rest) st
        = parseLoop rest { st1 with dev_num := 0 } ∧
      parseLoop (pre ++ cstr "/closedelay" :: cstr "/baudrate" :: rest) st
        = parseLoop rest { st1 with close_delay := 0 } ∧
      parseLoop (pre ++ cstr "/dtr" :: cstr "/baudrate" :: rest) st
        = parseLoop rest { st1 with dtr := 0 }) := by
  refine ⟨?_, ?_, ?_, ?_, ?_, ?_⟩
  · intro pre st st1 hpre
    rw [parseLoop_append _ pre st st1 hpre, parseLoop_baudrate_last]
  · intro pre rest v st st1 hpre hv
    rw [parseLoop_append _ pre st st1 hpre, parseLoop_baudrate, if_neg hv]
  · intro pre rest v st st1 st' hpre hv h hlast
    rw [parseLoop_append _ pre st st1 hpre, parseLoop_baudrate, if_pos hv] at h
    exact parseLoop_baudrate_frame rest _ st' h hlast
  · intro args buffer0 stack env fuel hbuf h
    exact main_of_parseLoop_error args buffer0 stack env fuel _ hbuf (by decide) h
  · intro N hN hmax
    have h := atoi_numeral N hmax
    exact ⟨h, by rw [h]; exact_mod_cast hN⟩
  · intro pre rest st st1 hpre
    have h0 : atoi (cstr "/baudrate") = 0 := by decide
    rw [parseLoop_append _ pre st st1 hpre, parseLoop_append _ pre st st1 hpre,
      parseLoop_append _ pre st st1 hpre, parseLoop_devnum, parseLoop_closedelay,
      parseLoop_dtr, h0]
    exact ⟨rfl, rfl, rfl⟩

set_option maxRecDepth 100000 in
theorem baudrate_flag_checked_witness :
    (parseLoop ([cstr "/baudrate", cstr "300", cstr "/hex"] ++ [cstr "/baudrate"])
        (settingsOnEntry [] (List.replicate 260 0)) = .error .baudRateError) ∧
    (parseLoop ([cstr "/hex"] ++ cstr "/baudrate" :: cstr "0" :: [cstr "hi"])
        (settingsOnEntry [] (List.replicate 260 0)) = .error .baudRateError) ∧
    (({ settingsOnEntry [] (List.replicate 260 0) with
        baudrate := 19200, buffer := [104, 105] ++ 0 :: List.replicate 257 0 } : Settings).baudrate
      = atoi (cstr "19200")) ∧
    (parseArgs [cstr "hi", cstr "/baudrate", cstr "-1"] (List.replicate 260 0)
        = .error .baudRateError ∧
      main [cstr "hi", cstr "/baudrate", cstr "-1"] (List.replicate 260 0)
        (List.replicate 260 0) readyEnv 2 = Outcome.exit 1 []) ∧
    (atoi (numeral 19200) = ((19200 : Nat) : Int) ∧ atoi (numeral 19200) > 0) ∧
    (parseLoop ([cstr "hi"] ++ cstr "/dtr" :: cstr "/baudrate" :: [])
        (settingsOnEntry [] (List.replicate 260 0))
      = parseLoop []
          { ({ settingsOnEntry [] (List.replicate 260 0) with
                buffer := [104, 105] ++ 0 :: List.replicate 257 0 } : Settings) with dtr := 0 }) :=
  ⟨baudrate_flag_checked.1 [cstr "/baudrate", cstr "300", cstr "/hex"]
      (settingsOnEntry [] (List.replicate 260 0))
      { settingsOnEntry [] (List.replicate 260 0) with baudrate := 300, parse_hex_bytes := 1 }
      (by decide),
   baudrate_flag_checked.2.1 [cstr "/hex"] [cstr "hi"] (cstr "0")
      (settingsOnEntry [] (List.replicate 260 0))
      { settingsOnEntry [] (List.replicate 260 0) with parse_hex_bytes := 1 }
      (by decide) (by decide),
   baudrate_flag_checked.2.2.1 [cstr "/baudrate", cstr "300"] [cstr "hi"] (cstr "19200")
      (settingsOnEntry [] (List.replicate 260 0))
      { settingsOnEntry [] (List.replicate 260 0) with baudrate := 300 }
      { settingsOnEntry [] (List.replicate 260 0) with
        baudrate := 19200, buffer := [104, 105] ++ 0 :: List.replicate 257 0 }
      (by decide) (by decide) (by decide) (by decide),
   baudrate_flag_checked.2.2.2.1 [cstr "hi", cstr "/baudrate", cstr "-1"] (List.replicate 260 0)
      (List.replicate 260 0) readyEnv 2 (by decide) (by decide),
   baudrate_flag_checked.2.2.2.2.1 19200 (by decide) (by decide),
   (baudrate_flag_checked.2.2.2.2.2 [cstr "hi"] [] (settingsOnEntry [] (List.replicate 260 0))
      { settingsOnEntry [] (List.replicate 260 0) with
        buffer := [104, 105] ++ 0 :: List.replicate 257 0 } (by decide)).2.2⟩

/-! ## The first device calls of a run -/

theorem strlen_le_length (b : List Nat) : strlen b ≤ b.length := by
  unfold strlen
  exact (List.takeWhile_prefix _).length_le

/-- The parsing loop keeps the size of the array `buffer`. -/
theorem parseLoop_buffer_length :
    ∀ (args : List (List Nat)) (st st' : Settings), parseLoop args st = .ok st' →
      st'.buffer.length = st.buffer.length := by
  apply parseLoop_ok_induction (fun _ st st' => st'.buffer.length = st.buffer.length)
  · intro st; rfl
  · intro v rest st st' _ ih; exact ih
  · intro v rest st st' ih; exact ih
  · intro v rest st st' ih; exact ih
  · intro v rest st st' ih; exact ih
  · intro rest st st' ih; exact ih
  · intro rest st st' ih; exact ih
  · intro rest st st' ih; exact ih
  · intro rest st st' ih; exact ih
  · intro arg rest st b st' _ _ hc ih
    rw [ih]
    unfold strcpy at hc
    split_ifs at hc with hfit
    cases hc
    simp only [List.length_append, List.length_cons, List.length_drop]
    omega

/-- With the port open and `GetCommState` answering, the next call is
`SetCommState` with the parameters of lines 233-237. -/
theorem sendAndClose_first_calls (env : Env) (st : Settings) (text : List Nat) (m fuel : Nat)
    (tr : List DevOp) (hg : env.getCommState = true) :
    ∃ rest, (sendAndClose env st text m fuel tr).trace
      = tr ++ DevOp.getCommState true ::
          DevOp.setCommState (dcbSerialParams st) (env.setCommState (dcbSerialParams st))
            :: rest := by
  cases h2 : env.setCommState (dcbSerialParams st) with
  | false =>
    refine ⟨[DevOp.closeHandle env.closeHandle], ?_⟩
    simp [sendAndClose, hg, h2, Outcome.trace]
  | true =>
    cases h3 : env.setCommTimeouts with
    | false =>
      refine ⟨[DevOp.setCommTimeouts timeouts false, DevOp.closeHandle env.closeHandle], ?_⟩
      simp [sendAndClose, hg, h2, h3, Outcome.trace]
    | true =>
      rw [sendAndClose_configured env st text m fuel tr hg h2 h3]
      cases writeLoop env.writeFile text m fuel 0 0 [] with
      | none => exact ⟨[DevOp.setCommTimeouts timeouts true], by simp [Outcome.trace]⟩
      | some r =>
        obtain ⟨ok, total, ops⟩ := r
        cases ok
        · exact ⟨DevOp.setCommTimeouts timeouts true ::
            (ops ++ [DevOp.closeHandle env.closeHandle]), by simp [Outcome.trace]⟩
        · exact ⟨DevOp.setCommTimeouts timeouts true :: (ops ++ DevOp.flushFileBuffers ::
              ((if st.close_delay > 0 then [DevOp.sleep st.close_delay] else [])
                ++ [DevOp.closeHandle env.closeHandle])), by simp [Outcome.trace]⟩

/-- After a successful parse, when the start device opens and `GetCommState`
answers, the first three device calls of the run are the open of the start
device, `GetCommState`, and `SetCommState` with the parameters of the
settings. -/
theorem main_first_calls (args : List (List Nat)) (buffer0 stack : List Nat) (env : Env)
    (fuel : Nat) (st : Settings) (hbuf : buffer0.length = MAX_PATH)
    (hp : parseArgs args buffer0 = .ok st) (hdev : 0 ≤ st.dev_num)
    (hopen : env.createFile st.dev_num = true) (hg : env.getCommState = true) :
    (main args buffer0 stack env fuel).trace.take 3
      = [DevOp.createFile st.dev_num true, DevOp.getCommState true,
         DevOp.setCommState (dcbSerialParams st) (env.setCommState (dcbSerialParams st))] := by
  have hlen : st.buffer.length = MAX_PATH := by
    rw [parseLoop_buffer_length args _ st (parseArgs_ok args buffer0 st hp)]
    simp only [settingsOnEntry, List.length_cons, List.length_drop]
    have : MAX_PATH = 260 := rfl
    omega
  obtain ⟨r, _, hdec⟩ := decode_total (st.parse_hex_bytes != 0) st.buffer stack
    (by have := strlen_le_length st.buffer; omega)
  have hloc : locate env.createFile st.no_scan st.dev_num
      = some (st.dev_num, [DevOp.createFile st.dev_num true]) := by
    unfold locate
    have : st.dev_num.toNat + 2 = (st.dev_num.toNat + 1) + 1 := rfl
    rw [this, scanLoop, if_pos hdev, hopen]
    simp
  unfold main
  rw [hp]
  dsimp only
  rw [hdec]
  dsimp only
  unfold openAndSend
  rw [hloc]
  dsimp only
  rw [if_neg (by omega)]
  obtain ⟨rest, hrest⟩ := sendAndClose_first_calls env st
    (r.text_to_send.set r.m 0) r.m fuel [DevOp.createFile st.dev_num true] hg
  rw [hrest]
  simp

/-! ## The range of `baudrate` -/

/-- The value of `atoi` is a 32-bit `int`. -/
theorem atoi_le_INT_MAX (s : List Nat) : atoi s ≤ INT_MAX := by
  unfold atoi toInt32 INT_MAX
  dsimp only
  omega

/-- No successful parse holds a baud rate above `INT_MAX`, whatever numeral
follows `/baudrate`. -/
theorem parse_baudrate_le_INT_MAX (args : List (List Nat)) (buffer0 : List Nat)
    (st : Settings) (h : parseArgs args buffer0 = .ok st) : st.baudrate ≤ INT_MAX := by
  have key : ∀ (args : List (List Nat)) (st st' : Settings), parseLoop args st = .ok st' →
      st.baudrate ≤ INT_MAX → st'.baudrate ≤ INT_MAX := by
    apply parseLoop_ok_induction (fun _ st st' => st.baudrate ≤ INT_MAX → st'.baudrate ≤ INT_MAX)
    · intro st h; exact h
    · intro v rest st st' _ ih _; exact ih (atoi_le_INT_MAX v)
    · intro v rest st st' ih h; exact ih h
    · intro v rest st st' ih h; exact ih h
    · intro v rest st st' ih h; exact ih h
    · intro rest st st' ih h; exact ih h
    · intro rest st st' ih h; exact ih h
    · intro rest st st' ih h; exact ih h
    · intro rest st st' ih h; exact ih h
    · intro arg rest st b st' _ _ _ ih h; exact ih h
  exact key args _ st (parseArgs_ok args buffer0 st h) (by simp [settingsOnEntry, INT_MAX])

/-! ## The claim about the settings requested -/

/-- The parse of an optional `/baudrate` with its value, followed by one
argument that is text: every variable keeps its initial value except
`baudrate` and `buffer`. -/
theorem parse_baudrate_then_text (pre : List (List Nat)) (payload buffer0 : List Nat) (b : Int)
    (hpre : parseLoop (pre ++ [payload]) (settingsOnEntry (pre ++ [payload]) buffer0)
      = parseLoop [payload] { settingsOnEntry (pre ++ [payload]) buffer0 with baudrate := b })
    (h1 : payload ∉ valueFlags) (h2 : payload ∉ loopFlags) (hwf : isCStr payload)
    (hne : payload ≠ []) (hlen : payload.length < MAX_PATH)
    (hbuf : buffer0.length = MAX_PATH) :
    ∃ st, parseArgs (pre ++ [payload]) buffer0 = .ok st ∧ st.baudrate = b ∧
      st.dev_num = 50 ∧ st.dtr = 1 ∧ st.no_scan = 0 ∧ st.even_parity = 0 ∧
      st.odd_parity = 0 ∧ st.payload = payload := by
  have hM : MAX_PATH = 260 := rfl
  have hfit : payload.length < (settingsOnEntry (pre ++ [payload]) buffer0).buffer.length := by
    simp only [settingsOnEntry, List.length_cons, List.length_drop]
    omega
  have hpos : 0 < payload.length := List.length_pos.mpr hne
  refine ⟨{ settingsOnEntry (pre ++ [payload]) buffer0 with
      baudrate := b,
      buffer := payload ++ 0 ::
        (settingsOnEntry (pre ++ [payload]) buffer0).buffer.drop (payload.length + 1) },
    ?_, rfl, rfl, rfl, rfl, rfl, rfl, ?_⟩
  · rw [parseArgs_eq _ buffer0 (by omega), hpre, parseLoop_text _ _ _ h1 h2]
    dsimp only
    rw [strcpy_fits _ _ hfit]
    dsimp only
    rw [parseLoop]
    dsimp only
    rw [strlen_append_zero _ _ hwf, if_neg (by omega)]
  · exact payload_of_buffer _ payload _ hwf rfl

set_option maxRecDepth 100000 in
/-- C15, the claim as stated fails for a number that does not fit an `int`:
with `/baudrate 4294967296 hi` no baud rate 4294967296 is requested.  The
numeral is outside the range of `baudrate`; here `atoi` gives 0 and the run
ends with "Baud rate error" and status 1 before any device call. -/
theorem baudrate_beyond_int_not_requested :
    numeral 4294967296 = cstr "4294967296" ∧
    main [cstr "/baudrate", cstr "4294967296", cstr "hi"] (List.replicate 260 0)
        (List.replicate 260 0) readyEnv 2
      = Outcome.exit 1 [] := by
  decide

/-- C15 (as the code has it): for every positive integer `N` that fits the
program's `int` (`N <= 2147483647`), the arguments `/baudrate N` and a payload
parse to settings whose request to the device is baud rate `N`, 8 data bits,
one stop bit, no parity and DTR control enabled, with the port scan starting
at device 50 and scanning on; when device 50 opens and `GetCommState` answers,
the third device call of the run is `SetCommState` with exactly these
parameters.  With the payload alone the same holds with baud rate 9600. -/
theorem baudrate_numeral_requested (N : Nat) (payload buffer0 stack : List Nat) (env : Env)
    (fuel : Nat) (hN : 0 < N) (hmax : N ≤ INT_MAX)
    (h1 : payload ∉ valueFlags) (h2 : payload ∉ loopFlags) (hwf : isCStr payload)
    (hne : payload ≠ []) (hlen : payload.length < MAX_PATH)
    (hbuf : buffer0.length = MAX_PATH) :
    (∃ st, parseArgs [cstr "/baudrate", numeral N, payload] buffer0 = .ok st ∧
      dcbSerialParams st = ⟨N, 8, ONESTOPBIT, NOPARITY, DTR_CONTROL_ENABLE⟩ ∧
      st.dev_num = 50 ∧ st.no_scan = 0 ∧
      (env.createFile 50 = true → env.getCommState = true →
        (main [cstr "/baudrate", numeral N, payload] buffer0 stack env fuel).trace.take 3
          = [DevOp.createFile 50 true, DevOp.getCommState true,
             DevOp.setCommState ⟨N, 8, ONESTOPBIT, NOPARITY, DTR_CONTROL_ENABLE⟩
               (env.setCommState ⟨N, 8, ONESTOPBIT, NOPARITY, DTR_CONTROL_ENABLE⟩)])) ∧
    (∃ st, parseArgs [payload] buffer0 = .ok st ∧
      dcbSerialParams st = ⟨9600, 8, ONESTOPBIT, NOPARITY, DTR_CONTROL_ENABLE⟩ ∧
      st.dev_num = 50 ∧ st.no_scan = 0 ∧
      (env.createFile 50 = true → env.getCommState = true →
        (main [payload] buffer0 stack env fuel).trace.take 3
          = [DevOp.createFile 50 true, DevOp.getCommState true,
             DevOp.setCommState ⟨9600, 8, ONESTOPBIT, NOPARITY, DTR_CONTROL_ENABLE⟩
               (env.setCommState ⟨9600, 8, ONESTOPBIT, NOPARITY, DTR_CONTROL_ENABLE⟩)])) := by
  have hat : atoi (numeral N) = N := atoi_numeral N hmax
  have key : ∀ (pre : List (List Nat)) (b : Int),
      parseLoop (pre ++ [payload]) (settingsOnEntry (pre ++ [payload]) buffer0)
        = parseLoop [payload]
            { settingsOnEntry (pre ++ [payload]) buffer0 with baudrate := b } →
      ∃ st, parseArgs (pre ++ [payload]) buffer0 = .ok st ∧
        dcbSerialParams st = ⟨b, 8, ONESTOPBIT, NOPARITY, DTR_CONTROL_ENABLE⟩ ∧
        st.dev_num = 50 ∧ st.no_scan = 0 ∧
        (env.createFile 50 = true → env.getCommState = true →
          (main (pre ++ [payload]) buffer0 stack env fuel).trace.take 3
            = [DevOp.createFile 50 true, DevOp.getCommState true,
               DevOp.setCommState ⟨b, 8, ONESTOPBIT, NOPARITY, DTR_CONTROL_ENABLE⟩
                 (env.setCommState ⟨b, 8, ONESTOPBIT, NOPARITY, DTR_CONTROL_ENABLE⟩)]) := by
    intro pre b hpre
    obtain ⟨st, hp, e1, e2, e3, e4, e5, e6, _⟩ :=
      parse_baudrate_then_text pre payload buffer0 b hpre h1 h2 hwf hne hlen hbuf
    have hdcb : dcbSerialParams st = ⟨b, 8, ONESTOPBIT, NOPARITY, DTR_CONTROL_ENABLE⟩ := by
      simp [dcbSerialParams, e1, e3, e5, e6]
    refine ⟨st, hp, hdcb, e2, e4, ?_⟩
    intro hopen hg
    have := main_first_calls (pre ++ [payload]) buffer0 stack env fuel st hbuf hp
      (by rw [e2]; decide) (by rw [e2]; exact hopen) hg
    rw [this, hdcb, e2]
  constructor
  · have := key [cstr "/baudrate", numeral N] N
      (by
        rw [List.cons_append, List.cons_append, List.nil_append, parseLoop_baudrate,
          if_pos (by rw [hat]; exact_mod_cast hN), hat])
    simpa using this
  · have := key [] 9600
      rfl
    simpa using this

set_option maxRecDepth 100000 in
theorem baudrate_numeral_requested_witness :
    ∃ st, parseArgs [cstr "/baudrate", numeral 19200, cstr "hi"] (List.replicate 260 0) = .ok st ∧
      dcbSerialParams st = ⟨19200, 8, ONESTOPBIT, NOPARITY, DTR_CONTROL_ENABLE⟩ ∧
      st.dev_num = 50 ∧ st.no_scan = 0 ∧
      (main [cstr "/baudrate", numeral 19200, cstr "hi"] (List.replicate 260 0)
          (List.replicate 260 0) readyEnv 2).trace.take 3
        = [DevOp.createFile 50 true, DevOp.getCommState true,
           DevOp.setCommState ⟨19200, 8, ONESTOPBIT, NOPARITY, DTR_CONTROL_ENABLE⟩ true] :=
  let ⟨st, h1, h2, h3, h4, h5⟩ :=
    (baudrate_numeral_requested 19200 (cstr "hi") (List.replicate 260 0)
      (List.replicate 260 0) readyEnv 2 (by decide) (by decide) (by decide) (by decide)
      (by decide) (by decide) (by decide) (by decide)).1
  ⟨st, h1, h2, h3, h4, h5 rfl rfl⟩

/-! ## One iteration on one item -/

/-- The loop body on the text of one item at `buffer[n..]`: it moves `n` past
the item, stores the item's byte at `text_to_send[m]`, reads `buffer` only
inside the item, and writes `text_to_send[m]` once. -/
theorem decodeStep_item (it : Item) (pre suf : List Nat) (s : DecState)
    (hok : it.shaped) (hwf : isCStr it.text) (hn : s.n = pre.length) :
    decodeStep true (pre ++ (it.text ++ suf)) s
      = ⟨s.n + it.text.length, s.m + 1, s.text_to_send.set s.m it.value⟩ ∧
    (∀ i ∈ decodeStepReads true (pre ++ (it.text ++ suf)) s,
      s.n ≤ i ∧ i < s.n + it.text.length) ∧
    decodeStepWrites true (pre ++ (it.text ++ suf)) s = [s.m] := by
  have hrd : ∀ i, rd (pre ++ (it.text ++ suf)) (s.n + i) = rd (it.text ++ suf) i := by
    intro i; rw [hn, rd_at]
  have hrd0 := hrd 0
  rw [Nat.add_zero] at hrd0
  cases it with
  | lit c =>
    have hc : c ≠ 92 := hok
    have r0 : rd (pre ++ ((Item.lit c).text ++ suf)) s.n = c := by
      rw [hrd0]; simp [rd, Item.text]
    generalize pre ++ ((Item.lit c).text ++ suf) = b at r0 ⊢
    refine ⟨?_, ?_, ?_⟩
    · simp [decodeStep, r0, hc, Item.text, Item.value]
    · intro i hi
      simp [decodeStepReads, r0, hc, Item.text] at hi ⊢
      omega
    · simp [decodeStepWrites, r0, hc]
  | bslash =>
    have r0 : rd (pre ++ (Item.bslash.text ++ suf)) s.n = 92 := by
      rw [hrd0]; simp [rd, Item.text]
    have r1 : rd (pre ++ (Item.bslash.text ++ suf)) (s.n + 1) = 92 := by
      rw [hrd 1]; simp [rd, Item.text]
    generalize pre ++ (Item.bslash.text ++ suf) = b at r0 r1 ⊢
    refine ⟨?_, ?_, ?_⟩
    · simp [decodeStep, r0, r1, Item.text, Item.value, Nat.add_assoc]
    · intro i hi
      simp [decodeStepReads, r0, r1, Item.text] at hi ⊢
      omega
    · simp [decodeStepWrites, r0, r1]
  | nl =>
    have r0 : rd (pre ++ (Item.nl.text ++ suf)) s.n = 92 := by
      rw [hrd0]; simp [rd, Item.text]
    have r1 : rd (pre ++ (Item.nl.text ++ suf)) (s.n + 1) = 110 := by
      rw [hrd 1]; simp [rd, Item.text]
    generalize pre ++ (Item.nl.text ++ suf) = b at r0 r1 ⊢
    refine ⟨?_, ?_, ?_⟩
    · simp [decodeStep, r0, r1, Item.text, Item.value, Nat.add_assoc]
    · intro i hi
      simp [decodeStepReads, r0, r1, Item.text] at hi ⊢
      omega
    · simp [decodeStepWrites, r0, r1]
  | cr =>
    have r0 : rd (pre ++ (Item.cr.text ++ suf)) s.n = 92 := by
      rw [hrd0]; simp [rd, Item.text]
    have r1 : rd (pre ++ (Item.cr.text ++ suf)) (s.n + 1) = 114 := by
      rw [hrd 1]; simp [rd, Item.text]
    generalize pre ++ (Item.cr.text ++ suf) = b at r0 r1 ⊢
    refine ⟨?_, ?_, ?_⟩
    · simp [decodeStep, r0, r1, Item.text, Item.value, Nat.add_assoc]
    · intro i hi
      simp [decodeStepReads, r0, r1, Item.text] at hi ⊢
      omega
    · simp [decodeStepWrites, r0, r1]
  | hex h1 h2 =>
    have n1 : h1 ≠ 0 := by
      have := (hwf h1 (by simp [Item.text])).1; omega
    have n2 : h2 ≠ 0 := by
      have := (hwf h2 (by simp [Item.text])).1; omega
    have r0 : rd (pre ++ ((Item.hex h1 h2).text ++ suf)) s.n = 92 := by
      rw [hrd0]; simp [rd, Item.text]
    have r1 : rd (pre ++ ((Item.hex h1 h2).text ++ suf)) (s.n + 1) = 120 := by
      rw [hrd 1]; simp [rd, Item.text]
    have r2 : rd (pre ++ ((Item.hex h1 h2).text ++ suf)) (s.n + 1 + 1) = h1 := by
      rw [Nat.add_assoc, hrd 2]; simp [rd, Item.text]
    have r3 : rd (pre ++ ((Item.hex h1 h2).text ++ suf)) (s.n + 1 + 2) = h2 := by
      rw [Nat.add_assoc, hrd 3]; simp [rd, Item.text]
    have hd : ([h1, h2, 0].takeWhile (fun b => b != 0)) = [h1, h2] := by
      simp [List.takeWhile_cons, n1, n2]
    generalize pre ++ ((Item.hex h1 h2).text ++ suf) = b at r0 r1 r2 r3 ⊢
    refine ⟨?_, ?_, ?_⟩
    · simp only [decodeStep, r0, r1, r2, r3, hd]
      simp [Item.text, Item.value, Nat.add_assoc]
    · intro i hi
      simp [decodeStepReads, r0, r1, Item.text] at hi ⊢
      omega
    · simp [decodeStepWrites, r0, r1]

/-- The length of the text of items: one character per item, one more for
each two-character escape, three more for each backslash-`x` escape. -/
theorem render_length (items : List Item) :
    (render items).length = items.length + twoCharEscapes items + 3 * hexEscapes items := by
  induction items with
  | nil => simp [render, twoCharEscapes, hexEscapes]
  | cons it items ih =>
    cases it <;>
      simp [render, twoCharEscapes, hexEscapes, Item.text, ih] <;> omega

/-- The loop over items that have the shape of escapes and ordinary
characters, up to the terminator: one iteration per item, every read inside
the text, one store per iteration at consecutive positions. -/
theorem decode_shaped_run (r : List Nat) :
    ∀ (items : List Item) (pre : List Nat) (s : DecState) (fuel : Nat),
      (∀ it ∈ items, it.shaped) → isCStr (pre ++ render items) → s.n = pre.length →
      s.m + items.length ≤ s.text_to_send.length → items.length < fuel →
      (decodeIter true (pre ++ (render items ++ 0 :: r)) items.length s).n
          = pre.length + (render items).length ∧
      (decodeIter true (pre ++ (render items ++ 0 :: r)) items.length s).m
          = s.m + items.length ∧
      (decodeIter true (pre ++ (render items ++ 0 :: r)) items.length s).text_to_send.length
          = s.text_to_send.length ∧
      (decodeIter true (pre ++ (render items ++ 0 :: r)) items.length s).text_to_send.take
          (s.m + items.length) = s.text_to_send.take s.m ++ items.map Item.value ∧
      (∀ i ∈ decodeReads true (pre ++ (render items ++ 0 :: r)) fuel s,
        i < pre.length + (render items).length) ∧
      decodeWrites true (pre ++ (render items ++ 0 :: r)) fuel s
        = List.range' s.m items.length := by
  intro items
  induction items with
  | nil =>
    intro pre s fuel _ hwf hn _ hf
    obtain ⟨f, rfl⟩ : ∃ f, fuel = f + 1 := ⟨fuel - 1, by simp at hf; omega⟩
    have hsl : strlen (pre ++ 0 :: r) = pre.length :=
      strlen_append_zero pre r (by simpa [render] using hwf)
    simp [decodeIter, render, hn, decodeReads, decodeWrites, hsl]
  | cons it items ih =>
    intro pre s fuel hok hwf hn hm hf
    obtain ⟨f, rfl⟩ : ∃ f, fuel = f + 1 := ⟨fuel - 1, by simp at hf; omega⟩
    have hb : pre ++ (render (it :: items) ++ 0 :: r)
        = pre ++ (it.text ++ (render items ++ 0 :: r)) := by simp [render]
    have hb' : pre ++ (it.text ++ (render items ++ 0 :: r))
        = (pre ++ it.text) ++ (render items ++ 0 :: r) := by simp
    have hsl : strlen (pre ++ (render (it :: items) ++ 0 :: r))
        = (pre ++ render (it :: items)).length := by
      rw [← List.append_assoc]; exact strlen_append_zero _ _ hwf
    have hpos := Item.text_ne_nil it
    have hg : s.n < strlen (pre ++ (render (it :: items) ++ 0 :: r)) := by
      rw [hsl, hn]; simp [render]; omega
    have hwt : isCStr it.text := by
      intro b hb
      exact hwf b (by simp [render, hb])
    have hwf' : isCStr ((pre ++ it.text) ++ render items) := by
      simpa [render] using hwf
    have hok' : ∀ x ∈ items, x.shaped := fun x hx => hok x (by simp [hx])
    obtain ⟨e1, e2, e3⟩ := decodeStep_item it pre (render items ++ 0 :: r) s
      (hok it (by simp)) hwt hn
    have hlen : (it :: items).length = items.length + 1 := rfl
    simp only [hlen] at hm ⊢
    rw [decodeIter, decodeReads, decodeWrites, if_pos hg, if_pos hg, if_pos hg, hb, e1, e3, hb']
    obtain ⟨i1, i2, i3, i4, i5, i6⟩ := ih (pre ++ it.text)
      ⟨s.n + it.text.length, s.m + 1, s.text_to_send.set s.m it.value⟩ f hok' hwf'
      (by simp [hn]) (by simp; omega) (by omega)
    have hrl : (render (it :: items)).length = it.text.length + (render items).length := by
      simp [render]
    refine ⟨?_, ?_, ?_, ?_, ?_, ?_⟩
    · rw [i1, hrl]; simp; omega
    · rw [i2]; simp; omega
    · rw [i3]; simp
    · have e : s.m + (items.length + 1) = s.m + 1 + items.length := by omega
      rw [e, i4]
      simp only [List.map_cons]
      rw [take_set_succ _ _ _ (by omega)]
      simp
    · intro i hi
      rcases List.mem_append.mp hi with h | h
      · rw [← hb'] at h
        have := (e2 i h).2
        rw [hrl]; omega
      · have := i5 i h
        rw [hrl]
        simp at this
        omega
    · rw [i6]
      simp [List.range'_succ]

/-- Whole-run form for a payload made of items that have the shape of escapes
and ordinary characters. -/
theorem decode_shaped (items : List Item) (buffer0 stack : List Nat)
    (hok : ∀ it ∈ items, it.shaped) (hwf : isCStr (render items))
    (hlen : (render items).length < MAX_PATH)
    (hbuf : buffer0.length = MAX_PATH) (hstack : stack.length = MAX_PATH) :
    ∃ b r, strcpy buffer0 (render items) = some b ∧ decode true b stack = some r ∧
      r.n = (render items).length ∧ r.m = items.length ∧
      r.bytes = items.map Item.value ∧
      (∀ i ∈ decodeReads true b (MAX_PATH + 1) ⟨0, 0, stack⟩, i < (render items).length) ∧
      decodeWrites true b (MAX_PATH + 1) ⟨0, 0, stack⟩ = List.range r.m := by
  have hcpy := strcpy_fits buffer0 (render items) (by omega)
  have hsl := strlen_append_zero (render items) (buffer0.drop ((render items).length + 1)) hwf
  obtain ⟨r0, hr0, hdec⟩ := decode_total true
    (render items ++ 0 :: buffer0.drop ((render items).length + 1)) stack (by omega)
  have hil := length_le_render items
  obtain ⟨i1, i2, i3, i4, i5, i6⟩ := decode_shaped_run
    (buffer0.drop ((render items).length + 1)) items [] ⟨0, 0, stack⟩ (MAX_PATH + 1) hok
    (by simpa using hwf) rfl (by simp only [hstack]; omega) (by omega)
  simp only [List.nil_append, List.length_nil, Nat.zero_add, List.take_zero] at i1 i2 i3 i4 i5 i6
  have h1 := decodeLoop_from_iter true _ items.length _ _ _ hr0
  rw [decodeLoop, if_neg (by rw [hsl, i1]; omega)] at h1
  have h1 : decodeIter true (render items ++ 0 :: List.drop ((render items).length + 1) buffer0)
      items.length ⟨0, 0, stack⟩ = r0 := by simpa using h1
  rw [h1] at i1 i2 i3 i4
  refine ⟨_, _, hcpy, hdec, i1, i2, ?_, i5, ?_⟩
  · rw [bytes_after_terminator, i2, i4]
  · rw [i6, i2, List.range_eq_range']

/-- Whole-run form with `parse_hex_bytes` clear: the bytes are the payload. -/
theorem decode_plain (payload buffer0 stack : List Nat) (hwf : isCStr payload)
    (hlen : payload.length < MAX_PATH)
    (hbuf : buffer0.length = MAX_PATH) (hstack : stack.length = MAX_PATH) :
    ∃ b r, strcpy buffer0 payload = some b ∧ decode false b stack = some r ∧
      r.m = payload.length ∧ r.bytes = payload := by
  have hcpy := strcpy_fits buffer0 payload (by omega)
  have hsl := strlen_append_zero payload (buffer0.drop (payload.length + 1)) hwf
  obtain ⟨r0, hr0, hdec⟩ := decode_total false
    (payload ++ 0 :: buffer0.drop (payload.length + 1)) stack (by omega)
  obtain ⟨⟨h1, h2, h3, h4⟩, h5⟩ := decodeLoop_invariant false
    (payload ++ 0 :: buffer0.drop (payload.length + 1))
    (fun s => s.n = s.m ∧ s.n ≤ payload.length ∧ s.text_to_send.length = MAX_PATH ∧
      s.text_to_send.take s.m = payload.take s.m)
    (by
      intro s ⟨h1, h2, h3, h4⟩ hg
      rw [hsl] at hg
      rw [decodeStep_plain]
      refine ⟨by simp [h1], by simp; omega, by simp [h3], ?_⟩
      simp only
      rw [take_set_succ _ _ _ (by omega), h4, rd_payload _ _ _ hg, ← h1,
        take_succ_getD _ _ hg])
    (MAX_PATH + 1) ⟨0, 0, stack⟩ r0 ⟨rfl, Nat.zero_le _, hstack, by simp⟩ hr0
  rw [hsl] at h5
  have hm : r0.m = payload.length := by omega
  refine ⟨_, _, hcpy, hdec, hm, ?_⟩
  rw [bytes_after_terminator, h4, hm, List.take_length]

/-- The loop never produces more bytes than it has passed characters: in its
final state `m <= n` and `m <= strlen(buffer)`. -/
theorem decodeLoop_m_le (hex : Bool) (b stack : List Nat) (fuel : Nat) (r : DecState)
    (h : decodeLoop hex b fuel ⟨0, 0, stack⟩ = some r) : r.m ≤ strlen b := by
  have := decodeLoop_invariant hex b (fun x => x.m ≤ x.n ∧ x.m ≤ strlen b)
    (by
      intro x ⟨h1, h2⟩ hg
      have := decodeStep_n_lt hex b x
      exact ⟨by rw [decodeStep_m]; omega, by rw [decodeStep_m]; omega⟩)
    fuel ⟨0, 0, stack⟩ r ⟨le_refl _, Nat.zero_le _⟩ h
  exact this.1.2

/-! ## The claims about the decode loop as a whole -/

/-- C17: for every payload, with decoding enabled or not and with escapes
well-formed or not, the decode loop ends and the number of bytes `m` it
produces is at most the length of the text.  On a payload made of ordinary
characters and of escapes with their characters inside the text (always so
when decoding is disabled), the bytes produced depend only on the text and the
hex flag: two runs that start with different contents of `buffer` and
`text_to_send` produce the same `m` and the same bytes. -/
theorem decode_bounded_and_deterministic :
    (∀ (hex : Bool) (payload buffer0 stack : List Nat), isCStr payload →
      payload.length < MAX_PATH → buffer0.length = MAX_PATH →
      ∃ b r, strcpy buffer0 payload = some b ∧ decode hex b stack = some r ∧
        r.m ≤ payload.length) ∧
    (∀ (items : List Item) (buffer0 buffer0' stack stack' : List Nat),
      (∀ it ∈ items, it.shaped) → isCStr (render items) →
      (render items).length < MAX_PATH →
      buffer0.length = MAX_PATH → buffer0'.length = MAX_PATH →
      stack.length = MAX_PATH → stack'.length = MAX_PATH →
      ∃ b b' r r', strcpy buffer0 (render items) = some b ∧
        strcpy buffer0' (render items) = some b' ∧
        decode true b stack = some r ∧ decode true b' stack' = some r' ∧
        r.m = r'.m ∧ r.bytes = r'.bytes) ∧
    (∀ (payload buffer0 buffer0' stack stack' : List Nat), isCStr payload →
      payload.length < MAX_PATH →
      buffer0.length = MAX_PATH → buffer0'.length = MAX_PATH →
      stack.length = MAX_PATH → stack'.length = MAX_PATH →
      ∃ b b' r r', strcpy buffer0 payload = some b ∧ strcpy buffer0' payload = some b' ∧
        decode false b stack = some r ∧ decode false b' stack' = some r' ∧
        r.m = r'.m ∧ r.bytes = r'.bytes) := by
  refine ⟨?_, ?_, ?_⟩
  · intro hex payload buffer0 stack hwf hlen hbuf
    have hcpy := strcpy_fits buffer0 payload (by omega)
    have hsl := strlen_append_zero payload (buffer0.drop (payload.length + 1)) hwf
    obtain ⟨r0, hr0, hdec⟩ := decode_total hex
      (payload ++ 0 :: buffer0.drop (payload.length + 1)) stack (by omega)
    refine ⟨_, _, hcpy, hdec, ?_⟩
    have := decodeLoop_m_le hex _ stack _ r0 hr0
    rw [hsl] at this
    exact this
  · intro items buffer0 buffer0' stack stack' hok hwf hlen hb hb' hs hs'
    obtain ⟨b, r, h1, h2, _, h4, h5, _⟩ := decode_shaped items buffer0 stack hok hwf hlen hb hs
    obtain ⟨b', r', g1, g2, _, g4, g5, _⟩ :=
      decode_shaped items buffer0' stack' hok hwf hlen hb' hs'
    exact ⟨b, b', r, r', h1, g1, h2, g2, by rw [h4, g4], by rw [h5, g5]⟩
  · intro payload buffer0 buffer0' stack stack' hwf hlen hb hb' hs hs'
    obtain ⟨b, r, h1, h2, h4, h5⟩ := decode_plain payload buffer0 stack hwf hlen hb hs
    obtain ⟨b', r', g1, g2, g4, g5⟩ := decode_plain payload buffer0' stack' hwf hlen hb' hs'
    exact ⟨b, b', r, r', h1, g1, h2, g2, by rw [h4, g4], by rw [h5, g5]⟩

set_option maxRecDepth 100000 in
theorem decode_bounded_and_deterministic_witness :
    (∃ b r, strcpy (List.replicate 260 7) [92, 113, 92] = some b ∧
      decode true b (List.replicate 260 9) = some r ∧ r.m ≤ [92, 113, 92].length) ∧
    (∃ b b' r r',
      strcpy (List.replicate 260 7) (render [Item.lit 65, Item.hex 52 49, Item.nl]) = some b ∧
      strcpy (List.replicate 260 8) (render [Item.lit 65, Item.hex 52 49, Item.nl]) = some b' ∧
      decode true b (List.replicate 260 9) = some r ∧
      decode true b' (List.replicate 260 1) = some r' ∧
      r.m = r'.m ∧ r.bytes = r'.bytes) :=
  ⟨decode_bounded_and_deterministic.1 true [92, 113, 92] (List.replicate 260 7)
      (List.replicate 260 9) (by decide) (by decide) (by decide),
   decode_bounded_and_deterministic.2.1 [Item.lit 65, Item.hex 52 49, Item.nl]
      (List.replicate 260 7) (List.replicate 260 8) (List.replicate 260 9)
      (List.replicate 260 1) (by decide) (by decide) (by decide) (by decide) (by decide)
      (by decide) (by decide)⟩

/-- C20: with hex decoding enabled, on a payload made of ordinary characters
and of escapes that have their characters inside the text (a backslash
followed by a backslash, `n` or `r`, or by `x` and two further characters),
every read `buffer[..]` of the loop body is at an index below the text length,
the stores into `text_to_send` are at `0, 1, ..., m-1`, once each, the loop
ends with `n` equal to the text length, and `m` is the text length minus the
number of two-character escapes minus three times the number of
backslash-`x` escapes. -/
theorem wellformed_decode_stays_in_text (items : List Item) (buffer0 stack : List Nat)
    (hok : ∀ it ∈ items, it.shaped) (hwf : isCStr (render items))
    (hlen : (render items).length < MAX_PATH)
    (hbuf : buffer0.length = MAX_PATH) (hstack : stack.length = MAX_PATH) :
    ∃ b r, strcpy buffer0 (render items) = some b ∧ decode true b stack = some r ∧
      (∀ i ∈ decodeReads true b (MAX_PATH + 1) ⟨0, 0, stack⟩, i < (render items).length) ∧
      decodeWrites true b (MAX_PATH + 1) ⟨0, 0, stack⟩ = List.range r.m ∧
      r.n = (render items).length ∧
      r.m = (render items).length - twoCharEscapes items - 3 * hexEscapes items := by
  obtain ⟨b, r, h1, h2, h3, h4, _, h6, h7⟩ :=
    decode_shaped items buffer0 stack hok hwf hlen hbuf hstack
  refine ⟨b, r, h1, h2, h6, h7, h3, ?_⟩
  have := render_length items
  omega

set_option maxRecDepth 100000 in
theorem wellformed_decode_stays_in_text_witness :
    ∃ b r, strcpy (List.replicate 260 7)
        (render [Item.lit 65, Item.hex 52 122, Item.nl, Item.bslash]) = some b ∧
      decode true b (List.replicate 260 9) = some r ∧
      (∀ i ∈ decodeReads true b (MAX_PATH + 1) ⟨0, 0, List.replicate 260 9⟩,
        i < (render [Item.lit 65, Item.hex 52 122, Item.nl, Item.bslash]).length) ∧
      decodeWrites true b (MAX_PATH + 1) ⟨0, 0, List.replicate 260 9⟩ = List.range r.m ∧
      r.n = (render [Item.lit 65, Item.hex 52 122, Item.nl, Item.bslash]).length ∧
      r.m = (render [Item.lit 65, Item.hex 52 122, Item.nl, Item.bslash]).length
        - twoCharEscapes [Item.lit 65, Item.hex 52 122, Item.nl, Item.bslash]
        - 3 * hexEscapes [Item.lit 65, Item.hex 52 122, Item.nl, Item.bslash] :=
  wellformed_decode_stays_in_text [Item.lit 65, Item.hex 52 122, Item.nl, Item.bslash]
    (List.replicate 260 7) (List.replicate 260 9) (by decide) (by decide) (by decide)
    (by decide) (by decide)

/-! ## A backslash before any other character -/

/-- Positions of `text_to_send` from `m` on still hold what the array held on
entry. -/
theorem decodeIter_untouched (hex : Bool) (b stack : List Nat) (k : Nat) :
    ∀ j, (decodeIter hex b k ⟨0, 0, stack⟩).m ≤ j →
      (decodeIter hex b k ⟨0, 0, stack⟩).text_to_send[j]? = stack[j]? := by
  apply decodeIter_invariant hex b (fun x => ∀ j, x.m ≤ j → x.text_to_send[j]? = stack[j]?)
  · intro x hx _ j hj
    rw [decodeStep_m] at hj
    have key : ∀ v, (x.text_to_send.set x.m v)[j]? = stack[j]? := by
      intro v
      rw [List.getElem?_set, if_neg (by omega)]
      exact hx j (by omega)
    unfold decodeStep
    dsimp only
    split_ifs <;> first | exact key _ | exact hx j (by omega)
  · intro j _; rfl

/-- With hex decoding enabled, when the loop stands on a backslash followed by
a character other than the backslash, `n`, `r` and `x`, the iteration stores
nothing: it moves two characters on, increments `m`, and the byte the
transmitter gets at that position is what `text_to_send` held there before the
program started. -/
theorem decode_unknown_escape (payload buffer0 buffer stack rest : List Nat) (c k : Nat)
    (s : DecState) (hwf : isCStr payload) (hbuf : buffer0.length = MAX_PATH)
    (hstack : stack.length = MAX_PATH) (hcpy : strcpy buffer0 payload = some buffer)
    (hs : decodeIter true buffer k ⟨0, 0, stack⟩ = s)
    (hpat : payload.drop s.n = 92 :: c :: rest)
    (h1 : c ≠ 92) (h2 : c ≠ 110) (h3 : c ≠ 114) (h4 : c ≠ 120) :
    ∃ r, decode true buffer stack = some r ∧
      decodeIter true buffer (k + 1) ⟨0, 0, stack⟩ = ⟨s.n + 2, s.m + 1, s.text_to_send⟩ ∧
      decodeStepWrites true buffer s = [] ∧
      r.bytes[s.m]? = stack[s.m]? := by
  obtain ⟨hn, r0, d1⟩ := drop_cons_rd payload (0 :: buffer0.drop (payload.length + 1)) _ _ _ hpat
  obtain ⟨_, r1, _⟩ := drop_cons_rd payload (0 :: buffer0.drop (payload.length + 1)) _ _ _ d1
  obtain ⟨hb, hm, r, hdec, hnext, _, hbyte⟩ :=
    decode_at true payload buffer0 buffer stack k s hwf hbuf hstack hcpy hs hn
  rw [← hb] at r0 r1
  have hstep : decodeStep true buffer s = ⟨s.n + 2, s.m + 1, s.text_to_send⟩ := by
    simp [decodeStep, r0, r1, h1, h2, h3, h4]
  refine ⟨r, hdec, by rw [hnext, hstep], by simp [decodeStepWrites, r0, r1, h1, h2, h3, h4], ?_⟩
  rw [hbyte, hstep]
  have := decodeIter_untouched true buffer stack k s.m (by rw [hs])
  rw [hs] at this
  exact this

set_option maxRecDepth 100000 in
/-- C18 at the input `/hex` with the payload `a \ q b`: the decoder neither
fails nor passes `q` through.  The byte sent in place of the escape is the one
`text_to_send[1]` held before the program started: 9 when the array held 9s,
7 when it held 7s. -/
theorem unknown_escape_sends_stale_byte :
    main [cstr "/hex", [97, 92, 113, 98]] (List.replicate 260 0) (List.replicate 260 9)
        readyEnv 2
      = Outcome.exit 0
          [DevOp.createFile 50 true, DevOp.getCommState true,
           DevOp.setCommState ⟨9600, 8, 0, 0, 1⟩ true,
           DevOp.setCommTimeouts ⟨50, 50, 10, 50, 10⟩ true,
           DevOp.writeFile 0 [97, 9, 98] (some 3), DevOp.flushFileBuffers,
           DevOp.closeHandle true] ∧
    main [cstr "/hex", [97, 92, 113, 98]] (List.replicate 260 0) (List.replicate 260 7)
        readyEnv 2
      = Outcome.exit 0
          [DevOp.createFile 50 true, DevOp.getCommState true,
           DevOp.setCommState ⟨9600, 8, 0, 0, 1⟩ true,
           DevOp.setCommTimeouts ⟨50, 50, 10, 50, 10⟩ true,
           DevOp.writeFile 0 [97, 7, 98] (some 3), DevOp.flushFileBuffers,
           DevOp.closeHandle true] := by
  decide
end SerialSend
